import Mathlib

/-!
Verification of the trade-reconstruction engine.

This file gives a shallow embedding of the engine found under
src/infrastructure (the four variant processors, the trade builders, the
timeline aggregation utility and the defensive numeric parsers), and proves
or refutes the frozen claims about it.

Embedding conventions:
* JavaScript numbers are modelled as rationals; timestamps as integers.
  Raw records arrive from the exchanges as strings and are parsed with
  parseInt / parseFloat / SafeParsers at every use site; the record
  structures below carry the already-parsed numeric value, so a fill whose
  raw string field is malformed is represented by the fallback value the
  parser would produce (0).  The parsers themselves are modelled separately
  for the SafeParsers claims.
* Division by zero is total and yields 0 in the rational model, where
  JavaScript yields Infinity or NaN.  Every use of a division in a claim
  below is guarded by positivity of the denominator, so no claim depends on
  the behaviour at that point.
* Rounding of finite values to binary64 is abstracted away (model numbers
  are exact rationals), but the finite versus non-finite boundary is kept:
  a parse whose mathematical value reaches the IEEE binary64 overflow
  threshold 2 ^ 1024 - 2 ^ 970 yields an infinity, as parseInt and
  parseFloat do.  The Number-to-String rendering that SafeParsers applies
  to a number input follows the ECMAScript notation thresholds: plain
  decimal notation for zero and for magnitudes in [1e-6, 1e21), exponent
  notation outside, with the rendered digits taken from the exact model
  value.
* JavaScript Map objects are modelled as insertion-ordered association
  lists: set replaces in place, otherwise appends; values() iterates in
  insertion order, as the source relies on.
* Array.prototype.sort is a stable sort (ECMAScript 2019), modelled by
  List.insertionSort with the non-strict order induced by the comparator,
  which is stable for that order.
* String.prototype.localeCompare is modelled as lexicographic comparison of
  code points, and toLowerCase as ASCII lowercasing; the identifiers and
  side tags that flow through these functions in the source are plain ASCII.
-/

/-- TradeDirection enum of models/types. -/
inductive TradeDirection
  | LONG
  | SHORT
  deriving DecidableEq, Repr, Inhabited, Fintype

/-- PositionStatus enum of models/types. -/
inductive PositionStatus
  | OPEN
  | CLOSED
  | LIQUIDATED
  deriving DecidableEq, Repr, Inhabited, Fintype

/-- The action tag of a timeline event, a closed enum in models/types. -/
inductive TradeAction
  | OPEN
  | ADD
  | REDUCE
  | CLOSE
  | MARKET_ANALYSIS
  deriving DecidableEq, Repr, Inhabited, Fintype

/-- TimelineEvent of models/types.  The optional notes field is modelled as
a string with the empty string standing for undefined: the only consumers
filter with Boolean, which drops both. -/
structure TimelineEvent where
  timestamp : ℤ
  action : TradeAction
  size : ℚ
  price : ℚ
  tradeId : String
  orderId : String
  fee : ℚ
  feeCcy : String
  notes : String
  deriving DecidableEq, Repr, Inhabited

/-- One raw execution record (RawFill of models/types, OkxFill of okx/types).
Numeric fields carry the parsed value of the raw string. -/
structure Fill where
  instId : String
  tradeId : String
  ordId : String
  side : String
  posSide : String
  fillPx : ℚ
  fillSz : ℚ
  fee : ℚ
  feeCcy : String
  ts : ℤ
  deriving DecidableEq, Repr, Inhabited

/-- One funding-settlement record (Bill of models/types, OkxBill of
okx/types).  The funding tag is the string FUNDING_FEE for Binance and
the string 8 for OKX. -/
structure Bill where
  instId : String
  type : String
  balChg : ℚ
  ts : ℤ
  deriving DecidableEq, Repr, Inhabited

/-- Instrument metadata (InstrumentDetail of models/types, OkxInstrument of
okx/types), restricted to the fields the processors read. -/
structure InstrumentDetail where
  instId : String
  ctVal : ℚ
  baseCcy : String
  quoteCcy : String
  deriving DecidableEq, Repr, Inhabited

/-- A position-risk snapshot.  For Binance (RawPositionRisk) the fields are
called symbol, positionSide and notional; for OKX (OkxPosition) they are
called instId, posSide and notionalUsd.  One structure serves both. -/
structure PositionRisk where
  symbol : String
  positionSide : String
  notionalUsd : ℚ
  deriving DecidableEq, Repr, Inhabited

/-- StandardizedTrade of models/types.  The raw-record references
(_rawFills, _rawBills), free-text notes and tags are omitted: no claim
mentions them and no computation below reads them.  The internal helper
field _currentPositionSize is called currentPositionSize here, and the two
closing accumulators likewise lose their leading underscore. -/
structure StandardizedTrade where
  id : String
  symbol : String
  direction : TradeDirection
  status : PositionStatus
  entryTime : ℤ
  exitTime : ℤ
  durationMs : ℤ
  totalSize : ℚ
  totalValue : ℚ
  averageEntryPrice : ℚ
  averageExitPrice : ℚ
  realizedPnl : ℚ
  totalCommission : ℚ
  totalFundingFee : ℚ
  netPnl : ℚ
  pnlPercentage : ℚ
  pnlCurrency : String
  feeCurrency : String
  valueCurrency : String
  timeline : List TimelineEvent
  tradeIds : List String
  orderIds : List String
  currentPositionSize : ℚ
  closingSizeAccumulator : ℚ
  closingValueAccumulator : ℚ
  currentNotionalValue : Option ℚ
  deriving DecidableEq, Repr, Inhabited

/-- Lexicographic comparison of character lists by code point; the model of
a non-positive localeCompare result on ASCII strings. -/
def lexLe : List Char → List Char → Bool
  | [], _ => true
  | _ :: _, [] => false
  | a :: as, b :: bs =>
    if a.val.toNat < b.val.toNat then true
    else if b.val.toNat < a.val.toNat then false
    else lexLe as bs

/-- String comparison used to model localeCompare orderings. -/
def strLe (a b : String) : Bool := lexLe a.data b.data

/-- ASCII lowercasing of one character, the model of the effect of
String.prototype.toLowerCase on the ASCII tags used by the source. -/
def charToLowerAscii (c : Char) : Char :=
  if 65 ≤ c.val.toNat ∧ c.val.toNat ≤ 90 then Char.ofNat (c.val.toNat + 32) else c

/-- Model of String.prototype.toLowerCase. -/
def jsToLower (s : String) : String := ⟨s.data.map charToLowerAscii⟩

/-- Whether the character list s has pat as a leading segment. -/
def listStartsWith : List Char → List Char → Bool
  | _, [] => true
  | [], _ :: _ => false
  | a :: as, b :: bs => a == b && listStartsWith as bs

/-- Whether pat occurs somewhere inside s. -/
def listIncludes (pat : List Char) : List Char → Bool
  | [] => pat.isEmpty
  | c :: rest => listStartsWith (c :: rest) pat || listIncludes pat rest

/-- Model of String.prototype.includes. -/
def strIncludes (s pat : String) : Bool := listIncludes pat.data s.data

/-- Lookup in an insertion-ordered association list (Map.prototype.get). -/
def alGet {α : Type} (m : List (String × α)) (k : String) : Option α :=
  (m.find? (fun p => p.1 == k)).map (·.2)

/-- Map.prototype.set: replace in place when the key exists, else append. -/
def alSet {α : Type} : List (String × α) → String → α → List (String × α)
  | [], k, v => [(k, v)]
  | (k0, v0) :: rest, k, v =>
    if k0 == k then (k, v) :: rest else (k0, v0) :: alSet rest k v

/-- Map.prototype.delete. -/
def alErase {α : Type} (m : List (String × α)) (k : String) : List (String × α) :=
  m.filter (fun p => !(p.1 == k))

/-- In-place mutation of the value stored under a key, when present; the
model of get followed by field assignment on the retrieved object. -/
def alUpdate {α : Type} (m : List (String × α)) (k : String) (f : α → α) :
    List (String × α) :=
  m.map (fun p => if p.1 == k then (p.1, f p.2) else p)

/-- Map.prototype.values as a list, in insertion order. -/
def alValues {α : Type} (m : List (String × α)) : List α := m.map (·.2)

/-- The shared floating-point tolerance constant of the processors. -/
def FLOATING_POINT_TOLERANCE : ℚ := 1 / 1000000000

/-- Splits a list into the maximal runs in which every pair of adjacent
elements satisfies R.  This is the grouping loop shared by every timeline
aggregator in the source: the current group grows while the incoming event
is mergeable with the previous event, and is flushed otherwise. -/
def groupRuns {α : Type} (R : α → α → Bool) : List α → List (List α)
  | [] => []
  | [a] => [[a]]
  | a :: b :: l =>
    match groupRuns R (b :: l) with
    | [] => [[a]]
    | g :: gs => if R a b then (a :: g) :: gs else [a] :: g :: gs

/-- The sort order used by TimelineUtils.aggregateEvents: timestamp, then
tradeId by localeCompare. -/
def tlEventLE (a b : TimelineEvent) : Prop :=
  a.timestamp < b.timestamp ∨ (a.timestamp = b.timestamp ∧ strLe a.tradeId b.tradeId = true)

instance : DecidableRel tlEventLE := fun a b =>
  inferInstanceAs (Decidable
    (a.timestamp < b.timestamp ∨ (a.timestamp = b.timestamp ∧ strLe a.tradeId b.tradeId = true)))

/-- The merge test of TimelineUtils.aggregateEvents between the previous
event of the current group and the incoming event: within the window and
(same action, or an OPEN with ADD pair, or a REDUCE with CLOSE pair). -/
def tlCanMerge (mergeWindowMs : ℤ) (prev current : TimelineEvent) : Bool :=
  let isSameAction := current.action == prev.action
  let isWithinWindow := decide (current.timestamp - prev.timestamp < mergeWindowMs)
  let isOpenSequence :=
    (prev.action == TradeAction.OPEN && current.action == TradeAction.ADD) ||
    (prev.action == TradeAction.ADD && current.action == TradeAction.OPEN)
  let isCloseSequence :=
    (prev.action == TradeAction.REDUCE && current.action == TradeAction.CLOSE) ||
    (prev.action == TradeAction.CLOSE && current.action == TradeAction.REDUCE)
  isWithinWindow && (isSameAction || isOpenSequence || isCloseSequence)

/-- TimelineUtils.mergeGroup: collapse one group to a single event with
size-weighted price, summed size and fee, OPEN then CLOSE action priority,
and comma or semicolon concatenated identifier and note fields. -/
def tlMergeGroup (group : List TimelineEvent) : TimelineEvent :=
  match group with
  | [] => default
  | [e] => e
  | first :: e2 :: rest =>
    let all := first :: e2 :: rest
    let totalVal := (all.map (fun e => e.price * e.size)).sum
    let totalSz := (all.map (fun e => e.size)).sum
    let totalFee := (all.map (fun e => e.fee)).sum
    let avgPrice := if totalSz > 0 then totalVal / totalSz else 0
    let finalAction :=
      if all.any (fun e => e.action == TradeAction.OPEN) then TradeAction.OPEN
      else if all.any (fun e => e.action == TradeAction.CLOSE) then TradeAction.CLOSE
      else first.action
    { first with
      timestamp := first.timestamp
      action := finalAction
      price := avgPrice
      size := totalSz
      fee := totalFee
      tradeId := String.intercalate "," ((all.map (·.tradeId)).filter (fun s => !(s == "")))
      orderId := String.intercalate "," ((all.map (·.orderId)).filter (fun s => !(s == "")))
      notes := String.intercalate "; " ((all.map (·.notes)).filter (fun s => !(s == ""))) }

/-- The merge-compatibility class of an action: OPEN and ADD merge with
each other, REDUCE and CLOSE merge with each other, and no other pair of
distinct actions merges. -/
def clsAction : TradeAction → TradeAction
  | TradeAction.ADD => TradeAction.OPEN
  | TradeAction.CLOSE => TradeAction.REDUCE
  | a => a

/-- TimelineUtils.aggregateEvents: below two events the input is returned
as is; otherwise the events are stable-sorted by timestamp then tradeId,
split into mergeable runs and each run collapsed. -/
def aggregateEvents (executionEvents : List TimelineEvent) (mergeWindowMs : ℤ := 60000) :
    List TimelineEvent :=
  if executionEvents.length < 2 then executionEvents
  else
    (groupRuns (tlCanMerge mergeWindowMs) (List.insertionSort tlEventLE executionEvents)).map
      tlMergeGroup

/-- The value space of a JavaScript number as far as the parsers are
concerned: a finite rational, one of the two infinities, or NaN.  Rounding
of finite values to binary floating point is abstracted away; it does not
affect any claim settled below. -/
inductive JsNum
  | fin (q : ℚ)
  | posInf
  | negInf
  | nan
  deriving DecidableEq, Repr, Inhabited

/-- Whether a JavaScript number is finite. -/
def JsNum.isFinite : JsNum → Bool
  | .fin _ => true
  | _ => false

/-- ASCII decimal digit test. -/
def isDigitChar (c : Char) : Bool := 48 ≤ c.val.toNat && c.val.toNat ≤ 57

/-- Leading run of decimal digits, as values, with the remainder. -/
def takeDigits : List Char → List ℕ × List Char
  | [] => ([], [])
  | c :: cs =>
    if isDigitChar c then
      let (ds, rest) := takeDigits cs
      ((c.val.toNat - 48) :: ds, rest)
    else ([], c :: cs)

/-- Value of a digit run read most significant first. -/
def digitsToNat (ds : List ℕ) : ℕ := ds.foldl (fun acc d => 10 * acc + d) 0

/-- Drop the leading whitespace a JavaScript numeric parser skips. -/
def dropWs (s : List Char) : List Char :=
  s.dropWhile (fun c => c == ' ' || c == '\t' || c == '\n' || c == '\r')

/-- Optional sign; returns whether a minus sign was taken, and the rest. -/
def takeSign : List Char → Bool × List Char
  | '+' :: rest => (false, rest)
  | '-' :: rest => (true, rest)
  | s => (false, s)

/-- Optional exponent part of a decimal literal: e or E, an optional sign
and at least one digit; yields the exponent, or 0 when absent. -/
def takeExponent (s : List Char) : ℤ :=
  match s with
  | c :: rest =>
    if c == 'e' || c == 'E' then
      let (esign, rest2) :=
        match rest with
        | '+' :: r => ((1 : ℤ), r)
        | '-' :: r => ((-1 : ℤ), r)
        | r => ((1 : ℤ), r)
      let (eds, _) := takeDigits rest2
      if eds.isEmpty then 0 else esign * digitsToNat eds
    else 0
  | [] => 0

/-- The IEEE binary64 overflow threshold: a mathematical value whose
magnitude is at least 2 ^ 1024 - 2 ^ 970 converts to an infinity under
round-to-nearest-even, which is how parseInt and parseFloat overflow. -/
def JS_OVERFLOW_THRESHOLD : ℚ := 2 ^ 1024 - 2 ^ 970

/-- Model of the ECMAScript parseFloat operator on a string: skip leading
whitespace, take an optional sign, then the longest prefix that is either
the literal Infinity or a decimal mantissa with optional fraction and
exponent; anything else yields NaN.  Trailing garbage is ignored, and a
mantissa and exponent beyond the binary64 range overflow to an
infinity. -/
def jsParseFloat (s : String) : JsNum :=
  let cs := dropWs s.data
  let (neg, body) := takeSign cs
  if listStartsWith body "Infinity".data then
    if neg then JsNum.negInf else JsNum.posInf
  else
    let (intDs, afterInt) := takeDigits body
    let (fracDs, _) :=
      match afterInt with
      | '.' :: r => takeDigits r
      | _ => ([], afterInt)
    if intDs.isEmpty && fracDs.isEmpty then JsNum.nan
    else
      let afterMantissa := match afterInt with
        | '.' :: r => (takeDigits r).2
        | other => other
      let e := takeExponent afterMantissa
      let mantissa : ℚ :=
        (digitsToNat intDs : ℚ) + (digitsToNat fracDs : ℚ) / (10 : ℚ) ^ fracDs.length
      let mag := mantissa * (10 : ℚ) ^ e
      if JS_OVERFLOW_THRESHOLD ≤ mag then
        if neg then JsNum.negInf else JsNum.posInf
      else JsNum.fin ((if neg then -1 else 1) * mag)

/-- Model of the ECMAScript parseInt operator at radix 10: skip leading
whitespace, take an optional sign and then a leading digit run; no digits
yields NaN, and a digit run whose value reaches the binary64 overflow
threshold yields an infinity, as the Number conversion of the parsed
mathematical integer does. -/
def jsParseInt (s : String) : JsNum :=
  let cs := dropWs s.data
  let (neg, body) := takeSign cs
  let (ds, _) := takeDigits body
  if ds.isEmpty then JsNum.nan
  else if JS_OVERFLOW_THRESHOLD ≤ (digitsToNat ds : ℚ) then
    if neg then JsNum.negInf else JsNum.posInf
  else JsNum.fin ((if neg then -1 else 1) * digitsToNat ds)

/-- Truncation toward zero, the relation between a finite number and the
result of re-parsing its decimal rendering with parseInt. -/
def truncToward0 (q : ℚ) : ℚ := if q < 0 then (Int.ceil q : ℤ) else (Int.floor q : ℤ)

/-- The decimal-exponent shift of a positive rational below one: the least
k with 1 ≤ q * 10 ^ k; the search range is bounded by the digit count of
the denominator. -/
def decExpNeg (q : ℚ) : ℕ :=
  (((List.range (Nat.log 10 q.den + 2)).filter
    (fun k => decide (1 ≤ q * (10 : ℚ) ^ k))).head?).getD 0

/-- parseInt(String(q), 10) for a finite number q.  ECMAScript renders a
number in plain decimal notation exactly when its magnitude is zero or
lies in [1e-6, 1e21); parseInt then reads the integer part, truncating
toward zero.  Outside that range the rendering is exponent notation
d.ddde±k, of which parseInt reads only the leading digit, stopping at the
dot or the e.  The rendered digits are taken from the exact model
value. -/
def jsIntOfNumber (q : ℚ) : ℚ :=
  if q = 0 ∨ (1 / 1000000 ≤ |q| ∧ |q| < 10 ^ 21) then truncToward0 q
  else if 1 ≤ |q| then
    (if q < 0 then -1 else 1) *
      (Int.floor (|q| / (10 : ℚ) ^ (Nat.log 10 (Int.floor |q|).toNat)) : ℤ)
  else (if q < 0 then -1 else 1) * (Int.floor (|q| * (10 : ℚ) ^ decExpNeg |q|) : ℤ)

/-- The input type of the SafeParsers: a string, a number or an absent
value.  A number input is a finite rational here; the non-finite numbers
can be fed to the parsers through their string renderings. -/
def SafeParserInput : Type := Option (String ⊕ ℚ)

/-- SafeParsers.integer: absent input yields the fallback, otherwise the
input is rendered with String and parsed with parseInt at radix 10, and a
NaN result yields the fallback.  A number input goes through the
Number-to-String rendering and parseInt composition modelled by
jsIntOfNumber: truncation toward zero on the plain-notation range and the
leading rendered digit outside it. -/
def SafeParsers.integer (value : SafeParserInput) (fallback : ℚ := 0) : JsNum :=
  match value with
  | none => JsNum.fin fallback
  | some (Sum.inl s) =>
    match jsParseInt s with
    | JsNum.nan => JsNum.fin fallback
    | other => other
  | some (Sum.inr q) => JsNum.fin (jsIntOfNumber q)

/-- SafeParsers.float: absent input yields the fallback, otherwise the
input is rendered with String and parsed with parseFloat, and a NaN result
yields the fallback.  For a finite number input the String and parseFloat
round trip is the identity. -/
def SafeParsers.float (value : SafeParserInput) (fallback : ℚ := 0) : JsNum :=
  match value with
  | none => JsNum.fin fallback
  | some (Sum.inl s) =>
    match jsParseFloat s with
    | JsNum.nan => JsNum.fin fallback
    | other => other
  | some (Sum.inr q) => JsNum.fin q

/-- The funding-bill relevance test shared verbatim by every reconciling
variant: the bill timestamp is at or after entry, and the trade is still
open or the bill timestamp is at or before exit. -/
def fundingQualifies (trade : StandardizedTrade) (billTimestamp : ℤ) : Bool :=
  decide (billTimestamp ≥ trade.entryTime) &&
    (trade.status == PositionStatus.OPEN || decide (billTimestamp ≤ trade.exitTime))

/-- Credit one funding amount to a trade. -/
def addFundingToTrade (trade : StandardizedTrade) (amt : ℚ) : StandardizedTrade :=
  { trade with totalFundingFee := trade.totalFundingFee + amt }

/-- The inner loop of the Binance funding reconciliation (both the UM and
the CM processor): scan the trades of the bill instrument in list order and
credit the first one that qualifies, then break. -/
def applyFundingBillFirstMatch (instId : String) (billTs : ℤ) (amt : ℚ) :
    List StandardizedTrade → List StandardizedTrade
  | [] => []
  | t :: ts =>
    if t.symbol == instId && fundingQualifies t billTs then addFundingToTrade t amt :: ts
    else t :: applyFundingBillFirstMatch instId billTs amt ts

/-- The Binance funding loop over all bills, keeping only bills of the
funding type. -/
def binanceApplyFundingBills (trades : List StandardizedTrade) (rawBills : List Bill) :
    List StandardizedTrade :=
  rawBills.foldl
    (fun ts b =>
      if b.type == "FUNDING_FEE" then applyFundingBillFirstMatch b.instId b.ts b.balChg ts else ts)
    trades

/-- The OKX funding reconciliation for one trade: all bills of the funding
type 8 on the trade instrument are scanned in order and every qualifying
one is credited; there is no early break. -/
def okxAddFundingForTrade (rawBills : List Bill) (trade : StandardizedTrade) :
    StandardizedTrade :=
  (rawBills.filter (fun b => b.type == "8" && b.instId == trade.symbol)).foldl
    (fun t b => if fundingQualifies t b.ts then addFundingToTrade t b.balChg else t)
    trade

/-- The merge test of the local aggregator pasted into each of the CM, spot
and margin processors: same action or a REDUCE with CLOSE pair, within a
fixed sixty-second window.  Unlike TimelineUtils there is no OPEN with ADD
merging and no preliminary sort. -/
def bnCanMerge (prev current : TimelineEvent) : Bool :=
  let isSameAction := current.action == prev.action
  let isCloseSequence :=
    (prev.action == TradeAction.REDUCE && current.action == TradeAction.CLOSE) ||
    (prev.action == TradeAction.CLOSE && current.action == TradeAction.REDUCE)
  (isSameAction || isCloseSequence) && decide (current.timestamp - prev.timestamp < 60000)

/-- The merge step of the local Binance aggregator: CLOSE wins over OPEN,
identifier fields are inherited from the first event rather than joined,
and notes join with a semicolon. -/
def bnMergeEvents (events : List TimelineEvent) : TimelineEvent :=
  match events with
  | [] => default
  | [e] => e
  | first :: e2 :: rest =>
    let all := first :: e2 :: rest
    let totalVal := (all.map (fun e => e.price * e.size)).sum
    let totalSz := (all.map (fun e => e.size)).sum
    let totalFee := (all.map (fun e => e.fee)).sum
    let avgPrice := if totalSz > 0 then totalVal / totalSz else 0
    let mergedAction :=
      if all.any (fun e => e.action == TradeAction.CLOSE) then TradeAction.CLOSE
      else if all.any (fun e => e.action == TradeAction.OPEN) then TradeAction.OPEN
      else first.action
    { first with
      timestamp := first.timestamp
      price := avgPrice
      size := totalSz
      fee := totalFee
      action := mergedAction
      notes := String.intercalate "; " ((all.map (·.notes)).filter (fun s => !(s == ""))) }

/-- The local timeline aggregator of the CM, spot and margin processors:
group adjacent mergeable events of the already chronological timeline and
collapse each group. -/
def bnAggregateTimeline (timeline : List TimelineEvent) : List TimelineEvent :=
  if timeline.length < 2 then timeline
  else (groupRuns bnCanMerge timeline).map bnMergeEvents

/-- Index instrument metadata by identifier, as each processor does before
folding fills. -/
def buildInstrumentsIndex (instrumentDetails : List InstrumentDetail) :
    List (String × InstrumentDetail) :=
  instrumentDetails.foldl (fun m inst => alSet m inst.instId inst) []

/-- The timestamp-only sort order used by every Binance processor:
the comparator parseInt(a.ts) - parseInt(b.ts). -/
def fillTsLE (a b : Fill) : Prop := a.ts ≤ b.ts

instance : DecidableRel fillTsLE := fun a b => inferInstanceAs (Decidable (a.ts ≤ b.ts))

/-- The sort order of the OKX processor: timestamp, then tradeId by
localeCompare. -/
def okxFillLE (a b : Fill) : Prop :=
  a.ts < b.ts ∨ (a.ts = b.ts ∧ strLe a.tradeId b.tradeId = true)

instance : DecidableRel okxFillLE := fun a b =>
  inferInstanceAs (Decidable (a.ts < b.ts ∨ (a.ts = b.ts ∧ strLe a.tradeId b.tradeId = true)))

/-- BinanceCMFuturesTradeProcessor._createNewTrade. -/
def cmCreateNewTrade (instruments : List (String × InstrumentDetail)) (fill : Fill) :
    StandardizedTrade :=
  let fillTimestamp := fill.ts
  let positionSide := jsToLower fill.posSide
  let fillSide := jsToLower fill.side
  let instrument := alGet instruments fill.instId
  let pnlCcy := match instrument with
    | some inst => inst.baseCcy
    | none => "Unknown"
  let valCcy := match instrument with
    | some inst => inst.quoteCcy
    | none => "USD"
  let direction :=
    if positionSide == "long" then TradeDirection.LONG
    else if positionSide == "short" then TradeDirection.SHORT
    else if fillSide == "buy" then TradeDirection.LONG
    else TradeDirection.SHORT
  { id := fill.instId ++ "-" ++ positionSide ++ "-" ++ toString fillTimestamp
    symbol := fill.instId
    direction := direction
    status := PositionStatus.OPEN
    entryTime := fillTimestamp
    exitTime := 0
    durationMs := 0
    totalSize := 0
    totalValue := 0
    averageEntryPrice := 0
    averageExitPrice := 0
    realizedPnl := 0
    totalCommission := 0
    totalFundingFee := 0
    netPnl := 0
    pnlPercentage := 0
    pnlCurrency := pnlCcy
    feeCurrency := fill.feeCcy
    valueCurrency := valCcy
    timeline := []
    tradeIds := []
    orderIds := []
    currentPositionSize := 0
    closingSizeAccumulator := 0
    closingValueAccumulator := 0
    currentNotionalValue := none }

/-- BinanceCMFuturesTradeProcessor._updateTradeWithFill: inverse-contract
cost accumulation in the settlement coin and inverse PnL on reduction, with
the reduced size clamped to the open size. -/
def cmUpdateTradeWithFill (instruments : List (String × InstrumentDetail))
    (trade : StandardizedTrade) (fill : Fill) : StandardizedTrade :=
  let fillSide := jsToLower fill.side
  let fillPrice := fill.fillPx
  let fillSizeContracts := fill.fillSz
  let contractValueUsd := match alGet instruments fill.instId with
    | some inst => inst.ctVal
    | none => 100
  let fillNotionalUsd := fillSizeContracts * contractValueUsd
  let fillCostCoin := fillNotionalUsd / fillPrice
  let baseEvent : TimelineEvent :=
    { timestamp := fill.ts
      action := TradeAction.OPEN
      size := fillSizeContracts
      price := fillPrice
      tradeId := fill.tradeId
      orderId := fill.ordId
      fee := fill.fee
      feeCcy := fill.feeCcy
      notes := "" }
  let isCurrentLong := trade.direction == TradeDirection.LONG
  let isFillDirectionBuy := fillSide == "buy"
  let (trade, event) :=
    if (isCurrentLong && isFillDirectionBuy) || (!isCurrentLong && !isFillDirectionBuy) then
      let event := { baseEvent with
        action := if trade.timeline.length > 0 then TradeAction.ADD else TradeAction.OPEN }
      let previousCostCoin :=
        if trade.totalSize > 0 ∧ trade.averageEntryPrice > 0 then
          trade.totalValue / trade.averageEntryPrice
        else 0
      let newTotalNotionalUsd := trade.totalValue + fillNotionalUsd
      let newTotalCostCoin := previousCostCoin + fillCostCoin
      ({ trade with
          averageEntryPrice := newTotalNotionalUsd / newTotalCostCoin
          totalSize := trade.totalSize + fillSizeContracts
          totalValue := newTotalNotionalUsd
          currentPositionSize := trade.currentPositionSize + fillSizeContracts }, event)
    else
      let sizeReducedContracts := min fillSizeContracts trade.currentPositionSize
      let notionalReducedUsd := sizeReducedContracts * contractValueUsd
      let pnlCoin :=
        if trade.direction == TradeDirection.LONG then
          notionalReducedUsd * (1 / trade.averageEntryPrice - 1 / fillPrice)
        else
          notionalReducedUsd * (1 / fillPrice - 1 / trade.averageEntryPrice)
      let trade := { trade with
        realizedPnl := trade.realizedPnl + pnlCoin
        currentPositionSize := trade.currentPositionSize - sizeReducedContracts
        closingSizeAccumulator := trade.closingSizeAccumulator + sizeReducedContracts
        closingValueAccumulator := trade.closingValueAccumulator + sizeReducedContracts * fillPrice }
      if trade.currentPositionSize ≤ FLOATING_POINT_TOLERANCE then
        ({ trade with currentPositionSize := 0 }, { baseEvent with action := TradeAction.CLOSE })
      else (trade, { baseEvent with action := TradeAction.REDUCE })
  { trade with
    totalCommission := trade.totalCommission + event.fee
    timeline := trade.timeline ++ [event]
    tradeIds := trade.tradeIds ++ [fill.tradeId]
    orderIds :=
      if trade.orderIds.contains fill.ordId then trade.orderIds
      else trade.orderIds ++ [fill.ordId] }

/-- The shared _closeTrade of the Binance processors: mark closed, stamp
exit time and duration, and fix the average exit price from the closing
accumulators. -/
def binanceCloseTrade (trade : StandardizedTrade) (exitTimestamp : ℤ) : StandardizedTrade :=
  let trade := { trade with
    status := PositionStatus.CLOSED
    exitTime := exitTimestamp
    durationMs := exitTimestamp - trade.entryTime }
  if trade.closingSizeAccumulator > 0 then
    { trade with averageExitPrice := trade.closingValueAccumulator / trade.closingSizeAccumulator }
  else { trade with averageExitPrice := 0 }

/-- The close test at the bottom of the fill loops of the CM, spot and
margin processors: the running size is at or below tolerance and the last
timeline action is REDUCE or CLOSE. -/
def lastActionClosing (trade : StandardizedTrade) : Bool :=
  match trade.timeline.getLast? with
  | some e => e.action == TradeAction.REDUCE || e.action == TradeAction.CLOSE
  | none => false

/-- One iteration of the fill loop of
BinanceCMFuturesTradeProcessor._processFillsAndAggregateTrades. -/
def cmStep (instruments : List (String × InstrumentDetail))
    (st : List StandardizedTrade × List (String × StandardizedTrade)) (fill : Fill) :
    List StandardizedTrade × List (String × StandardizedTrade) :=
  let (closedTrades, openPositions) := st
  let positionKey := fill.instId ++ "-" ++ fill.posSide
  let fillSide := jsToLower fill.side
  let positionSide := jsToLower fill.posSide
  let isOpeningFill :=
    (positionSide == "long" && fillSide == "buy") || (positionSide == "short" && fillSide == "sell")
  match alGet openPositions positionKey with
  | none =>
    if !isOpeningFill then (closedTrades, openPositions)
    else
      let trade := cmUpdateTradeWithFill instruments (cmCreateNewTrade instruments fill) fill
      if decide (trade.currentPositionSize ≤ FLOATING_POINT_TOLERANCE) && lastActionClosing trade then
        (closedTrades ++ [binanceCloseTrade trade fill.ts], openPositions)
      else (closedTrades, alSet openPositions positionKey trade)
  | some trade0 =>
    let trade := cmUpdateTradeWithFill instruments trade0 fill
    if decide (trade.currentPositionSize ≤ FLOATING_POINT_TOLERANCE) && lastActionClosing trade then
      (closedTrades ++ [binanceCloseTrade trade fill.ts], alErase openPositions positionKey)
    else (closedTrades, alSet openPositions positionKey trade)

/-- The CM risk-annotation loop: the lookup key lowercases the snapshot
side while the fill fold key above does not lowercase the fill side. -/
def cmApplyRisks (openPositions : List (String × StandardizedTrade))
    (rawPositionRisks : List PositionRisk) : List (String × StandardizedTrade) :=
  rawPositionRisks.foldl
    (fun m r =>
      alUpdate m (r.symbol ++ "-" ++ jsToLower r.positionSide)
        (fun t => { t with currentNotionalValue := some r.notionalUsd }))
    openPositions

/-- BinanceCMFuturesTradeProcessor._applyBillsAndRisks.  The source mutates
trade objects shared between the closed list and the open map; the model
concatenates, applies the funding loop, splits back at the original
boundary and then runs the risk loop on the open side. -/
def cmApplyBillsAndRisks (closedTrades : List StandardizedTrade)
    (openPositions : List (String × StandardizedTrade)) (rawBills : List Bill)
    (rawPositionRisks : List PositionRisk) :
    List StandardizedTrade × List (String × StandardizedTrade) :=
  let allTrades := closedTrades ++ alValues openPositions
  let allTrades2 := binanceApplyFundingBills allTrades rawBills
  let closed2 := allTrades2.take closedTrades.length
  let open2 := (openPositions.map Prod.fst).zip (allTrades2.drop closedTrades.length)
  (closed2, cmApplyRisks open2 rawPositionRisks)

/-- BinanceCMFuturesTradeProcessor._finalizeTradeMetrics for one trade:
aggregate the timeline, recompute net PnL with funding, and derive the
return on the approximate coin cost basis. -/
def cmFinalizeTrade (trade : StandardizedTrade) : StandardizedTrade :=
  let trade := { trade with timeline := bnAggregateTimeline trade.timeline }
  let trade := { trade with
    netPnl := trade.realizedPnl - trade.totalCommission + trade.totalFundingFee }
  let costCoin := trade.totalValue / trade.averageEntryPrice
  if costCoin ≠ 0 then { trade with pnlPercentage := trade.netPnl / costCoin }
  else { trade with pnlPercentage := 0 }

/-- BinanceCMFuturesTradeProcessor.processAllData. -/
def cmProcessAllData (rawFills : List Fill) (rawBills : List Bill)
    (instrumentDetails : List InstrumentDetail) (rawPositionRisks : List PositionRisk) :
    List StandardizedTrade :=
  let instruments := buildInstrumentsIndex instrumentDetails
  let sorted := List.insertionSort fillTsLE rawFills
  let (closedTrades, openPositions) := sorted.foldl (cmStep instruments) ([], [])
  let (closed2, open2) := cmApplyBillsAndRisks closedTrades openPositions rawBills rawPositionRisks
  let allTrades := closed2 ++ alValues open2
  allTrades.map cmFinalizeTrade

/-- BinanceSpotTradeProcessor._createNewTrade. -/
def spotCreateNewTrade (instruments : List (String × InstrumentDetail)) (fill : Fill) :
    StandardizedTrade :=
  let fillTimestamp := fill.ts
  let quoteCcy := match alGet instruments fill.instId with
    | some inst => inst.quoteCcy
    | none => "USDT"
  { id := fill.instId ++ "-spot-" ++ toString fillTimestamp
    symbol := fill.instId
    direction := TradeDirection.LONG
    status := PositionStatus.OPEN
    entryTime := fillTimestamp
    exitTime := 0
    durationMs := 0
    totalSize := 0
    totalValue := 0
    averageEntryPrice := 0
    averageExitPrice := 0
    realizedPnl := 0
    totalCommission := 0
    totalFundingFee := 0
    netPnl := 0
    pnlPercentage := 0
    pnlCurrency := quoteCcy
    feeCurrency := fill.feeCcy
    valueCurrency := quoteCcy
    timeline := []
    tradeIds := []
    orderIds := []
    currentPositionSize := 0
    closingSizeAccumulator := 0
    closingValueAccumulator := 0
    currentNotionalValue := none }

/-- BinanceSpotTradeProcessor._updateTradeWithFill: weighted-average cost on
a buy, clamped long-only PnL on a sell. -/
def spotUpdateTradeWithFill (trade : StandardizedTrade) (fill : Fill) : StandardizedTrade :=
  let isBuy := jsToLower fill.side == "buy"
  let fillPrice := fill.fillPx
  let fillSize := fill.fillSz
  let baseEvent : TimelineEvent :=
    { timestamp := fill.ts
      action := TradeAction.OPEN
      size := fillSize
      price := fillPrice
      tradeId := fill.tradeId
      orderId := fill.ordId
      fee := fill.fee
      feeCcy := fill.feeCcy
      notes := "" }
  let (trade, event) :=
    if isBuy then
      let event := { baseEvent with
        action := if trade.timeline.length > 0 then TradeAction.ADD else TradeAction.OPEN }
      let newCumulativeSize := trade.totalSize + fillSize
      let newCumulativeCost := trade.totalSize * trade.averageEntryPrice + fillSize * fillPrice
      ({ trade with
          averageEntryPrice := newCumulativeCost / newCumulativeSize
          totalSize := newCumulativeSize
          totalValue := newCumulativeCost
          currentPositionSize := trade.currentPositionSize + fillSize }, event)
    else
      let sizeReduced := min fillSize trade.currentPositionSize
      let pnl := (fillPrice - trade.averageEntryPrice) * sizeReduced
      let trade := { trade with
        realizedPnl := trade.realizedPnl + pnl
        currentPositionSize := trade.currentPositionSize - sizeReduced
        closingSizeAccumulator := trade.closingSizeAccumulator + sizeReduced
        closingValueAccumulator := trade.closingValueAccumulator + sizeReduced * fillPrice }
      if trade.currentPositionSize ≤ FLOATING_POINT_TOLERANCE then
        ({ trade with currentPositionSize := 0 }, { baseEvent with action := TradeAction.CLOSE })
      else (trade, { baseEvent with action := TradeAction.REDUCE })
  { trade with
    totalCommission := trade.totalCommission + event.fee
    timeline := trade.timeline ++ [event]
    tradeIds := trade.tradeIds ++ [fill.tradeId]
    orderIds :=
      if trade.orderIds.contains fill.ordId then trade.orderIds
      else trade.orderIds ++ [fill.ordId] }

/-- One iteration of the fill loop of
BinanceSpotTradeProcessor._processFillsAndAggregateTrades: the key is the
instrument alone, a sell with no open virtual position is an orphan and is
skipped. -/
def spotStep (instruments : List (String × InstrumentDetail))
    (st : List StandardizedTrade × List (String × StandardizedTrade)) (fill : Fill) :
    List StandardizedTrade × List (String × StandardizedTrade) :=
  let (closedTrades, openPositions) := st
  let positionKey := fill.instId ++ "-spot"
  let isBuy := jsToLower fill.side == "buy"
  match alGet openPositions positionKey with
  | none =>
    if !isBuy then (closedTrades, openPositions)
    else
      let trade := spotUpdateTradeWithFill (spotCreateNewTrade instruments fill) fill
      if decide (trade.currentPositionSize ≤ FLOATING_POINT_TOLERANCE) && lastActionClosing trade then
        (closedTrades ++ [binanceCloseTrade trade fill.ts], openPositions)
      else (closedTrades, alSet openPositions positionKey trade)
  | some trade0 =>
    let trade := spotUpdateTradeWithFill trade0 fill
    if decide (trade.currentPositionSize ≤ FLOATING_POINT_TOLERANCE) && lastActionClosing trade then
      (closedTrades ++ [binanceCloseTrade trade fill.ts], alErase openPositions positionKey)
    else (closedTrades, alSet openPositions positionKey trade)

/-- BinanceSpotTradeProcessor._finalizeTradeMetrics for one trade: net PnL
is realized PnL minus commission, with no funding term. -/
def spotFinalizeTrade (trade : StandardizedTrade) : StandardizedTrade :=
  let trade := { trade with timeline := bnAggregateTimeline trade.timeline }
  let trade := { trade with netPnl := trade.realizedPnl - trade.totalCommission }
  if trade.totalValue > 0 then { trade with pnlPercentage := trade.netPnl / trade.totalValue }
  else { trade with pnlPercentage := 0 }

/-- BinanceSpotTradeProcessor.processAllData: no bill or risk phase. -/
def spotProcessAllData (rawFills : List Fill) (_rawBills : List Bill)
    (instrumentDetails : List InstrumentDetail) (_rawPositionRisks : List PositionRisk) :
    List StandardizedTrade :=
  let instruments := buildInstrumentsIndex instrumentDetails
  let sorted := List.insertionSort fillTsLE rawFills
  let (closedTrades, openPositions) := sorted.foldl (spotStep instruments) ([], [])
  let allTrades := closedTrades ++ alValues openPositions
  allTrades.map spotFinalizeTrade

/-- BinanceMarginTradeProcessor._createNewTrade: the direction of a new
margin cycle comes from the fill side, buy opening a long and sell a
short. -/
def marginCreateNewTrade (instruments : List (String × InstrumentDetail)) (fill : Fill) :
    StandardizedTrade :=
  let fillTimestamp := fill.ts
  let quoteCcy := match alGet instruments fill.instId with
    | some inst => inst.quoteCcy
    | none => "USDT"
  let isBuy := jsToLower fill.side == "buy"
  let direction := if isBuy then TradeDirection.LONG else TradeDirection.SHORT
  { id := fill.instId ++ "-margin-" ++ toString fillTimestamp
    symbol := fill.instId
    direction := direction
    status := PositionStatus.OPEN
    entryTime := fillTimestamp
    exitTime := 0
    durationMs := 0
    totalSize := 0
    totalValue := 0
    averageEntryPrice := 0
    averageExitPrice := 0
    realizedPnl := 0
    totalCommission := 0
    totalFundingFee := 0
    netPnl := 0
    pnlPercentage := 0
    pnlCurrency := quoteCcy
    feeCurrency := fill.feeCcy
    valueCurrency := quoteCcy
    timeline := []
    tradeIds := []
    orderIds := []
    currentPositionSize := 0
    closingSizeAccumulator := 0
    closingValueAccumulator := 0
    currentNotionalValue := none }

/-- BinanceMarginTradeProcessor._updateTradeWithFill: the running size is
signed, an increase accumulates the weighted entry price over the absolute
size, and a decrease books signed PnL without clamping (the flip split in
the step function guarantees the reduce never overshoots). -/
def marginUpdateTradeWithFill (trade : StandardizedTrade) (fill : Fill)
    (isOpeningNewCycle : Bool) : StandardizedTrade :=
  let isBuy := jsToLower fill.side == "buy"
  let fillPrice := fill.fillPx
  let fillSize := fill.fillSz
  let baseEvent : TimelineEvent :=
    { timestamp := fill.ts
      action := TradeAction.OPEN
      size := fillSize
      price := fillPrice
      tradeId := fill.tradeId
      orderId := fill.ordId
      fee := fill.fee
      feeCcy := fill.feeCcy
      notes := "" }
  let isIncrease := if trade.direction == TradeDirection.LONG then isBuy else !isBuy
  let (trade, event) :=
    if isIncrease then
      let event := { baseEvent with
        action :=
          if |trade.currentPositionSize| > 0 && !isOpeningNewCycle then TradeAction.ADD
          else TradeAction.OPEN }
      let currentAbsSize := |trade.currentPositionSize|
      let currentCost := currentAbsSize * trade.averageEntryPrice
      let newFillCost := fillSize * fillPrice
      let newTotalSize := currentAbsSize + fillSize
      ({ trade with
          averageEntryPrice := (currentCost + newFillCost) / newTotalSize
          totalSize := trade.totalSize + fillSize
          totalValue := trade.totalValue + newFillCost
          currentPositionSize :=
            if trade.direction == TradeDirection.LONG then trade.currentPositionSize + fillSize
            else trade.currentPositionSize - fillSize }, event)
    else
      let reduceSize := fillSize
      let (pnl, newPos) :=
        if trade.direction == TradeDirection.LONG then
          ((fillPrice - trade.averageEntryPrice) * reduceSize,
            trade.currentPositionSize - reduceSize)
        else
          ((trade.averageEntryPrice - fillPrice) * reduceSize,
            trade.currentPositionSize + reduceSize)
      let trade := { trade with
        realizedPnl := trade.realizedPnl + pnl
        currentPositionSize := newPos
        closingSizeAccumulator := trade.closingSizeAccumulator + reduceSize
        closingValueAccumulator := trade.closingValueAccumulator + reduceSize * fillPrice }
      if |trade.currentPositionSize| ≤ FLOATING_POINT_TOLERANCE then
        ({ trade with currentPositionSize := 0 }, { baseEvent with action := TradeAction.CLOSE })
      else (trade, { baseEvent with action := TradeAction.REDUCE })
  { trade with
    totalCommission := trade.totalCommission + event.fee
    timeline := trade.timeline ++ [event]
    tradeIds := trade.tradeIds ++ [fill.tradeId]
    orderIds :=
      if trade.orderIds.contains fill.ordId then trade.orderIds
      else trade.orderIds ++ [fill.ordId] }

/-- One iteration of the fill loop of
BinanceMarginTradeProcessor._processFillsAndAggregateTrades, with the flip
split: a closing fill larger than the open position is split into an exact
close and the opening fill of a fresh opposite trade under the same key. -/
def marginStep (instruments : List (String × InstrumentDetail))
    (st : List StandardizedTrade × List (String × StandardizedTrade)) (fill : Fill) :
    List StandardizedTrade × List (String × StandardizedTrade) :=
  let (closedTrades, openPositions) := st
  let positionKey := fill.instId ++ "-margin"
  match alGet openPositions positionKey with
  | none =>
    let trade := marginUpdateTradeWithFill (marginCreateNewTrade instruments fill) fill false
    (closedTrades, alSet openPositions positionKey trade)
  | some trade0 =>
    let fillSize := fill.fillSz
    let isBuy := jsToLower fill.side == "buy"
    let flipData :=
      if trade0.direction == TradeDirection.LONG && !isBuy then
        if fillSize > trade0.currentPositionSize + FLOATING_POINT_TOLERANCE then
          some (trade0.currentPositionSize, fillSize - trade0.currentPositionSize)
        else none
      else if trade0.direction == TradeDirection.SHORT && isBuy then
        if fillSize > |trade0.currentPositionSize| + FLOATING_POINT_TOLERANCE then
          some (|trade0.currentPositionSize|, fillSize - |trade0.currentPositionSize|)
        else none
      else none
    match flipData with
    | some (closingSize, openingSize) =>
      let closingFill := { fill with fillSz := closingSize }
      let trade1 := marginUpdateTradeWithFill trade0 closingFill false
      let trade1 := binanceCloseTrade trade1 fill.ts
      let openingFill := { fill with fillSz := openingSize }
      let newTrade := marginCreateNewTrade instruments openingFill
      let newTrade := marginUpdateTradeWithFill newTrade openingFill true
      (closedTrades ++ [trade1], alSet openPositions positionKey newTrade)
    | none =>
      let trade := marginUpdateTradeWithFill trade0 fill false
      if decide (|trade.currentPositionSize| ≤ FLOATING_POINT_TOLERANCE) &&
          lastActionClosing trade then
        (closedTrades ++ [binanceCloseTrade trade fill.ts], alErase openPositions positionKey)
      else (closedTrades, alSet openPositions positionKey trade)

/-- BinanceMarginTradeProcessor._finalizeTradeMetrics for one trade: net
PnL is realized PnL minus commission, with no funding term. -/
def marginFinalizeTrade (trade : StandardizedTrade) : StandardizedTrade :=
  let trade := { trade with timeline := bnAggregateTimeline trade.timeline }
  let trade := { trade with netPnl := trade.realizedPnl - trade.totalCommission }
  if trade.totalValue > 0 then { trade with pnlPercentage := trade.netPnl / trade.totalValue }
  else { trade with pnlPercentage := 0 }

/-- BinanceMarginTradeProcessor.processAllData: sort by timestamp, fold the
fills and finalize.  The bill and position-risk arguments are accepted and
never used: this processor performs no funding reconciliation and no
notional annotation. -/
def marginProcessAllData (rawFills : List Fill) (_rawBills : List Bill)
    (instrumentDetails : List InstrumentDetail) (_rawPositionRisks : List PositionRisk) :
    List StandardizedTrade :=
  let instruments := buildInstrumentsIndex instrumentDetails
  let sorted := List.insertionSort fillTsLE rawFills
  let (closedTrades, openPositions) := sorted.foldl (marginStep instruments) ([], [])
  let allTrades := closedTrades ++ alValues openPositions
  allTrades.map marginFinalizeTrade

/-- OkxTradeBuilder state: the trade under construction plus the contract
value and contract-class flag fixed at construction. -/
structure OkxTradeBuilder where
  trade : StandardizedTrade
  contractValue : ℚ
  isInverse : Bool
  deriving DecidableEq, Repr, Inhabited

/-- OkxTradeBuilder.initializeTrade. -/
def okxInitializeTrade (fill : Fill) (isInverse : Bool) : StandardizedTrade :=
  let ts := fill.ts
  let posSide := jsToLower fill.posSide
  let direction :=
    if posSide == "long" then TradeDirection.LONG
    else if posSide == "short" then TradeDirection.SHORT
    else if jsToLower fill.side == "buy" then TradeDirection.LONG
    else TradeDirection.SHORT
  let defaultFeeCcy := if fill.feeCcy == "" then "USDT" else fill.feeCcy
  let pnlCcy :=
    if isInverse then (if fill.feeCcy == "" then "BTC" else fill.feeCcy) else "USDT"
  let valCcy := if isInverse then "USD" else "USDT"
  { id := fill.instId ++ "-" ++ fill.posSide ++ "-" ++ toString ts
    symbol := fill.instId
    direction := direction
    status := PositionStatus.OPEN
    entryTime := ts
    exitTime := 0
    durationMs := 0
    totalSize := 0
    totalValue := 0
    averageEntryPrice := 0
    averageExitPrice := 0
    realizedPnl := 0
    totalCommission := 0
    totalFundingFee := 0
    netPnl := 0
    pnlPercentage := 0
    pnlCurrency := pnlCcy
    feeCurrency := defaultFeeCcy
    valueCurrency := valCcy
    timeline := []
    tradeIds := []
    orderIds := []
    currentPositionSize := 0
    closingSizeAccumulator := 0
    closingValueAccumulator := 0
    currentNotionalValue := none }

/-- OkxTradeBuilder.determineAction: an increasing fill is OPEN on the
first event and ADD afterwards, a decreasing fill is REDUCE. -/
def okxDetermineAction (trade : StandardizedTrade) (fill : Fill) : TradeAction :=
  let isLong := trade.direction == TradeDirection.LONG
  let isBuy := jsToLower fill.side == "buy"
  if (isLong && isBuy) || (!isLong && !isBuy) then
    if trade.timeline.length == 0 then TradeAction.OPEN else TradeAction.ADD
  else TradeAction.REDUCE

/-- OkxTradeBuilder.updateState: cost accumulation and PnL with the linear
or inverse formula, the reduced size clamped to the open size, and closing
performed inside the builder, flipping the event action to CLOSE.  Returns
the updated trade together with the possibly rewritten event. -/
def okxUpdateState (b : OkxTradeBuilder) (event : TimelineEvent) :
    StandardizedTrade × TimelineEvent :=
  let trade := b.trade
  let (trade, event) :=
    if event.action == TradeAction.OPEN || event.action == TradeAction.ADD then
      let addedCost :=
        if b.isInverse then (if event.price > 0 then event.size / event.price else 0)
        else event.size * event.price
      let newTotalCost := trade.totalValue + addedCost
      let newTotalSize := trade.totalSize + event.size
      let avgEntry :=
        if newTotalSize > 0 ∧ newTotalCost > 0 then
          if b.isInverse then newTotalSize / newTotalCost else newTotalCost / newTotalSize
        else trade.averageEntryPrice
      ({ trade with
          averageEntryPrice := avgEntry
          totalSize := newTotalSize
          totalValue := newTotalCost
          currentPositionSize := trade.currentPositionSize + event.size }, event)
    else
      let sizeReduced := min event.size trade.currentPositionSize
      let isLong := trade.direction == TradeDirection.LONG
      let pnl :=
        if b.isInverse then
          if trade.averageEntryPrice > 0 ∧ event.price > 0 then
            if isLong then sizeReduced * (1 / trade.averageEntryPrice - 1 / event.price)
            else sizeReduced * (1 / event.price - 1 / trade.averageEntryPrice)
          else 0
        else (event.price - trade.averageEntryPrice) * sizeReduced * (if isLong then 1 else -1)
      let trade := { trade with
        realizedPnl := trade.realizedPnl + pnl
        currentPositionSize := trade.currentPositionSize - sizeReduced
        closingSizeAccumulator := trade.closingSizeAccumulator + sizeReduced
        closingValueAccumulator :=
          if b.isInverse then
            if event.price > 0 then trade.closingValueAccumulator + sizeReduced / event.price
            else trade.closingValueAccumulator
          else trade.closingValueAccumulator + sizeReduced * event.price }
      if trade.currentPositionSize ≤ FLOATING_POINT_TOLERANCE then
        let trade := { trade with
          status := PositionStatus.CLOSED
          exitTime := event.timestamp
          durationMs := event.timestamp - trade.entryTime }
        let trade :=
          if trade.closingSizeAccumulator > 0 then
            { trade with
              averageExitPrice :=
                if b.isInverse then
                  if trade.closingValueAccumulator > 0 then
                    trade.closingSizeAccumulator / trade.closingValueAccumulator
                  else 0
                else trade.closingValueAccumulator / trade.closingSizeAccumulator }
          else trade
        ({ trade with currentPositionSize := 0 }, { event with action := TradeAction.CLOSE })
      else (trade, event)
  ({ trade with totalCommission := trade.totalCommission + event.fee }, event)

/-- OkxTradeBuilder.addFill: build the event with the contract-scaled size
and the sign-normalized fee, run updateState, then append the event and the
identifiers. -/
def okxAddFill (b : OkxTradeBuilder) (fill : Fill) : OkxTradeBuilder :=
  let eventSize := fill.fillSz * b.contractValue
  let normalizedFee := -fill.fee
  let action := okxDetermineAction b.trade fill
  let event : TimelineEvent :=
    { timestamp := fill.ts
      action := action
      size := eventSize
      price := fill.fillPx
      tradeId := fill.tradeId
      orderId := fill.ordId
      fee := normalizedFee
      feeCcy := fill.feeCcy
      notes := "" }
  let (trade, event2) := okxUpdateState b event
  let trade := { trade with
    timeline := trade.timeline ++ [event2]
    tradeIds := trade.tradeIds ++ [fill.tradeId]
    orderIds :=
      if trade.orderIds.contains fill.ordId then trade.orderIds
      else trade.orderIds ++ [fill.ordId] }
  { b with trade := trade }

/-- The OkxTradeBuilder constructor: initialize the trade, then feed the
first fill through addFill. -/
def okxNewBuilder (fill : Fill) (contractValue : ℚ) (isInverse : Bool) : OkxTradeBuilder :=
  okxAddFill { trade := okxInitializeTrade fill isInverse,
               contractValue := contractValue, isInverse := isInverse } fill

/-- OkxUMFuturesTradeProcessor.isReduceOnly: the orphan filter. -/
def okxIsReduceOnly (fill : Fill) : Bool :=
  let side := jsToLower fill.side
  let posSide := jsToLower fill.posSide
  (posSide == "long" && side == "sell") || (posSide == "short" && side == "buy")

/-- One iteration of the fill loop of OkxUMFuturesTradeProcessor.processFills:
the key is the instrument with the lowercased position side, an orphan
reducing fill is skipped, and a builder that reports closed is moved to the
output and removed. -/
def okxStep (instruments : List (String × InstrumentDetail))
    (st : List StandardizedTrade × List (String × OkxTradeBuilder)) (fill : Fill) :
    List StandardizedTrade × List (String × OkxTradeBuilder) :=
  let (closedTrades, openPositions) := st
  let positionKey := fill.instId ++ "-" ++ jsToLower fill.posSide
  let afterBuilder : Option OkxTradeBuilder :=
    match alGet openPositions positionKey with
    | none =>
      if okxIsReduceOnly fill then none
      else
        let contractValue := match alGet instruments fill.instId with
          | some inst => inst.ctVal
          | none => 1
        let isInverse := strIncludes fill.instId "-USD-" && !(strIncludes fill.instId "-USDT-")
        some (okxNewBuilder fill contractValue isInverse)
    | some b => some (okxAddFill b fill)
  match afterBuilder with
  | none => (closedTrades, openPositions)
  | some b =>
    if b.trade.status == PositionStatus.CLOSED then
      (closedTrades ++ [b.trade], alErase openPositions positionKey)
    else (closedTrades, alSet openPositions positionKey b)

/-- The risk loop of OkxUMFuturesTradeProcessor.applyBillsAndRisks: the
lookup key lowercases the snapshot side, matching the fill fold keys. -/
def okxApplyRisks (openPositions : List (String × OkxTradeBuilder))
    (positions : List PositionRisk) : List (String × OkxTradeBuilder) :=
  positions.foldl
    (fun m r =>
      alUpdate m (r.symbol ++ "-" ++ jsToLower r.positionSide)
        (fun b => { b with trade := { b.trade with currentNotionalValue := some r.notionalUsd } }))
    openPositions

/-- OkxUMFuturesTradeProcessor.finalizeMetrics for one trade: aggregate the
timeline through TimelineUtils and recompute net PnL with funding. -/
def okxFinalizeTrade (trade : StandardizedTrade) : StandardizedTrade :=
  let trade := { trade with timeline := aggregateEvents trade.timeline }
  let trade := { trade with
    netPnl := trade.realizedPnl - trade.totalCommission + trade.totalFundingFee }
  if trade.totalValue > 0 then { trade with pnlPercentage := trade.netPnl / trade.totalValue }
  else { trade with pnlPercentage := 0 }

/-- OkxUMFuturesTradeProcessor.processAllData: index instruments, sort by
timestamp then tradeId, fold the fills, reconcile funding over every trade
without early break, annotate open builders from risk snapshots, and
finalize. -/
def okxProcessAllData (rawFills : List Fill) (rawBills : List Bill)
    (instrumentDetails : List InstrumentDetail) (positions : List PositionRisk) :
    List StandardizedTrade :=
  let instruments := buildInstrumentsIndex instrumentDetails
  let sorted := List.insertionSort okxFillLE rawFills
  let (closedTrades, openPositions) := sorted.foldl (okxStep instruments) ([], [])
  let closed2 := closedTrades.map (okxAddFundingForTrade rawBills)
  let open2 := openPositions.map
    (fun p => (p.1, { p.2 with trade := okxAddFundingForTrade rawBills p.2.trade }))
  let open3 := okxApplyRisks open2 positions
  let allTrades := closed2 ++ open3.map (fun p => p.2.trade)
  allTrades.map okxFinalizeTrade

/-- BinanceTradeBuilder state: the trade under construction plus the
contract value fixed at construction. -/
structure BinanceTradeBuilder where
  trade : StandardizedTrade
  contractValue : ℚ
  deriving DecidableEq, Repr, Inhabited

/-- BinanceTradeBuilder.initializeTrade. -/
def umInitializeTrade (fill : Fill) : StandardizedTrade :=
  let timestamp := fill.ts
  let positionSide := jsToLower fill.posSide
  let fillSide := jsToLower fill.side
  let direction :=
    if positionSide == "long" then TradeDirection.LONG
    else if positionSide == "short" then TradeDirection.SHORT
    else if fillSide == "buy" then TradeDirection.LONG
    else TradeDirection.SHORT
  { id := fill.instId ++ "-" ++ fill.posSide ++ "-" ++ toString timestamp
    symbol := fill.instId
    direction := direction
    status := PositionStatus.OPEN
    entryTime := timestamp
    exitTime := 0
    durationMs := 0
    totalSize := 0
    totalValue := 0
    averageEntryPrice := 0
    averageExitPrice := 0
    realizedPnl := 0
    totalCommission := 0
    totalFundingFee := 0
    netPnl := 0
    pnlPercentage := 0
    pnlCurrency := "USDT"
    feeCurrency := if fill.feeCcy == "" then "USDT" else fill.feeCcy
    valueCurrency := "USDT"
    timeline := []
    tradeIds := []
    orderIds := []
    currentPositionSize := 0
    closingSizeAccumulator := 0
    closingValueAccumulator := 0
    currentNotionalValue := none }

/-- BinanceTradeBuilder.applyEvent: weighted-average entry on OPEN or ADD,
clamped linear PnL on REDUCE or CLOSE, then push the event. -/
def umApplyEvent (trade : StandardizedTrade) (event : TimelineEvent) (isLong : Bool) :
    StandardizedTrade :=
  let trade :=
    if event.action == TradeAction.OPEN || event.action == TradeAction.ADD then
      let newSize := trade.totalSize + event.size
      let newVal := trade.totalValue + event.size * event.price
      let trade :=
        if newSize > 0 then { trade with averageEntryPrice := newVal / newSize } else trade
      { trade with
        totalSize := newSize
        totalValue := newVal
        currentPositionSize := trade.currentPositionSize + event.size }
    else if event.action == TradeAction.REDUCE || event.action == TradeAction.CLOSE then
      let reduceSize := min event.size trade.currentPositionSize
      let pnl := (event.price - trade.averageEntryPrice) * reduceSize * (if isLong then 1 else -1)
      { trade with
        realizedPnl := trade.realizedPnl + pnl
        currentPositionSize := trade.currentPositionSize - reduceSize
        closingSizeAccumulator := trade.closingSizeAccumulator + reduceSize
        closingValueAccumulator := trade.closingValueAccumulator + reduceSize * event.price }
    else trade
  { trade with timeline := trade.timeline ++ [event] }

/-- BinanceTradeBuilder.closeTrade: mark closed and fix the exit price; the
running size is left as it stands, at or below tolerance but not zeroed. -/
def umCloseTrade (trade : StandardizedTrade) (exitTime : ℤ) : StandardizedTrade :=
  let trade := { trade with
    status := PositionStatus.CLOSED
    exitTime := exitTime
    durationMs := exitTime - trade.entryTime }
  if trade.closingSizeAccumulator > 0 then
    { trade with averageExitPrice := trade.closingValueAccumulator / trade.closingSizeAccumulator }
  else trade

/-- BinanceTradeBuilder.addFill: classify the action, apply the event,
record identifiers and fee, then auto-detect the close and rewrite the last
event action to CLOSE. -/
def umAddFill (b : BinanceTradeBuilder) (fill : Fill) : BinanceTradeBuilder :=
  let fillPrice := fill.fillPx
  let fillSize := fill.fillSz * b.contractValue
  let fillFee := fill.fee
  let timestamp := fill.ts
  let isLong := b.trade.direction == TradeDirection.LONG
  let isBuy := jsToLower fill.side == "buy"
  let isAdd := if isLong then isBuy else !isBuy
  let action :=
    if b.trade.timeline.length == 0 then TradeAction.OPEN
    else if isAdd then TradeAction.ADD
    else TradeAction.REDUCE
  let event : TimelineEvent :=
    { timestamp := timestamp
      action := action
      size := fillSize
      price := fillPrice
      tradeId := fill.tradeId
      orderId := fill.ordId
      fee := fillFee
      feeCcy := fill.feeCcy
      notes := "" }
  let trade := umApplyEvent b.trade event isLong
  let trade := { trade with
    tradeIds :=
      if trade.tradeIds.contains fill.tradeId then trade.tradeIds
      else trade.tradeIds ++ [fill.tradeId]
    orderIds :=
      if trade.orderIds.contains fill.ordId then trade.orderIds
      else trade.orderIds ++ [fill.ordId] }
  let trade := { trade with totalCommission := trade.totalCommission + fillFee }
  let trade :=
    if action == TradeAction.REDUCE &&
        decide (trade.currentPositionSize ≤ FLOATING_POINT_TOLERANCE) then
      let t := umCloseTrade trade timestamp
      { t with timeline := t.timeline.dropLast ++ [{ event with action := TradeAction.CLOSE }] }
    else trade
  { b with trade := trade }

/-- The BinanceTradeBuilder constructor: initialize the trade, then feed
the first fill through addFill. -/
def umNewBuilder (fill : Fill) (contractValue : ℚ) : BinanceTradeBuilder :=
  umAddFill { trade := umInitializeTrade fill, contractValue := contractValue } fill

/-- One iteration of the fill loop of
BinanceUMFuturesTradeProcessor.processFills: the key concatenates the raw
position side without lowercasing, orphan closing fills are skipped, and a
builder that reports closed is moved out. -/
def umStep (instruments : List (String × InstrumentDetail))
    (st : List StandardizedTrade × List (String × BinanceTradeBuilder)) (fill : Fill) :
    List StandardizedTrade × List (String × BinanceTradeBuilder) :=
  let (closedTrades, openPositions) := st
  let positionKey := fill.instId ++ "-" ++ fill.posSide
  let afterBuilder : Option BinanceTradeBuilder :=
    match alGet openPositions positionKey with
    | none =>
      let fillSide := jsToLower fill.side
      let positionSide := jsToLower fill.posSide
      let isOpeningFill :=
        (positionSide == "long" && fillSide == "buy") ||
        (positionSide == "short" && fillSide == "sell")
      if !isOpeningFill then none
      else
        let contractValue := match alGet instruments fill.instId with
          | some inst => inst.ctVal
          | none => 1
        some (umNewBuilder fill contractValue)
    | some b => some (umAddFill b fill)
  match afterBuilder with
  | none => (closedTrades, openPositions)
  | some b =>
    if b.trade.status == PositionStatus.CLOSED then
      (closedTrades ++ [b.trade], alErase openPositions positionKey)
    else (closedTrades, alSet openPositions positionKey b)

/-- The risk loop of BinanceUMFuturesTradeProcessor.applyBillsAndRisks: the
loop body computes a lookup key and then consists only of commentary; no
trade is modified, so the loop is the identity on the open positions. -/
def umApplyRisks (openPositions : List (String × BinanceTradeBuilder))
    (_rawPositionRisks : List PositionRisk) : List (String × BinanceTradeBuilder) :=
  openPositions

/-- BinanceUMFuturesTradeProcessor.applyBillsAndRisks: the funding loop
credits each funding bill to the first qualifying trade of its instrument
and breaks; the risk loop is a no-op.  The source mutates trade objects
shared between the closed list and the open map; the model concatenates,
applies the funding loop and splits back at the original boundary. -/
def umApplyBillsAndRisks (closedTrades : List StandardizedTrade)
    (openPositions : List (String × BinanceTradeBuilder)) (rawBills : List Bill)
    (rawPositionRisks : List PositionRisk) :
    List StandardizedTrade × List (String × BinanceTradeBuilder) :=
  let allTrades := closedTrades ++ openPositions.map (fun p => p.2.trade)
  let allTrades2 := binanceApplyFundingBills allTrades rawBills
  let closed2 := allTrades2.take closedTrades.length
  let newTrades := allTrades2.drop closedTrades.length
  let open2 := (openPositions.zip newTrades).map
    (fun pq => (pq.1.1, { pq.1.2 with trade := pq.2 }))
  (closed2, umApplyRisks open2 rawPositionRisks)

/-- BinanceUMFuturesTradeProcessor.finalizeMetrics for one trade. -/
def umFinalizeTrade (trade : StandardizedTrade) : StandardizedTrade :=
  let trade := { trade with timeline := aggregateEvents trade.timeline }
  let trade := { trade with
    netPnl := trade.realizedPnl - trade.totalCommission + trade.totalFundingFee }
  if trade.totalValue > 0 then { trade with pnlPercentage := trade.netPnl / trade.totalValue }
  else { trade with pnlPercentage := 0 }

/-- BinanceUMFuturesTradeProcessor.processAllData: sort by timestamp alone,
fold the fills, apply bills and risks, and finalize. -/
def umProcessAllData (rawFills : List Fill) (rawBills : List Bill)
    (instrumentDetails : List InstrumentDetail) (rawPositionRisks : List PositionRisk) :
    List StandardizedTrade :=
  let instruments := buildInstrumentsIndex instrumentDetails
  let sorted := List.insertionSort fillTsLE rawFills
  let (closedTrades, openPositions) := sorted.foldl (umStep instruments) ([], [])
  let (closed2, open2) := umApplyBillsAndRisks closedTrades openPositions rawBills rawPositionRisks
  let allTrades := closed2 ++ open2.map (fun p => p.2.trade)
  allTrades.map umFinalizeTrade

/-- Inverse-contract test fill: buy 10 contracts at 50000. -/
def c5Fill1 : Fill :=
  { instId := "BTCUSD_PERP", tradeId := "1", ordId := "1", side := "buy", posSide := "long",
    fillPx := 50000, fillSz := 10, fee := 0, feeCcy := "BTC", ts := 1000 }

/-- Inverse-contract test fill: sell 10 contracts at 55000. -/
def c5Fill2 : Fill :=
  { c5Fill1 with tradeId := "2", ordId := "2", side := "sell", fillPx := 55000, ts := 2000 }

/-- Inverse-contract instrument: one contract is 100 USD, settled in BTC. -/
def c5Inst : InstrumentDetail :=
  { instId := "BTCUSD_PERP", ctVal := 100, baseCcy := "BTC", quoteCcy := "USD" }

/-- Margin flip scenario: buy 1 at 100 starting flat. -/
def mgFill1 : Fill :=
  { instId := "BTCUSDT", tradeId := "1", ordId := "1", side := "buy", posSide := "",
    fillPx := 100, fillSz := 1, fee := 0, feeCcy := "USDT", ts := 1000 }

/-- Margin flip scenario: sell 2 at 150, exceeding the open long by 1. -/
def mgFill2 : Fill :=
  { mgFill1 with
    tradeId := "2"
    ordId := "2"
    side := "sell"
    fillPx := 150
    fillSz := 2
    ts := 2000 }

/-- Order-dependence exhibit: a buy of 1 at 100 with timestamp 1000. -/
def cxFill1 : Fill :=
  { instId := "BTCUSDT", tradeId := "1", ordId := "1", side := "buy", posSide := "",
    fillPx := 100, fillSz := 1, fee := 0, feeCcy := "USDT", ts := 1000 }

/-- Order-dependence exhibit: a sell of 1 at 200 with the same timestamp. -/
def cxFill2 : Fill :=
  { cxFill1 with tradeId := "2", ordId := "2", side := "sell", fillPx := 200 }

/-- Distinct-key witness fill at timestamp 1000. -/
def wFillA : Fill :=
  { instId := "BTC-USDT-SWAP", tradeId := "a", ordId := "1", side := "buy", posSide := "long",
    fillPx := 100, fillSz := 1, fee := 0, feeCcy := "USDT", ts := 1000 }

/-- Distinct-key witness fill at timestamp 2000. -/
def wFillB : Fill :=
  { wFillA with tradeId := "b", ordId := "2", side := "buy", posSide := "long", ts := 2000 }

/-- A spot buy whose parsed size is zero, as a malformed raw size string
produces through the parser fallback. -/
def zeroSizeFill : Fill :=
  { instId := "BTCUSDT", tradeId := "1", ordId := "1", side := "buy", posSide := "",
    fillPx := 100, fillSz := 0, fee := 0, feeCcy := "USDT", ts := 1000 }

/-- Aggregation exhibit: an ADD event at timestamp 0 with tradeId a. -/
def evAdd1 : TimelineEvent :=
  { timestamp := 0, action := TradeAction.ADD, size := 1, price := 1,
    tradeId := "a", orderId := "", fee := 0, feeCcy := "", notes := "" }

/-- Aggregation exhibit: a second identical ADD event. -/
def evAdd2 : TimelineEvent := evAdd1

/-- Aggregation exhibit: a REDUCE event at the same instant and tradeId. -/
def evReduce : TimelineEvent := { evAdd1 with action := TradeAction.REDUCE }

/-- Aggregation witness events at distinct timestamps. -/
def evW1 : TimelineEvent :=
  { timestamp := 0, action := TradeAction.ADD, size := 1, price := 1,
    tradeId := "a", orderId := "", fee := 0, feeCcy := "", notes := "" }

/-- Second aggregation witness event, far outside the merge window. -/
def evW2 : TimelineEvent := { evW1 with timestamp := 100000, action := TradeAction.REDUCE }

/-- Risk-annotation exhibit: a CM opening fill whose raw position side is
the uppercase LONG that the Binance API delivers. -/
def c8Fill : Fill :=
  { instId := "BTCUSD_PERP", tradeId := "1", ordId := "1", side := "BUY", posSide := "LONG",
    fillPx := 100, fillSz := 1, fee := 0, feeCcy := "BTC", ts := 1000 }

/-- Risk snapshot matching c8Fill under the normalized key convention. -/
def c8Risk : PositionRisk :=
  { symbol := "BTCUSD_PERP", positionSide := "LONG", notionalUsd := 1234 }

/-- The same CM opening fill with an already lowercase position side. -/
def c8FillLower : Fill := { c8Fill with side := "buy", posSide := "long" }

/-- Risk snapshot for the lowercase variant of the exhibit. -/
def c8RiskLower : PositionRisk := { c8Risk with positionSide := "long" }

/-- Funding exhibit: UM opening fill of the first (long) trade. -/
def c4Fill1 : Fill :=
  { instId := "ETHUSDT", tradeId := "1", ordId := "1", side := "buy", posSide := "long",
    fillPx := 100, fillSz := 1, fee := 0, feeCcy := "USDT", ts := 1000 }

/-- Funding exhibit: the close of the first trade at timestamp 5000. -/
def c4Fill2 : Fill :=
  { c4Fill1 with tradeId := "2", ordId := "2", side := "sell", ts := 5000, fillPx := 110 }

/-- Funding exhibit: an open short on the same instrument at 2000, still
open at the end of the batch. -/
def c4Fill3 : Fill :=
  { c4Fill1 with
    tradeId := "3"
    ordId := "3"
    side := "sell"
    posSide := "short"
    ts := 2000
    fillPx := 120 }

/-- A funding bill at timestamp 3000 that qualifies for both trades. -/
def c4Bill : Bill := { instId := "ETHUSDT", type := "FUNDING_FEE", balChg := 7, ts := 3000 }

/-- A margin funding bill that qualifies for the open margin trade. -/
def c4MarginBill : Bill := { instId := "BTCUSDT", type := "FUNDING_FEE", balChg := 5, ts := 1500 }

/-- Orphan exhibit: a spot sell before any buy. -/
def c9Sell0 : Fill :=
  { instId := "BTCUSDT", tradeId := "1", ordId := "1", side := "sell", posSide := "",
    fillPx := 100, fillSz := 1, fee := 0, feeCcy := "USDT", ts := 1000 }

/-- Orphan exhibit: the buy that opens the real cycle. -/
def c9Buy : Fill :=
  { c9Sell0 with tradeId := "2", ordId := "2", side := "buy", ts := 2000 }

/-- Orphan exhibit: the sell that closes the cycle at 150. -/
def c9Sell1 : Fill :=
  { c9Sell0 with tradeId := "3", ordId := "3", side := "sell", fillPx := 150, ts := 3000 }

/-- Orphan exhibit for the OKX step: a reduce-only sell on a long key. -/
def c9OkxSell : Fill := { c9Sell0 with posSide := "long" }

/-- The size and status consistency predicate of the position invariant:
the running position size is non-negative and is within the floating
tolerance of zero exactly when the trade is closed. -/
def sizeStatusConsistent (t : StandardizedTrade) : Prop :=
  0 ≤ t.currentPositionSize ∧
    (t.currentPositionSize ≤ FLOATING_POINT_TOLERANCE ↔ t.status = PositionStatus.CLOSED)

theorem foldl_preserve {σ β : Type} {P : σ → Prop} {g : σ → β → σ}
    (h : ∀ s b, P s → P (g s b)) :
    ∀ (l : List β) (s : σ), P s → P (l.foldl g s)
  | [], _, hs => hs
  | b :: l, s, hs => foldl_preserve h l (g s b) (h s b hs)

theorem mem_alSet {α : Type} {m : List (String × α)} {k : String} {v : α}
    {p : String × α} (h : p ∈ alSet m k v) : p.2 = v ∨ p ∈ m := by
  induction m with
  | nil =>
    simp only [alSet, List.mem_singleton] at h
    exact Or.inl (by rw [h])
  | cons q rest ih =>
    simp only [alSet] at h
    by_cases hk : q.1 == k
    · rw [if_pos hk] at h
      rcases List.mem_cons.1 h with h1 | h2
      · exact Or.inl (by rw [h1])
      · exact Or.inr (List.mem_cons_of_mem _ h2)
    · rw [if_neg hk] at h
      rcases List.mem_cons.1 h with h1 | h2
      · exact Or.inr (by rw [h1]; exact List.mem_cons_self _ _)
      · rcases ih h2 with h3 | h4
        · exact Or.inl h3
        · exact Or.inr (List.mem_cons_of_mem _ h4)

theorem mem_alErase {α : Type} {m : List (String × α)} {k : String}
    {p : String × α} (h : p ∈ alErase m k) : p ∈ m :=
  (List.mem_filter.1 h).1

theorem mem_alUpdate {α : Type} {m : List (String × α)} {k : String} {f : α → α}
    {p : String × α} (h : p ∈ alUpdate m k f) :
    p ∈ m ∨ ∃ q ∈ m, p = (q.1, f q.2) := by
  rcases List.mem_map.1 h with ⟨q, hq, hpq⟩
  by_cases hk : q.1 == k
  · exact Or.inr ⟨q, hq, by rw [← hpq]; simp [hk]⟩
  · exact Or.inl (by rw [← hpq]; simp [hk]; exact hq)

/-- C5: in the inverse-futures variant, buying 10 contracts at 50000 with a
contract value of 100 USD and selling 10 contracts at 55000 on the same
long position key yields exactly one trade, closed, with realized PnL equal
to 10 times 100 times (1 divided by 50000 minus 1 divided by 55000) in the
settlement currency, and the PnL currency is the instrument base asset. -/
theorem c5_inverse_pair_pnl :
    (cmProcessAllData [c5Fill1, c5Fill2] [] [c5Inst] []).map
        (fun t => (t.status, t.realizedPnl, t.pnlCurrency)) =
      [(PositionStatus.CLOSED, 10 * 100 * (1 / 50000 - 1 / 55000), "BTC")] := by
  norm_num +decide [cmProcessAllData, cmStep, cmUpdateTradeWithFill, cmCreateNewTrade,
    cmApplyBillsAndRisks, cmApplyRisks, cmFinalizeTrade, binanceApplyFundingBills,
    binanceCloseTrade, lastActionClosing, bnAggregateTimeline, bnCanMerge, bnMergeEvents,
    groupRuns, buildInstrumentsIndex, alGet, alSet, alErase, alValues, alUpdate,
    List.insertionSort, List.orderedInsert, fillTsLE, jsToLower, charToLowerAscii,
    FLOATING_POINT_TOLERANCE, c5Fill1, c5Fill2, c5Inst]

set_option maxHeartbeats 1000000

/-- C3: in the margin variant, a closing fill larger than the current
absolute open position is split, in both directions: a sell exceeding an
open long, and a buy exceeding an open short, each close the existing
trade with a synthetic fill sized exactly to the absolute open position
and push it to the output, then open a brand-new opposite-direction trade
under the same position key carrying the remainder, with the remainder as
its size and the fill price as its entry; concretely, buy 1 at 100 then
sell 2 at 150 starting flat yields exactly a closed long with realized
PnL 50 and an open short of size 1 with entry price 150. -/
theorem c3_margin_flip_split :
    (∀ (instruments : List (String × InstrumentDetail))
        (closedTrades : List StandardizedTrade)
        (openPositions : List (String × StandardizedTrade)) (fill : Fill)
        (trade : StandardizedTrade),
        alGet openPositions (fill.instId ++ "-margin") = some trade →
        trade.direction = TradeDirection.LONG →
        jsToLower fill.side = "sell" →
        fill.fillSz > trade.currentPositionSize + FLOATING_POINT_TOLERANCE →
        marginStep instruments (closedTrades, openPositions) fill =
          (closedTrades ++
              [binanceCloseTrade
                  (marginUpdateTradeWithFill trade
                    { fill with fillSz := trade.currentPositionSize } false)
                  fill.ts],
            alSet openPositions (fill.instId ++ "-margin")
              (marginUpdateTradeWithFill
                (marginCreateNewTrade instruments
                  { fill with fillSz := fill.fillSz - trade.currentPositionSize })
                { fill with fillSz := fill.fillSz - trade.currentPositionSize } true)) ∧
        (binanceCloseTrade
            (marginUpdateTradeWithFill trade
              { fill with fillSz := trade.currentPositionSize } false)
            fill.ts).status = PositionStatus.CLOSED ∧
        (marginUpdateTradeWithFill
            (marginCreateNewTrade instruments
              { fill with fillSz := fill.fillSz - trade.currentPositionSize })
            { fill with fillSz := fill.fillSz - trade.currentPositionSize } true).status =
          PositionStatus.OPEN ∧
        (marginUpdateTradeWithFill
            (marginCreateNewTrade instruments
              { fill with fillSz := fill.fillSz - trade.currentPositionSize })
            { fill with fillSz := fill.fillSz - trade.currentPositionSize } true).direction =
          TradeDirection.SHORT ∧
        (marginUpdateTradeWithFill
            (marginCreateNewTrade instruments
              { fill with fillSz := fill.fillSz - trade.currentPositionSize })
            { fill with fillSz := fill.fillSz - trade.currentPositionSize } true).totalSize =
          fill.fillSz - trade.currentPositionSize ∧
        (marginUpdateTradeWithFill
            (marginCreateNewTrade instruments
              { fill with fillSz := fill.fillSz - trade.currentPositionSize })
            { fill with fillSz := fill.fillSz - trade.currentPositionSize } true).averageEntryPrice =
          fill.fillPx) ∧
    (∀ (instruments : List (String × InstrumentDetail))
        (closedTrades : List StandardizedTrade)
        (openPositions : List (String × StandardizedTrade)) (fill : Fill)
        (trade : StandardizedTrade),
        alGet openPositions (fill.instId ++ "-margin") = some trade →
        trade.direction = TradeDirection.SHORT →
        jsToLower fill.side = "buy" →
        fill.fillSz > |trade.currentPositionSize| + FLOATING_POINT_TOLERANCE →
        marginStep instruments (closedTrades, openPositions) fill =
          (closedTrades ++
              [binanceCloseTrade
                  (marginUpdateTradeWithFill trade
                    { fill with fillSz := |trade.currentPositionSize| } false)
                  fill.ts],
            alSet openPositions (fill.instId ++ "-margin")
              (marginUpdateTradeWithFill
                (marginCreateNewTrade instruments
                  { fill with fillSz := fill.fillSz - |trade.currentPositionSize| })
                { fill with fillSz := fill.fillSz - |trade.currentPositionSize| } true)) ∧
        (binanceCloseTrade
            (marginUpdateTradeWithFill trade
              { fill with fillSz := |trade.currentPositionSize| } false)
            fill.ts).status = PositionStatus.CLOSED ∧
        (marginUpdateTradeWithFill
            (marginCreateNewTrade instruments
              { fill with fillSz := fill.fillSz - |trade.currentPositionSize| })
            { fill with fillSz := fill.fillSz - |trade.currentPositionSize| } true).status =
          PositionStatus.OPEN ∧
        (marginUpdateTradeWithFill
            (marginCreateNewTrade instruments
              { fill with fillSz := fill.fillSz - |trade.currentPositionSize| })
            { fill with fillSz := fill.fillSz - |trade.currentPositionSize| } true).direction =
          TradeDirection.LONG ∧
        (marginUpdateTradeWithFill
            (marginCreateNewTrade instruments
              { fill with fillSz := fill.fillSz - |trade.currentPositionSize| })
            { fill with fillSz := fill.fillSz - |trade.currentPositionSize| } true).totalSize =
          fill.fillSz - |trade.currentPositionSize| ∧
        (marginUpdateTradeWithFill
            (marginCreateNewTrade instruments
              { fill with fillSz := fill.fillSz - |trade.currentPositionSize| })
            { fill with
              fillSz := fill.fillSz - |trade.currentPositionSize| } true).averageEntryPrice =
          fill.fillPx) ∧
    (marginProcessAllData [mgFill1, mgFill2] [] [] []).map
        (fun t => (t.direction, t.status, t.realizedPnl, t.totalSize, t.averageEntryPrice)) =
      [(TradeDirection.LONG, PositionStatus.CLOSED, 50, 1, 100),
        (TradeDirection.SHORT, PositionStatus.OPEN, 0, 1, 150)] := by
  refine ⟨?_, ?_, ?_⟩
  · intro instruments closedTrades openPositions fill trade hget hdir hside hsz
    have hbuy : (jsToLower fill.side == "buy") = false := by rw [hside]; decide
    have hdirb : (trade.direction == TradeDirection.LONG) = true := by rw [hdir]; decide
    have htol : (0 : ℚ) < FLOATING_POINT_TOLERANCE := by norm_num [FLOATING_POINT_TOLERANCE]
    have hspos : 0 < fill.fillSz - trade.currentPositionSize := by linarith
    have hs : fill.fillSz - trade.currentPositionSize ≠ 0 := ne_of_gt hspos
    refine ⟨?_, ?_, ?_, ?_, ?_, ?_⟩
    · simp only [marginStep, hget, hdirb, hbuy, Bool.not_false, Bool.true_and, Bool.and_self,
        Bool.false_and, Bool.and_false, if_pos hsz, if_true]
    · simp only [binanceCloseTrade]
      split <;> rfl
    · simp only [marginUpdateTradeWithFill, marginCreateNewTrade, hside, hbuy]
      norm_num +decide
    · simp only [marginUpdateTradeWithFill, marginCreateNewTrade, hside, hbuy]
      norm_num +decide
    · simp only [marginUpdateTradeWithFill, marginCreateNewTrade, hside, hbuy]
      norm_num +decide
    · simp only [marginUpdateTradeWithFill, marginCreateNewTrade, hside, hbuy]
      norm_num +decide
      rw [mul_comm, mul_div_assoc, div_self hs, mul_one]
  · intro instruments closedTrades openPositions fill trade hget hdir hside hsz
    have hbuy : (jsToLower fill.side == "buy") = true := by rw [hside]; decide
    have hdirb : (trade.direction == TradeDirection.LONG) = false := by rw [hdir]; decide
    have hdirs : (trade.direction == TradeDirection.SHORT) = true := by rw [hdir]; decide
    have htol : (0 : ℚ) < FLOATING_POINT_TOLERANCE := by norm_num [FLOATING_POINT_TOLERANCE]
    have hspos : 0 < fill.fillSz - |trade.currentPositionSize| := by linarith
    have hs : fill.fillSz - |trade.currentPositionSize| ≠ 0 := ne_of_gt hspos
    refine ⟨?_, ?_, ?_, ?_, ?_, ?_⟩
    · simp only [marginStep, hget, hdirb, hdirs, hbuy, Bool.not_true, Bool.false_and,
        Bool.and_false, Bool.true_and, Bool.and_self, Bool.false_eq_true, if_false,
        if_pos hsz, if_true]
    · simp only [binanceCloseTrade]
      split <;> rfl
    · simp only [marginUpdateTradeWithFill, marginCreateNewTrade, hside, hbuy]
      norm_num +decide
    · simp only [marginUpdateTradeWithFill, marginCreateNewTrade, hside, hbuy]
      norm_num +decide
    · simp only [marginUpdateTradeWithFill, marginCreateNewTrade, hside, hbuy]
      norm_num +decide
    · simp only [marginUpdateTradeWithFill, marginCreateNewTrade, hside, hbuy]
      norm_num +decide
      rw [mul_comm, mul_div_assoc, div_self hs, mul_one]
  · norm_num +decide [marginProcessAllData, marginStep, marginUpdateTradeWithFill,
      marginCreateNewTrade, marginFinalizeTrade, binanceCloseTrade, lastActionClosing,
      bnAggregateTimeline, bnCanMerge, bnMergeEvents, groupRuns, buildInstrumentsIndex,
      alGet, alSet, alErase, alValues, List.insertionSort, List.orderedInsert, fillTsLE,
      jsToLower, charToLowerAscii, FLOATING_POINT_TOLERANCE, mgFill1, mgFill2]

/-- Witness for C3 at a concrete flip: an open long of size 1 met by a
sell of 2. -/
theorem c3_margin_flip_split_witness :
    marginStep [] ([], [(mgFill2.instId ++ "-margin", marginCreateNewTrade [] mgFill1)]) mgFill2 =
      ([] ++
          [binanceCloseTrade
              (marginUpdateTradeWithFill (marginCreateNewTrade [] mgFill1)
                { mgFill2 with fillSz := (marginCreateNewTrade [] mgFill1).currentPositionSize }
                false)
              mgFill2.ts],
        alSet [(mgFill2.instId ++ "-margin", marginCreateNewTrade [] mgFill1)]
          (mgFill2.instId ++ "-margin")
          (marginUpdateTradeWithFill
            (marginCreateNewTrade []
              { mgFill2 with
                fillSz := mgFill2.fillSz - (marginCreateNewTrade [] mgFill1).currentPositionSize })
            { mgFill2 with
              fillSz := mgFill2.fillSz - (marginCreateNewTrade [] mgFill1).currentPositionSize }
            true)) ∧
      (binanceCloseTrade
          (marginUpdateTradeWithFill (marginCreateNewTrade [] mgFill1)
            { mgFill2 with fillSz := (marginCreateNewTrade [] mgFill1).currentPositionSize } false)
          mgFill2.ts).status = PositionStatus.CLOSED ∧
      (marginUpdateTradeWithFill
          (marginCreateNewTrade []
            { mgFill2 with
              fillSz := mgFill2.fillSz - (marginCreateNewTrade [] mgFill1).currentPositionSize })
          { mgFill2 with
            fillSz := mgFill2.fillSz - (marginCreateNewTrade [] mgFill1).currentPositionSize }
          true).status = PositionStatus.OPEN ∧
      (marginUpdateTradeWithFill
          (marginCreateNewTrade []
            { mgFill2 with
              fillSz := mgFill2.fillSz - (marginCreateNewTrade [] mgFill1).currentPositionSize })
          { mgFill2 with
            fillSz := mgFill2.fillSz - (marginCreateNewTrade [] mgFill1).currentPositionSize }
          true).direction = TradeDirection.SHORT ∧
      (marginUpdateTradeWithFill
          (marginCreateNewTrade []
            { mgFill2 with
              fillSz := mgFill2.fillSz - (marginCreateNewTrade [] mgFill1).currentPositionSize })
          { mgFill2 with
            fillSz := mgFill2.fillSz - (marginCreateNewTrade [] mgFill1).currentPositionSize }
          true).totalSize =
        mgFill2.fillSz - (marginCreateNewTrade [] mgFill1).currentPositionSize ∧
      (marginUpdateTradeWithFill
          (marginCreateNewTrade []
            { mgFill2 with
              fillSz := mgFill2.fillSz - (marginCreateNewTrade [] mgFill1).currentPositionSize })
          { mgFill2 with
            fillSz := mgFill2.fillSz - (marginCreateNewTrade [] mgFill1).currentPositionSize }
          true).averageEntryPrice = mgFill2.fillPx :=
  c3_margin_flip_split.1 [] [] [(mgFill2.instId ++ "-margin", marginCreateNewTrade [] mgFill1)]
    mgFill2 (marginCreateNewTrade [] mgFill1) (by rfl) (by rfl) (by rfl)
    (by norm_num [mgFill2, mgFill1, marginCreateNewTrade, FLOATING_POINT_TOLERANCE, alGet,
      jsToLower, charToLowerAscii])

/-- C9: an orphan reducing fill, one arriving for a position key that has
no open builder, is silently skipped by every engine: the spot step on a
non-buy fill, the OKX step on a reduce-only fill, and the Binance
USD-margined and coin-margined steps on a non-opening fill all leave the
state unchanged, producing no trade and no error; and a spot batch of an
orphan sell followed by a buy and a sell yields exactly one trade, built
from the two fills of the real cycle. -/
theorem c9_orphan_skip :
    (∀ (instruments : List (String × InstrumentDetail))
        (closedTrades : List StandardizedTrade)
        (openPositions : List (String × StandardizedTrade)) (fill : Fill),
        jsToLower fill.side ≠ "buy" →
        alGet openPositions (fill.instId ++ "-spot") = none →
        spotStep instruments (closedTrades, openPositions) fill =
          (closedTrades, openPositions)) ∧
    (∀ (instruments : List (String × InstrumentDetail))
        (closedTrades : List StandardizedTrade)
        (openPositions : List (String × OkxTradeBuilder)) (fill : Fill),
        okxIsReduceOnly fill = true →
        alGet openPositions (fill.instId ++ "-" ++ jsToLower fill.posSide) = none →
        okxStep instruments (closedTrades, openPositions) fill =
          (closedTrades, openPositions)) ∧
    (∀ (instruments : List (String × InstrumentDetail))
        (closedTrades : List StandardizedTrade)
        (openPositions : List (String × BinanceTradeBuilder)) (fill : Fill),
        ((jsToLower fill.posSide == "long") && (jsToLower fill.side == "buy") ||
          (jsToLower fill.posSide == "short") && (jsToLower fill.side == "sell")) = false →
        alGet openPositions (fill.instId ++ "-" ++ fill.posSide) = none →
        umStep instruments (closedTrades, openPositions) fill =
          (closedTrades, openPositions)) ∧
    (∀ (instruments : List (String × InstrumentDetail))
        (closedTrades : List StandardizedTrade)
        (openPositions : List (String × StandardizedTrade)) (fill : Fill),
        ((jsToLower fill.posSide == "long") && (jsToLower fill.side == "buy") ||
          (jsToLower fill.posSide == "short") && (jsToLower fill.side == "sell")) = false →
        alGet openPositions (fill.instId ++ "-" ++ fill.posSide) = none →
        cmStep instruments (closedTrades, openPositions) fill =
          (closedTrades, openPositions)) ∧
    (spotProcessAllData [c9Sell0, c9Buy, c9Sell1] [] [] []).map
        (fun t => (t.status, t.tradeIds, t.realizedPnl)) =
      [(PositionStatus.CLOSED, ["2", "3"], 50)] := by
  refine ⟨?_, ?_, ?_, ?_, ?_⟩
  · intro instruments closedTrades openPositions fill hside hget
    have hbuy : (jsToLower fill.side == "buy") = false := by
      simpa using hside
    simp only [spotStep, hget, hbuy, Bool.not_false, if_true]
  · intro instruments closedTrades openPositions fill hro hget
    simp only [okxStep, hget, hro, if_true]
  · intro instruments closedTrades openPositions fill hop hget
    simp only [umStep, hget, hop, Bool.not_false, if_true]
  · intro instruments closedTrades openPositions fill hop hget
    simp only [cmStep, hget, hop, Bool.not_false, if_true]
  · norm_num +decide [spotProcessAllData, spotStep, spotUpdateTradeWithFill,
      spotCreateNewTrade, spotFinalizeTrade, binanceCloseTrade, lastActionClosing,
      bnAggregateTimeline, bnCanMerge, bnMergeEvents, groupRuns, buildInstrumentsIndex,
      alGet, alSet, alErase, alValues, List.insertionSort, List.orderedInsert, fillTsLE,
      jsToLower, charToLowerAscii, FLOATING_POINT_TOLERANCE, c9Sell0, c9Buy, c9Sell1]

/-- Witness for C9: an orphan sell against an empty spot state and an
orphan reduce-only sell against an empty OKX state are both no-ops. -/
theorem c9_orphan_skip_witness :
    spotStep [] ([], []) c9Sell0 = ([], []) ∧ okxStep [] ([], []) c9OkxSell = ([], []) :=
  ⟨c9_orphan_skip.1 [] [] [] c9Sell0 (by decide) (by rfl),
    c9_orphan_skip.2.1 [] [] [] c9OkxSell (by decide) (by rfl)⟩

theorem cmFinalize_net (t : StandardizedTrade) :
    (cmFinalizeTrade t).netPnl =
      (cmFinalizeTrade t).realizedPnl - (cmFinalizeTrade t).totalCommission +
        (cmFinalizeTrade t).totalFundingFee := by
  simp only [cmFinalizeTrade]
  split <;> rfl

theorem okxFinalize_net (t : StandardizedTrade) :
    (okxFinalizeTrade t).netPnl =
      (okxFinalizeTrade t).realizedPnl - (okxFinalizeTrade t).totalCommission +
        (okxFinalizeTrade t).totalFundingFee := by
  simp only [okxFinalizeTrade]
  split <;> rfl

theorem umFinalize_net (t : StandardizedTrade) :
    (umFinalizeTrade t).netPnl =
      (umFinalizeTrade t).realizedPnl - (umFinalizeTrade t).totalCommission +
        (umFinalizeTrade t).totalFundingFee := by
  simp only [umFinalizeTrade]
  split <;> rfl

theorem spotFinalize_net (t : StandardizedTrade) :
    (spotFinalizeTrade t).netPnl =
      (spotFinalizeTrade t).realizedPnl - (spotFinalizeTrade t).totalCommission := by
  simp only [spotFinalizeTrade]
  split <;> rfl

theorem marginFinalize_net (t : StandardizedTrade) :
    (marginFinalizeTrade t).netPnl =
      (marginFinalizeTrade t).realizedPnl - (marginFinalizeTrade t).totalCommission := by
  simp only [marginFinalizeTrade]
  split <;> rfl

theorem spotFinalize_funding (t : StandardizedTrade) :
    (spotFinalizeTrade t).totalFundingFee = t.totalFundingFee := by
  simp only [spotFinalizeTrade]
  split <;> rfl

theorem marginFinalize_funding (t : StandardizedTrade) :
    (marginFinalizeTrade t).totalFundingFee = t.totalFundingFee := by
  simp only [marginFinalizeTrade]
  split <;> rfl

theorem spotUpdate_funding (t : StandardizedTrade) (f : Fill) :
    (spotUpdateTradeWithFill t f).totalFundingFee = t.totalFundingFee := by
  simp only [spotUpdateTradeWithFill]
  split_ifs <;> rfl

theorem marginUpdate_funding (t : StandardizedTrade) (f : Fill) (b : Bool) :
    (marginUpdateTradeWithFill t f b).totalFundingFee = t.totalFundingFee := by
  simp only [marginUpdateTradeWithFill]
  split_ifs <;> rfl

theorem binanceClose_funding (t : StandardizedTrade) (ts : ℤ) :
    (binanceCloseTrade t ts).totalFundingFee = t.totalFundingFee := by
  simp only [binanceCloseTrade]
  split <;> rfl

theorem spotCreate_funding (i : List (String × InstrumentDetail)) (f : Fill) :
    (spotCreateNewTrade i f).totalFundingFee = 0 := rfl

theorem marginCreate_funding (i : List (String × InstrumentDetail)) (f : Fill) :
    (marginCreateNewTrade i f).totalFundingFee = 0 := rfl

theorem alGet_mem {α : Type} {m : List (String × α)} {k : String} {v : α}
    (h : alGet m k = some v) : ∃ p ∈ m, p.2 = v := by
  simp only [alGet, Option.map_eq_some'] at h
  rcases h with ⟨p, hp, hv⟩
  exact ⟨p, List.mem_of_find?_eq_some hp, hv⟩

theorem marginStep_funding_inv (instruments : List (String × InstrumentDetail))
    (st : List StandardizedTrade × List (String × StandardizedTrade)) (fill : Fill)
    (h1 : ∀ t ∈ st.1, t.totalFundingFee = 0)
    (h2 : ∀ p ∈ st.2, (p.2 : StandardizedTrade).totalFundingFee = 0) :
    (∀ t ∈ (marginStep instruments st fill).1, t.totalFundingFee = 0) ∧
      (∀ p ∈ (marginStep instruments st fill).2,
        (p.2 : StandardizedTrade).totalFundingFee = 0) := by
  obtain ⟨closed, opens⟩ := st
  simp only at h1 h2
  rcases hg : alGet opens (fill.instId ++ "-margin") with _ | trade0
  · simp only [marginStep, hg]
    refine ⟨h1, ?_⟩
    intro p hp
    rcases mem_alSet hp with hv | hm
    · rw [hv, marginUpdate_funding, marginCreate_funding]
    · exact h2 p hm
  · have ht0 : trade0.totalFundingFee = 0 := by
      rcases alGet_mem hg with ⟨p, hp, hv⟩
      rw [← hv]; exact h2 p hp
    simp only [marginStep, hg]
    split
    · constructor
      · intro t ht
        rcases List.mem_append.1 ht with hl | hr
        · exact h1 t hl
        · rw [List.mem_singleton.1 hr, binanceClose_funding, marginUpdate_funding, ht0]
      · intro p hp
        rcases mem_alSet hp with hv | hm
        · rw [hv, marginUpdate_funding, marginCreate_funding]
        · exact h2 p hm
    · split_ifs
      · constructor
        · intro t ht
          rcases List.mem_append.1 ht with hl | hr
          · exact h1 t hl
          · rw [List.mem_singleton.1 hr, binanceClose_funding, marginUpdate_funding, ht0]
        · intro p hp
          exact h2 p (mem_alErase hp)
      · constructor
        · exact h1
        · intro p hp
          rcases mem_alSet hp with hv | hm
          · rw [hv, marginUpdate_funding, ht0]
          · exact h2 p hm

theorem margin_funding_zero (rawFills : List Fill) (rawBills : List Bill)
    (instrumentDetails : List InstrumentDetail) (rawPositionRisks : List PositionRisk) :
    ∀ t ∈ marginProcessAllData rawFills rawBills instrumentDetails rawPositionRisks,
      t.totalFundingFee = 0 := by
  intro t ht
  have key := foldl_preserve
    (P := fun st : List StandardizedTrade × List (String × StandardizedTrade) =>
      (∀ t ∈ st.1, t.totalFundingFee = 0) ∧
        (∀ p ∈ st.2, (p.2 : StandardizedTrade).totalFundingFee = 0))
    (g := marginStep (buildInstrumentsIndex instrumentDetails))
    (fun s b hs => marginStep_funding_inv _ s b hs.1 hs.2)
    (List.insertionSort fillTsLE rawFills) ([], [])
    ⟨by simp, by simp⟩
  simp only [marginProcessAllData] at ht
  rcases List.mem_map.1 ht with ⟨t0, ht0, rfl⟩
  rw [marginFinalize_funding]
  rcases List.mem_append.1 ht0 with hl | hr
  · exact key.1 t0 hl
  · rcases List.mem_map.1 hr with ⟨p, hp, rfl⟩
    exact key.2 p hp

theorem spotStep_funding_inv (instruments : List (String × InstrumentDetail))
    (st : List StandardizedTrade × List (String × StandardizedTrade)) (fill : Fill)
    (h1 : ∀ t ∈ st.1, t.totalFundingFee = 0)
    (h2 : ∀ p ∈ st.2, (p.2 : StandardizedTrade).totalFundingFee = 0) :
    (∀ t ∈ (spotStep instruments st fill).1, t.totalFundingFee = 0) ∧
      (∀ p ∈ (spotStep instruments st fill).2,
        (p.2 : StandardizedTrade).totalFundingFee = 0) := by
  obtain ⟨closed, opens⟩ := st
  simp only at h1 h2
  rcases hg : alGet opens (fill.instId ++ "-spot") with _ | trade0
  · simp only [spotStep, hg]
    split
    · exact ⟨h1, h2⟩
    · split_ifs
      · constructor
        · intro t ht
          rcases List.mem_append.1 ht with hl | hr
          · exact h1 t hl
          · rw [List.mem_singleton.1 hr, binanceClose_funding, spotUpdate_funding,
              spotCreate_funding]
        · exact h2
      · refine ⟨h1, ?_⟩
        intro p hp
        rcases mem_alSet hp with hv | hm
        · rw [hv, spotUpdate_funding, spotCreate_funding]
        · exact h2 p hm
  · have ht0 : trade0.totalFundingFee = 0 := by
      rcases alGet_mem hg with ⟨p, hp, hv⟩
      rw [← hv]; exact h2 p hp
    simp only [spotStep, hg]
    split_ifs
    · constructor
      · intro t ht
        rcases List.mem_append.1 ht with hl | hr
        · exact h1 t hl
        · rw [List.mem_singleton.1 hr, binanceClose_funding, spotUpdate_funding, ht0]
      · intro p hp
        exact h2 p (mem_alErase hp)
    · constructor
      · exact h1
      · intro p hp
        rcases mem_alSet hp with hv | hm
        · rw [hv, spotUpdate_funding, ht0]
        · exact h2 p hm

theorem spot_funding_zero (rawFills : List Fill) (rawBills : List Bill)
    (instrumentDetails : List InstrumentDetail) (rawPositionRisks : List PositionRisk) :
    ∀ t ∈ spotProcessAllData rawFills rawBills instrumentDetails rawPositionRisks,
      t.totalFundingFee = 0 := by
  intro t ht
  have key := foldl_preserve
    (P := fun st : List StandardizedTrade × List (String × StandardizedTrade) =>
      (∀ t ∈ st.1, t.totalFundingFee = 0) ∧
        (∀ p ∈ st.2, (p.2 : StandardizedTrade).totalFundingFee = 0))
    (g := spotStep (buildInstrumentsIndex instrumentDetails))
    (fun s b hs => spotStep_funding_inv _ s b hs.1 hs.2)
    (List.insertionSort fillTsLE rawFills) ([], [])
    ⟨by simp, by simp⟩
  simp only [spotProcessAllData] at ht
  rcases List.mem_map.1 ht with ⟨t0, ht0, rfl⟩
  rw [spotFinalize_funding]
  rcases List.mem_append.1 ht0 with hl | hr
  · exact key.1 t0 hl
  · rcases List.mem_map.1 hr with ⟨p, hp, rfl⟩
    exact key.2 p hp

/-- C2: every trade returned by processAllData, in all variants, satisfies
netPnl equal to realizedPnl minus totalCommission plus totalFundingFee; the
linear, inverse and OKX finalizers recompute exactly this formula, and the
spot and margin finalizers omit the funding term while their funding total
is invariably zero, so the equality holds on every output trade. -/
theorem c2_net_pnl_invariant :
    ∀ (rawFills : List Fill) (rawBills : List Bill)
      (instrumentDetails : List InstrumentDetail) (rawPositionRisks : List PositionRisk),
      ((cmProcessAllData rawFills rawBills instrumentDetails rawPositionRisks).all
          (fun t => t.netPnl == t.realizedPnl - t.totalCommission + t.totalFundingFee)) = true ∧
      ((okxProcessAllData rawFills rawBills instrumentDetails rawPositionRisks).all
          (fun t => t.netPnl == t.realizedPnl - t.totalCommission + t.totalFundingFee)) = true ∧
      ((umProcessAllData rawFills rawBills instrumentDetails rawPositionRisks).all
          (fun t => t.netPnl == t.realizedPnl - t.totalCommission + t.totalFundingFee)) = true ∧
      ((spotProcessAllData rawFills rawBills instrumentDetails rawPositionRisks).all
          (fun t => t.netPnl == t.realizedPnl - t.totalCommission + t.totalFundingFee)) = true ∧
      ((marginProcessAllData rawFills rawBills instrumentDetails rawPositionRisks).all
          (fun t => t.netPnl == t.realizedPnl - t.totalCommission + t.totalFundingFee)) = true := by
  intro rawFills rawBills instrumentDetails rawPositionRisks
  refine ⟨?_, ?_, ?_, ?_, ?_⟩
  · rw [List.all_eq_true]
    intro t ht
    simp only [cmProcessAllData] at ht
    rcases List.mem_map.1 ht with ⟨t0, _, rfl⟩
    exact beq_iff_eq.2 (cmFinalize_net t0)
  · rw [List.all_eq_true]
    intro t ht
    simp only [okxProcessAllData] at ht
    rcases List.mem_map.1 ht with ⟨t0, _, rfl⟩
    exact beq_iff_eq.2 (okxFinalize_net t0)
  · rw [List.all_eq_true]
    intro t ht
    simp only [umProcessAllData] at ht
    rcases List.mem_map.1 ht with ⟨t0, _, rfl⟩
    exact beq_iff_eq.2 (umFinalize_net t0)
  · rw [List.all_eq_true]
    intro t ht
    have hz := spot_funding_zero rawFills rawBills instrumentDetails rawPositionRisks t ht
    refine beq_iff_eq.2 ?_
    rw [hz, add_zero]
    simp only [spotProcessAllData] at ht
    rcases List.mem_map.1 ht with ⟨t0, _, rfl⟩
    exact spotFinalize_net t0
  · rw [List.all_eq_true]
    intro t ht
    have hz := margin_funding_zero rawFills rawBills instrumentDetails rawPositionRisks t ht
    refine beq_iff_eq.2 ?_
    rw [hz, add_zero]
    simp only [marginProcessAllData] at ht
    rcases List.mem_map.1 ht with ⟨t0, _, rfl⟩
    exact marginFinalize_net t0

theorem jsParseInt_cases (s : String) :
    jsParseInt s = JsNum.nan ∨ jsParseInt s = JsNum.posInf ∨ jsParseInt s = JsNum.negInf ∨
      ∃ q, jsParseInt s = JsNum.fin q := by
  simp only [jsParseInt]
  split_ifs <;> first
    | exact Or.inl rfl
    | exact Or.inr (Or.inl rfl)
    | exact Or.inr (Or.inr (Or.inl rfl))
    | exact Or.inr (Or.inr (Or.inr ⟨_, rfl⟩))

/-- C10 counterexample: the float parser does not return a finite number
for every string input: the string Infinity passes the NaN check and is
returned as an infinity, and the numeric string 1e400 overflows the
binary64 range and is likewise returned as an infinity rather than the
fallback. -/
theorem c10_counterexample :
    SafeParsers.float (some (Sum.inl "Infinity")) 0 = JsNum.posInf ∧
      JsNum.isFinite (SafeParsers.float (some (Sum.inl "Infinity")) 0) = false ∧
      SafeParsers.float (some (Sum.inl "1e400")) 0 = JsNum.posInf := by
  refine ⟨rfl, rfl, ?_⟩
  norm_num +decide [SafeParsers.float, jsParseFloat, dropWs, takeSign, takeDigits,
    isDigitChar, listStartsWith, takeExponent, digitsToNat, JS_OVERFLOW_THRESHOLD,
    show UInt32.toNat (Char.val '1') = 49 from rfl,
    show UInt32.toNat (Char.val '4') = 52 from rfl,
    show UInt32.toNat (Char.val '0') = 48 from rfl]

/-- C10 amended: the parsers are total functions that always return a
number; absent input yields the fallback, a parse failure (NaN) yields the
fallback, and a successful parse is returned unchanged, including the
non-finite results of the Infinity literals and of inputs beyond the
binary64 range, so neither parser is confined to finite results; a number
input round trips through the float parser and goes through the Number
rendering composed with parseInt through the integer parser, which
truncates toward zero exactly on the plain-notation range. -/
theorem c10_safe_parsers :
    (∀ fb : ℚ,
      SafeParsers.float none fb = JsNum.fin fb ∧ SafeParsers.integer none fb = JsNum.fin fb) ∧
    (∀ (s : String) (fb : ℚ), jsParseFloat s = JsNum.nan →
      SafeParsers.float (some (Sum.inl s)) fb = JsNum.fin fb) ∧
    (∀ (s : String) (fb q : ℚ), jsParseFloat s = JsNum.fin q →
      SafeParsers.float (some (Sum.inl s)) fb = JsNum.fin q) ∧
    (∀ (s : String) (fb : ℚ), jsParseInt s = JsNum.nan →
      SafeParsers.integer (some (Sum.inl s)) fb = JsNum.fin fb) ∧
    (∀ (s : String) (fb q : ℚ), jsParseInt s = JsNum.fin q →
      SafeParsers.integer (some (Sum.inl s)) fb = JsNum.fin q) ∧
    (∀ q fb : ℚ,
      SafeParsers.float (some (Sum.inr q)) fb = JsNum.fin q ∧
        SafeParsers.integer (some (Sum.inr q)) fb = JsNum.fin (jsIntOfNumber q)) ∧
    (∀ q fb : ℚ, q = 0 ∨ (1 / 1000000 ≤ |q| ∧ |q| < 10 ^ 21) →
      SafeParsers.integer (some (Sum.inr q)) fb = JsNum.fin (truncToward0 q)) ∧
    (∀ (v : SafeParserInput) (fb : ℚ), JsNum.isFinite (SafeParsers.integer v fb) = false →
      ∃ s, v = some (Sum.inl s) ∧
        (jsParseInt s = JsNum.posInf ∨ jsParseInt s = JsNum.negInf)) ∧
    (∀ (v : SafeParserInput) (fb : ℚ), JsNum.isFinite (SafeParsers.float v fb) = false →
      ∃ s, v = some (Sum.inl s) ∧
        (jsParseFloat s = JsNum.posInf ∨ jsParseFloat s = JsNum.negInf)) := by
  refine ⟨fun fb => ⟨rfl, rfl⟩, ?_, ?_, ?_, ?_, fun q fb => ⟨rfl, rfl⟩, ?_, ?_, ?_⟩
  · intro s fb h
    simp only [SafeParsers.float, h]
  · intro s fb q h
    simp only [SafeParsers.float, h]
  · intro s fb h
    simp only [SafeParsers.integer, h]
  · intro s fb q h
    simp only [SafeParsers.integer, h]
  · intro q fb h
    simp only [SafeParsers.integer, jsIntOfNumber, if_pos h]
  · intro v fb h
    match v with
    | none => exact absurd h (by simp [SafeParsers.integer, JsNum.isFinite])
    | some (Sum.inr q) => exact absurd h (by simp [SafeParsers.integer, JsNum.isFinite])
    | some (Sum.inl s) =>
      refine ⟨s, rfl, ?_⟩
      rcases hp : jsParseInt s with q | _ | _ | _
      · exact absurd h (by simp [SafeParsers.integer, hp, JsNum.isFinite])
      · exact Or.inl rfl
      · exact Or.inr rfl
      · exact absurd h (by simp [SafeParsers.integer, hp, JsNum.isFinite])
  · intro v fb h
    match v with
    | none => exact absurd h (by simp [SafeParsers.float, JsNum.isFinite])
    | some (Sum.inr q) => exact absurd h (by simp [SafeParsers.float, JsNum.isFinite])
    | some (Sum.inl s) =>
      refine ⟨s, rfl, ?_⟩
      rcases hp : jsParseFloat s with q | _ | _ | _
      · exact absurd h (by simp [SafeParsers.float, hp, JsNum.isFinite])
      · exact Or.inl rfl
      · exact Or.inr rfl
      · exact absurd h (by simp [SafeParsers.float, hp, JsNum.isFinite])

/-- Witness for C10 at concrete inputs: an unparsable string falls back, a
string with a digit prefix parses, and a plain-range number input is
truncated toward zero. -/
theorem c10_safe_parsers_witness :
    SafeParsers.float (some (Sum.inl "abc")) 5 = JsNum.fin 5 ∧
      SafeParsers.integer (some (Sum.inl "12x")) 0 = JsNum.fin 12 ∧
      SafeParsers.integer (some (Sum.inr (3 / 2))) 0 = JsNum.fin (truncToward0 (3 / 2)) := by
  have habs : |(3 : ℚ) / 2| = 3 / 2 := abs_of_pos (by norm_num)
  exact ⟨c10_safe_parsers.2.1 "abc" 5 (by rfl),
    c10_safe_parsers.2.2.2.2.1 "12x" 0 12 (by
      norm_num +decide [jsParseInt, dropWs, takeSign, takeDigits, digitsToNat, isDigitChar,
        JS_OVERFLOW_THRESHOLD,
        show UInt32.toNat (Char.val '1') = 49 from rfl,
        show UInt32.toNat (Char.val '2') = 50 from rfl]),
    c10_safe_parsers.2.2.2.2.2.2.1 (3 / 2) 0
      (Or.inr ⟨by rw [habs]; norm_num, by rw [habs]; norm_num⟩)⟩

theorem fundingQualifies_addFunding (t : StandardizedTrade) (a : ℚ) (ts : ℤ) :
    fundingQualifies (addFundingToTrade t a) ts = fundingQualifies t ts := rfl

theorem fold_funding_sum (bs : List Bill) :
    ∀ t0 : StandardizedTrade,
      ((bs.foldl (fun t b => if fundingQualifies t b.ts then addFundingToTrade t b.balChg else t)
            t0).totalFundingFee =
        t0.totalFundingFee +
          ((bs.filter (fun b => fundingQualifies t0 b.ts)).map (fun b => b.balChg)).sum) := by
  induction bs with
  | nil => intro t0; simp
  | cons b rest ih =>
    intro t0
    by_cases hq : fundingQualifies t0 b.ts = true
    · simp only [List.foldl_cons, List.filter_cons, hq, if_pos hq, List.map_cons, List.sum_cons,
        if_true]
      rw [ih (addFundingToTrade t0 b.balChg)]
      have hpres : ∀ x : Bill, fundingQualifies (addFundingToTrade t0 b.balChg) x.ts =
          fundingQualifies t0 x.ts := fun x => rfl
      simp only [hpres]
      simp only [addFundingToTrade]
      ring
    · have hq2 : fundingQualifies t0 b.ts = false := by
        cases h : fundingQualifies t0 b.ts
        · rfl
        · exact absurd h hq
      simp only [List.foldl_cons, List.filter_cons, hq2, if_neg hq, Bool.false_eq_true,
        if_false]
      exact ih t0

/-- C4 amended: a funding bill qualifies for a trade exactly when the
instruments match, the bill timestamp is at or after entry, and the trade
is open or the bill timestamp is at or before exit.  The Binance UM and CM
variants credit each funding bill to the first qualifying trade only,
leaving every later qualifying trade untouched; the OKX variant adds every
qualifying funding bill of the trade instrument to the trade without
breaking early; the margin variant performs no funding reconciliation at
all, and every margin output trade has a zero funding total. -/
theorem c4_funding_reconciliation :
    (∀ (instId : String) (billTs : ℤ) (amt : ℚ) (trades : List StandardizedTrade),
      applyFundingBillFirstMatch instId billTs amt trades =
        trades.takeWhile (fun t => !(t.symbol == instId && fundingQualifies t billTs)) ++
          match trades.dropWhile (fun t => !(t.symbol == instId && fundingQualifies t billTs)) with
          | [] => []
          | t :: post => addFundingToTrade t amt :: post) ∧
    (∀ (rawBills : List Bill) (trade : StandardizedTrade),
      (okxAddFundingForTrade rawBills trade).totalFundingFee =
        trade.totalFundingFee +
          (((rawBills.filter (fun b => b.type == "8" && b.instId == trade.symbol)).filter
              (fun b => fundingQualifies trade b.ts)).map (fun b => b.balChg)).sum) ∧
    (∀ (rawFills : List Fill) (rawBills : List Bill)
        (instrumentDetails : List InstrumentDetail) (rawPositionRisks : List PositionRisk),
      ((marginProcessAllData rawFills rawBills instrumentDetails rawPositionRisks).all
          (fun t => t.totalFundingFee == 0)) = true) := by
  refine ⟨?_, ?_, ?_⟩
  · intro instId billTs amt trades
    induction trades with
    | nil => rfl
    | cons t rest ih =>
      by_cases hm : (t.symbol == instId && fundingQualifies t billTs) = true
      · simp only [applyFundingBillFirstMatch, if_pos hm, List.takeWhile_cons,
          List.dropWhile_cons, hm, Bool.not_true]
        simp
      · have hm2 : (t.symbol == instId && fundingQualifies t billTs) = false := by
          cases h : (t.symbol == instId && fundingQualifies t billTs)
          · rfl
          · exact absurd h hm
        simp only [applyFundingBillFirstMatch, if_neg hm, List.takeWhile_cons,
          List.dropWhile_cons, hm2, Bool.not_false, if_pos trivial, ih]
        simp
  · intro rawBills trade
    exact fold_funding_sum _ trade
  · intro rawFills rawBills instrumentDetails rawPositionRisks
    rw [List.all_eq_true]
    intro t ht
    exact beq_iff_eq.2
      (margin_funding_zero rawFills rawBills instrumentDetails rawPositionRisks t ht)

/-- C4 counterexample: in the Binance UM variant, a funding bill that
qualifies for two trades of its instrument is credited to the first one
only; the second qualifying trade keeps a zero funding total, so the claim
that the UM variant adds the bill to every matching trade fails. -/
theorem c4_counterexample :
    (umProcessAllData [c4Fill1, c4Fill2, c4Fill3] [c4Bill] [] []).map
        (fun t => (t.symbol, fundingQualifies t c4Bill.ts, t.totalFundingFee)) =
      [("ETHUSDT", true, 7), ("ETHUSDT", true, 0)] := by
  norm_num +decide [umProcessAllData, umStep, umAddFill, umNewBuilder, umInitializeTrade,
    umApplyEvent, umCloseTrade, umApplyBillsAndRisks, umApplyRisks, umFinalizeTrade,
    binanceApplyFundingBills, applyFundingBillFirstMatch, addFundingToTrade, fundingQualifies,
    aggregateEvents, groupRuns, tlCanMerge, tlMergeGroup, tlEventLE, strLe, lexLe,
    buildInstrumentsIndex, alGet, alSet, alErase, alValues, List.insertionSort,
    List.orderedInsert, fillTsLE, jsToLower, charToLowerAscii, FLOATING_POINT_TOLERANCE,
    c4Fill1, c4Fill2, c4Fill3, c4Bill]

theorem getLast?_concat_test (l : List ℕ) (a : ℕ) : (l ++ [a]).getLast? = some a :=
  List.getLast?_concat l

theorem foldl_preserve_mem {σ β : Type} {P : σ → Prop} {Q : β → Prop} {g : σ → β → σ}
    (h : ∀ s b, Q b → P s → P (g s b)) :
    ∀ l : List β, (∀ b ∈ l, Q b) → ∀ s : σ, P s → P (l.foldl g s)
  | [], _, _, hs => hs
  | b :: l, hq, s, hs =>
    foldl_preserve_mem h l (fun x hx => hq x (List.mem_cons_of_mem _ hx)) (g s b)
      (h s b (hq b (List.mem_cons_self _ _)) hs)

theorem spotUpdate_buy (t : StandardizedTrade) (f : Fill)
    (hb : (jsToLower f.side == "buy") = true) :
    (spotUpdateTradeWithFill t f).currentPositionSize = t.currentPositionSize + f.fillSz ∧
      (spotUpdateTradeWithFill t f).status = t.status ∧
      lastActionClosing (spotUpdateTradeWithFill t f) = false := by
  simp only [spotUpdateTradeWithFill, hb, if_true, lastActionClosing]
  refine ⟨trivial, trivial, ?_⟩
  simp only [List.getLast?_concat]
  split <;> rfl

theorem spotUpdate_sell (t : StandardizedTrade) (f : Fill)
    (hb : (jsToLower f.side == "buy") = false) :
    (spotUpdateTradeWithFill t f).status = t.status ∧
      lastActionClosing (spotUpdateTradeWithFill t f) = true ∧
      ((t.currentPositionSize - min f.fillSz t.currentPositionSize ≤ FLOATING_POINT_TOLERANCE ∧
          (spotUpdateTradeWithFill t f).currentPositionSize = 0) ∨
        (FLOATING_POINT_TOLERANCE < t.currentPositionSize - min f.fillSz t.currentPositionSize ∧
          (spotUpdateTradeWithFill t f).currentPositionSize =
            t.currentPositionSize - min f.fillSz t.currentPositionSize)) := by
  simp only [spotUpdateTradeWithFill, hb, Bool.false_eq_true, if_false, lastActionClosing]
  by_cases hc :
      t.currentPositionSize - min f.fillSz t.currentPositionSize ≤ FLOATING_POINT_TOLERANCE
  · rw [if_pos hc]
    refine ⟨rfl, ?_, Or.inl ⟨hc, rfl⟩⟩
    simp only [List.getLast?_concat]
    rfl
  · rw [if_neg hc]
    refine ⟨rfl, ?_, Or.inr ⟨lt_of_not_le hc, rfl⟩⟩
    simp only [List.getLast?_concat]
    rfl

theorem binanceClose_pos (t : StandardizedTrade) (ts : ℤ) :
    (binanceCloseTrade t ts).currentPositionSize = t.currentPositionSize ∧
      (binanceCloseTrade t ts).status = PositionStatus.CLOSED := by
  simp only [binanceCloseTrade]
  split_ifs <;> exact ⟨rfl, rfl⟩

theorem spotCreate_pos (i : List (String × InstrumentDetail)) (f : Fill) :
    (spotCreateNewTrade i f).currentPositionSize = 0 ∧
      (spotCreateNewTrade i f).status = PositionStatus.OPEN := ⟨rfl, rfl⟩

theorem spotStep_pos_inv (instruments : List (String × InstrumentDetail))
    (st : List StandardizedTrade × List (String × StandardizedTrade)) (fill : Fill)
    (hf : FLOATING_POINT_TOLERANCE < fill.fillSz)
    (h1 : ∀ t ∈ st.1, t.currentPositionSize = 0 ∧ t.status = PositionStatus.CLOSED)
    (h2 : ∀ p ∈ st.2, FLOATING_POINT_TOLERANCE < (p.2 : StandardizedTrade).currentPositionSize ∧
      (p.2 : StandardizedTrade).status = PositionStatus.OPEN) :
    (∀ t ∈ (spotStep instruments st fill).1,
      t.currentPositionSize = 0 ∧ t.status = PositionStatus.CLOSED) ∧
      (∀ p ∈ (spotStep instruments st fill).2,
        FLOATING_POINT_TOLERANCE < (p.2 : StandardizedTrade).currentPositionSize ∧
          (p.2 : StandardizedTrade).status = PositionStatus.OPEN) := by
  obtain ⟨closed, opens⟩ := st
  simp only at h1 h2
  have htol : (0 : ℚ) < FLOATING_POINT_TOLERANCE := by norm_num [FLOATING_POINT_TOLERANCE]
  rcases hg : alGet opens (fill.instId ++ "-spot") with _ | trade0
  · simp only [spotStep, hg]
    by_cases hb : (jsToLower fill.side == "buy") = true
    · simp only [hb, Bool.not_true, Bool.false_eq_true, if_false]
      obtain ⟨hpos, hst, hla⟩ := spotUpdate_buy (spotCreateNewTrade instruments fill) fill hb
      have hpos2 : FLOATING_POINT_TOLERANCE <
          (spotUpdateTradeWithFill (spotCreateNewTrade instruments fill) fill).currentPositionSize := by
        rw [hpos, (spotCreate_pos instruments fill).1, zero_add]; exact hf
      rw [if_neg (by simp [hla])]
      refine ⟨h1, ?_⟩
      intro p hp
      rcases mem_alSet hp with hv | hm
      · rw [hv]
        exact ⟨hpos2, by rw [hst]; exact (spotCreate_pos instruments fill).2⟩
      · exact h2 p hm
    · have hb2 : (jsToLower fill.side == "buy") = false := by
        cases h : (jsToLower fill.side == "buy")
        · rfl
        · exact absurd h hb
      simp only [hb2, Bool.not_false, if_true]
      exact ⟨h1, h2⟩
  · have ht0 : FLOATING_POINT_TOLERANCE < trade0.currentPositionSize ∧
        trade0.status = PositionStatus.OPEN := by
      rcases alGet_mem hg with ⟨p, hp, hv⟩
      rw [← hv]; exact h2 p hp
    simp only [spotStep, hg]
    by_cases hb : (jsToLower fill.side == "buy") = true
    · obtain ⟨hpos, hst, hla⟩ := spotUpdate_buy trade0 fill hb
      have hpos2 : FLOATING_POINT_TOLERANCE <
          (spotUpdateTradeWithFill trade0 fill).currentPositionSize := by
        rw [hpos]; linarith [ht0.1]
      rw [if_neg (by simp [hla])]
      refine ⟨h1, ?_⟩
      intro p hp
      rcases mem_alSet hp with hv | hm
      · rw [hv]
        exact ⟨hpos2, by rw [hst]; exact ht0.2⟩
      · exact h2 p hm
    · have hb2 : (jsToLower fill.side == "buy") = false := by
        cases h : (jsToLower fill.side == "buy")
        · rfl
        · exact absurd h hb
      obtain ⟨hst, hla, hcases⟩ := spotUpdate_sell trade0 fill hb2
      rcases hcases with ⟨hle, hzero⟩ | ⟨hgt, heq⟩
      · rw [if_pos (by
          rw [hla, Bool.and_true]
          exact decide_eq_true (by rw [hzero]; linarith))]
        constructor
        · intro t ht
          rcases List.mem_append.1 ht with hl | hr
          · exact h1 t hl
          · rw [List.mem_singleton.1 hr]
            obtain ⟨hcp, hcs⟩ := binanceClose_pos (spotUpdateTradeWithFill trade0 fill) fill.ts
            exact ⟨by rw [hcp, hzero], hcs⟩
        · intro p hp
          exact h2 p (mem_alErase hp)
      · rw [if_neg (by
          rw [hla, Bool.and_true]
          simp only [decide_eq_true_eq]
          rw [heq]
          exact not_le_of_lt hgt)]
        refine ⟨h1, ?_⟩
        intro p hp
        rcases mem_alSet hp with hv | hm
        · rw [hv]
          refine ⟨by rw [heq]; exact hgt, by rw [hst]; exact ht0.2⟩
        · exact h2 p hm

theorem cmUpdate_increase (instruments : List (String × InstrumentDetail))
    (t : StandardizedTrade) (f : Fill)
    (hc : ((t.direction == TradeDirection.LONG) && (jsToLower f.side == "buy") ||
        (!(t.direction == TradeDirection.LONG)) && (!(jsToLower f.side == "buy"))) = true) :
    (cmUpdateTradeWithFill instruments t f).currentPositionSize =
        t.currentPositionSize + f.fillSz ∧
      (cmUpdateTradeWithFill instruments t f).status = t.status ∧
      lastActionClosing (cmUpdateTradeWithFill instruments t f) = false := by
  simp only [cmUpdateTradeWithFill, hc, if_true, lastActionClosing]
  refine ⟨trivial, trivial, ?_⟩
  simp only [List.getLast?_concat]
  split <;> rfl

theorem cmUpdate_decrease (instruments : List (String × InstrumentDetail))
    (t : StandardizedTrade) (f : Fill)
    (hc : ((t.direction == TradeDirection.LONG) && (jsToLower f.side == "buy") ||
        (!(t.direction == TradeDirection.LONG)) && (!(jsToLower f.side == "buy"))) = false) :
    (cmUpdateTradeWithFill instruments t f).status = t.status ∧
      lastActionClosing (cmUpdateTradeWithFill instruments t f) = true ∧
      ((t.currentPositionSize - min f.fillSz t.currentPositionSize ≤ FLOATING_POINT_TOLERANCE ∧
          (cmUpdateTradeWithFill instruments t f).currentPositionSize = 0) ∨
        (FLOATING_POINT_TOLERANCE < t.currentPositionSize - min f.fillSz t.currentPositionSize ∧
          (cmUpdateTradeWithFill instruments t f).currentPositionSize =
            t.currentPositionSize - min f.fillSz t.currentPositionSize)) := by
  simp only [cmUpdateTradeWithFill, hc, Bool.false_eq_true, if_false, lastActionClosing]
  by_cases hcc :
      t.currentPositionSize - min f.fillSz t.currentPositionSize ≤ FLOATING_POINT_TOLERANCE
  · rw [if_pos hcc]
    refine ⟨rfl, ?_, Or.inl ⟨hcc, rfl⟩⟩
    simp only [List.getLast?_concat]
    rfl
  · rw [if_neg hcc]
    refine ⟨rfl, ?_, Or.inr ⟨lt_of_not_le hcc, rfl⟩⟩
    simp only [List.getLast?_concat]
    rfl

theorem cmCreate_pos (i : List (String × InstrumentDetail)) (f : Fill) :
    (cmCreateNewTrade i f).currentPositionSize = 0 ∧
      (cmCreateNewTrade i f).status = PositionStatus.OPEN := ⟨rfl, rfl⟩

theorem cmOpening_increase (i : List (String × InstrumentDetail)) (f : Fill)
    (hopen : ((jsToLower f.posSide == "long") && (jsToLower f.side == "buy") ||
        (jsToLower f.posSide == "short") && (jsToLower f.side == "sell")) = true) :
    (((cmCreateNewTrade i f).direction == TradeDirection.LONG) && (jsToLower f.side == "buy") ||
      (!((cmCreateNewTrade i f).direction == TradeDirection.LONG)) &&
        (!(jsToLower f.side == "buy"))) = true := by
  simp only [Bool.or_eq_true, Bool.and_eq_true] at hopen
  rcases hopen with h | h
  · obtain ⟨hp, hs⟩ := h
    simp only [cmCreateNewTrade, hp, if_true, hs]
    rfl
  · obtain ⟨hp, hs⟩ := h
    have hps : jsToLower f.posSide = "short" := by simpa using hp
    have hss : jsToLower f.side = "sell" := by simpa using hs
    have hpl : (jsToLower f.posSide == "long") = false := by rw [hps]; decide
    have hsb : (jsToLower f.side == "buy") = false := by rw [hss]; decide
    simp only [cmCreateNewTrade, hpl, hp, hsb, Bool.false_eq_true, if_false, if_true]
    rfl

theorem cmStep_pos_inv (instruments : List (String × InstrumentDetail))
    (st : List StandardizedTrade × List (String × StandardizedTrade)) (fill : Fill)
    (hf : FLOATING_POINT_TOLERANCE < fill.fillSz)
    (h1 : ∀ t ∈ st.1, t.currentPositionSize = 0 ∧ t.status = PositionStatus.CLOSED)
    (h2 : ∀ p ∈ st.2, FLOATING_POINT_TOLERANCE < (p.2 : StandardizedTrade).currentPositionSize ∧
      (p.2 : StandardizedTrade).status = PositionStatus.OPEN) :
    (∀ t ∈ (cmStep instruments st fill).1,
      t.currentPositionSize = 0 ∧ t.status = PositionStatus.CLOSED) ∧
      (∀ p ∈ (cmStep instruments st fill).2,
        FLOATING_POINT_TOLERANCE < (p.2 : StandardizedTrade).currentPositionSize ∧
          (p.2 : StandardizedTrade).status = PositionStatus.OPEN) := by
  obtain ⟨closed, opens⟩ := st
  simp only at h1 h2
  have htol : (0 : ℚ) < FLOATING_POINT_TOLERANCE := by norm_num [FLOATING_POINT_TOLERANCE]
  rcases hg : alGet opens (fill.instId ++ "-" ++ fill.posSide) with _ | trade0
  · simp only [cmStep, hg]
    by_cases hopen : ((jsToLower fill.posSide == "long") && (jsToLower fill.side == "buy") ||
        (jsToLower fill.posSide == "short") && (jsToLower fill.side == "sell")) = true
    · simp only [hopen, Bool.not_true, Bool.false_eq_true, if_false]
      obtain ⟨hpos, hst, hla⟩ :=
        cmUpdate_increase instruments (cmCreateNewTrade instruments fill) fill
          (cmOpening_increase instruments fill hopen)
      have hpos2 : FLOATING_POINT_TOLERANCE <
          (cmUpdateTradeWithFill instruments (cmCreateNewTrade instruments fill)
            fill).currentPositionSize := by
        rw [hpos, (cmCreate_pos instruments fill).1, zero_add]; exact hf
      rw [if_neg (by simp [hla])]
      refine ⟨h1, ?_⟩
      intro p hp
      rcases mem_alSet hp with hv | hm
      · rw [hv]
        exact ⟨hpos2, by rw [hst]; exact (cmCreate_pos instruments fill).2⟩
      · exact h2 p hm
    · have hopen2 : ((jsToLower fill.posSide == "long") && (jsToLower fill.side == "buy") ||
          (jsToLower fill.posSide == "short") && (jsToLower fill.side == "sell")) = false := by
        cases h : ((jsToLower fill.posSide == "long") && (jsToLower fill.side == "buy") ||
            (jsToLower fill.posSide == "short") && (jsToLower fill.side == "sell"))
        · rfl
        · exact absurd h hopen
      simp only [hopen2, Bool.not_false, if_true]
      exact ⟨h1, h2⟩
  · have ht0 : FLOATING_POINT_TOLERANCE < trade0.currentPositionSize ∧
        trade0.status = PositionStatus.OPEN := by
      rcases alGet_mem hg with ⟨p, hp, hv⟩
      rw [← hv]; exact h2 p hp
    simp only [cmStep, hg]
    by_cases hc : ((trade0.direction == TradeDirection.LONG) && (jsToLower fill.side == "buy") ||
        (!(trade0.direction == TradeDirection.LONG)) && (!(jsToLower fill.side == "buy"))) = true
    · obtain ⟨hpos, hst, hla⟩ := cmUpdate_increase instruments trade0 fill hc
      have hpos2 : FLOATING_POINT_TOLERANCE <
          (cmUpdateTradeWithFill instruments trade0 fill).currentPositionSize := by
        rw [hpos]; linarith [ht0.1]
      rw [if_neg (by simp [hla])]
      refine ⟨h1, ?_⟩
      intro p hp
      rcases mem_alSet hp with hv | hm
      · rw [hv]
        exact ⟨hpos2, by rw [hst]; exact ht0.2⟩
      · exact h2 p hm
    · have hc2 : ((trade0.direction == TradeDirection.LONG) && (jsToLower fill.side == "buy") ||
          (!(trade0.direction == TradeDirection.LONG)) && (!(jsToLower fill.side == "buy"))) =
            false := by
        cases h : ((trade0.direction == TradeDirection.LONG) && (jsToLower fill.side == "buy") ||
            (!(trade0.direction == TradeDirection.LONG)) && (!(jsToLower fill.side == "buy")))
        · rfl
        · exact absurd h hc
      obtain ⟨hst, hla, hcases⟩ := cmUpdate_decrease instruments trade0 fill hc2
      rcases hcases with ⟨hle, hzero⟩ | ⟨hgt, heq⟩
      · rw [if_pos (by
          rw [hla, Bool.and_true]
          exact decide_eq_true (by rw [hzero]; linarith))]
        constructor
        · intro t ht
          rcases List.mem_append.1 ht with hl | hr
          · exact h1 t hl
          · rw [List.mem_singleton.1 hr]
            obtain ⟨hcp, hcs⟩ :=
              binanceClose_pos (cmUpdateTradeWithFill instruments trade0 fill) fill.ts
            exact ⟨by rw [hcp, hzero], hcs⟩
        · intro p hp
          exact h2 p (mem_alErase hp)
      · rw [if_neg (by
          rw [hla, Bool.and_true]
          simp only [decide_eq_true_eq]
          rw [heq]
          exact not_le_of_lt hgt)]
        refine ⟨h1, ?_⟩
        intro p hp
        rcases mem_alSet hp with hv | hm
        · rw [hv]
          refine ⟨by rw [heq]; exact hgt, by rw [hst]; exact ht0.2⟩
        · exact h2 p hm

theorem okxAddFill_ctVal (b : OkxTradeBuilder) (f : Fill) :
    (okxAddFill b f).contractValue = b.contractValue := rfl

theorem okxAddFill_spec (b : OkxTradeBuilder) (f : Fill) :
    ((okxAddFill b f).trade.currentPositionSize =
        b.trade.currentPositionSize + f.fillSz * b.contractValue ∧
      (okxAddFill b f).trade.status = b.trade.status) ∨
    ((b.trade.currentPositionSize -
          min (f.fillSz * b.contractValue) b.trade.currentPositionSize ≤
            FLOATING_POINT_TOLERANCE ∧
        (okxAddFill b f).trade.currentPositionSize = 0 ∧
        (okxAddFill b f).trade.status = PositionStatus.CLOSED) ∨
      (FLOATING_POINT_TOLERANCE <
          b.trade.currentPositionSize -
            min (f.fillSz * b.contractValue) b.trade.currentPositionSize ∧
        (okxAddFill b f).trade.currentPositionSize =
          b.trade.currentPositionSize -
            min (f.fillSz * b.contractValue) b.trade.currentPositionSize ∧
        (okxAddFill b f).trade.status = b.trade.status)) := by
  by_cases hc : (((b.trade.direction == TradeDirection.LONG) && (jsToLower f.side == "buy")) ||
      ((!(b.trade.direction == TradeDirection.LONG)) && (!(jsToLower f.side == "buy")))) = true
  · left
    simp only [okxAddFill, okxDetermineAction, hc, if_true, okxUpdateState]
    by_cases hl : (b.trade.timeline.length == 0) = true
    · simp only [hl, if_true]
      exact ⟨rfl, rfl⟩
    · simp only [hl, Bool.false_eq_true, if_false]
      exact ⟨rfl, rfl⟩
  · right
    have hc2 : (((b.trade.direction == TradeDirection.LONG) && (jsToLower f.side == "buy")) ||
        ((!(b.trade.direction == TradeDirection.LONG)) && (!(jsToLower f.side == "buy")))) =
          false := by
      cases h : (((b.trade.direction == TradeDirection.LONG) && (jsToLower f.side == "buy")) ||
          ((!(b.trade.direction == TradeDirection.LONG)) && (!(jsToLower f.side == "buy"))))
      · rfl
      · exact absurd h hc
    simp only [okxAddFill, okxDetermineAction, hc2, Bool.false_eq_true, if_false,
      okxUpdateState,
      show (TradeAction.REDUCE == TradeAction.OPEN || TradeAction.REDUCE == TradeAction.ADD) =
        false from rfl]
    by_cases hcc : b.trade.currentPositionSize -
        min (f.fillSz * b.contractValue) b.trade.currentPositionSize ≤
          FLOATING_POINT_TOLERANCE
    · left
      rw [if_pos hcc]
      refine ⟨hcc, ?_, ?_⟩ <;> (split <;> rfl)
    · right
      rw [if_neg hcc]
      exact ⟨lt_of_not_le hcc, rfl, rfl⟩

theorem okxNewBuilder_spec (f : Fill) (cv : ℚ) (inv : Bool) (hpos : 0 ≤ f.fillSz * cv) :
    (okxNewBuilder f cv inv).contractValue = cv ∧
      (((okxNewBuilder f cv inv).trade.currentPositionSize = f.fillSz * cv ∧
          (okxNewBuilder f cv inv).trade.status = PositionStatus.OPEN) ∨
        ((okxNewBuilder f cv inv).trade.currentPositionSize = 0 ∧
          (okxNewBuilder f cv inv).trade.status = PositionStatus.CLOSED)) := by
  refine ⟨rfl, ?_⟩
  simp only [okxNewBuilder]
  have h0 : (OkxTradeBuilder.mk (okxInitializeTrade f inv) cv inv).trade.currentPositionSize =
      0 := rfl
  have hst : (OkxTradeBuilder.mk (okxInitializeTrade f inv) cv inv).trade.status =
      PositionStatus.OPEN := rfl
  rcases okxAddFill_spec (OkxTradeBuilder.mk (okxInitializeTrade f inv) cv inv) f with
    ⟨hp, hs⟩ | ⟨hle, hp, hs⟩ | ⟨hgt, hp, hs⟩
  · exact Or.inl ⟨by rw [hp, h0, zero_add], by rw [hs, hst]⟩
  · exact Or.inr ⟨hp, hs⟩
  · exfalso
    rw [h0] at hgt
    have hm : min (f.fillSz * cv) (0 : ℚ) = 0 := min_eq_right hpos
    rw [hm, sub_zero] at hgt
    norm_num [FLOATING_POINT_TOLERANCE] at hgt

theorem umAddFill_ctVal (b : BinanceTradeBuilder) (f : Fill) :
    (umAddFill b f).contractValue = b.contractValue := rfl

theorem umAddFill_spec (b : BinanceTradeBuilder) (f : Fill) :
    ((umAddFill b f).trade.currentPositionSize =
        b.trade.currentPositionSize + f.fillSz * b.contractValue ∧
      (umAddFill b f).trade.status = b.trade.status) ∨
    ((umAddFill b f).trade.currentPositionSize =
        b.trade.currentPositionSize -
          min (f.fillSz * b.contractValue) b.trade.currentPositionSize ∧
      ((b.trade.currentPositionSize -
            min (f.fillSz * b.contractValue) b.trade.currentPositionSize ≤
              FLOATING_POINT_TOLERANCE ∧
          (umAddFill b f).trade.status = PositionStatus.CLOSED) ∨
        (FLOATING_POINT_TOLERANCE <
            b.trade.currentPositionSize -
              min (f.fillSz * b.contractValue) b.trade.currentPositionSize ∧
          (umAddFill b f).trade.status = b.trade.status))) := by
  by_cases hl : (b.trade.timeline.length == 0) = true
  · left
    simp only [umAddFill, hl, if_true, umApplyEvent,
      show (TradeAction.OPEN == TradeAction.OPEN || TradeAction.OPEN == TradeAction.ADD) =
        true from rfl,
      show (TradeAction.OPEN == TradeAction.REDUCE) = false from rfl, Bool.false_and,
      Bool.false_eq_true, if_false]
    constructor
    · split_ifs <;> rfl
    · split_ifs <;> rfl
  · have hl2 : (b.trade.timeline.length == 0) = false := by
      cases h : (b.trade.timeline.length == 0)
      · rfl
      · exact absurd h hl
    by_cases ha : (if b.trade.direction == TradeDirection.LONG then
        jsToLower f.side == "buy" else !(jsToLower f.side == "buy")) = true
    · left
      simp only [umAddFill, hl2, Bool.false_eq_true, if_false, ha, if_true, umApplyEvent,
        show (TradeAction.ADD == TradeAction.OPEN || TradeAction.ADD == TradeAction.ADD) =
          true from rfl,
        show (TradeAction.ADD == TradeAction.REDUCE) = false from rfl, Bool.false_and]
      constructor
      · split_ifs <;> rfl
      · split_ifs <;> rfl
    · have ha2 : (if b.trade.direction == TradeDirection.LONG then
          jsToLower f.side == "buy" else !(jsToLower f.side == "buy")) = false := by
        cases h : (if b.trade.direction == TradeDirection.LONG then
            jsToLower f.side == "buy" else !(jsToLower f.side == "buy"))
        · rfl
        · exact absurd h ha
      right
      simp only [umAddFill, hl2, Bool.false_eq_true, if_false, ha2, umApplyEvent,
        show (TradeAction.REDUCE == TradeAction.OPEN ||
          TradeAction.REDUCE == TradeAction.ADD) = false from rfl,
        show (TradeAction.REDUCE == TradeAction.REDUCE ||
          TradeAction.REDUCE == TradeAction.CLOSE) = true from rfl, if_true,
        show (TradeAction.REDUCE == TradeAction.REDUCE) = true from rfl, Bool.true_and,
        Bool.true_or, if_true, umCloseTrade]
      by_cases hcc : b.trade.currentPositionSize -
          min (f.fillSz * b.contractValue) b.trade.currentPositionSize ≤
            FLOATING_POINT_TOLERANCE
      · rw [if_pos (decide_eq_true hcc)]
        refine ⟨?_, Or.inl ⟨hcc, ?_⟩⟩
        · split_ifs <;> rfl
        · split_ifs <;> rfl
      · rw [if_neg (by simpa using hcc)]
        exact ⟨rfl, Or.inr ⟨lt_of_not_le hcc, rfl⟩⟩

theorem umAddFill_empty (b : BinanceTradeBuilder) (f : Fill)
    (hl : (b.trade.timeline.length == 0) = true) :
    (umAddFill b f).trade.currentPositionSize =
        b.trade.currentPositionSize + f.fillSz * b.contractValue ∧
      (umAddFill b f).trade.status = b.trade.status := by
  simp only [umAddFill, hl, if_true, umApplyEvent,
    show (TradeAction.OPEN == TradeAction.OPEN || TradeAction.OPEN == TradeAction.ADD) =
      true from rfl,
    show (TradeAction.OPEN == TradeAction.REDUCE) = false from rfl, Bool.false_and,
    Bool.false_eq_true, if_false]
  constructor
  · split_ifs <;> rfl
  · split_ifs <;> rfl

theorem umNewBuilder_spec (f : Fill) (cv : ℚ) :
    (umNewBuilder f cv).contractValue = cv ∧
      (umNewBuilder f cv).trade.currentPositionSize = f.fillSz * cv ∧
      (umNewBuilder f cv).trade.status = PositionStatus.OPEN := by
  obtain ⟨hp, hs⟩ := umAddFill_empty (BinanceTradeBuilder.mk (umInitializeTrade f) cv) f rfl
  refine ⟨rfl, ?_, ?_⟩
  · simp only [umNewBuilder]
    rw [hp,
      show (BinanceTradeBuilder.mk (umInitializeTrade f) cv).trade.currentPositionSize =
        0 from rfl,
      zero_add]
  · simp only [umNewBuilder]
    rw [hs]
    rfl

theorem stepInsert_inv {B : Type} (tr : B → StandardizedTrade) (cvB : B → ℚ)
    (closed : List StandardizedTrade) (opens : List (String × B)) (key : String) (b : B)
    (h1 : ∀ t ∈ closed, 0 ≤ t.currentPositionSize ∧
      t.currentPositionSize ≤ FLOATING_POINT_TOLERANCE ∧ t.status = PositionStatus.CLOSED)
    (h2 : ∀ p ∈ opens, FLOATING_POINT_TOLERANCE < (tr p.2).currentPositionSize ∧
      (tr p.2).status = PositionStatus.OPEN ∧ 1 ≤ cvB p.2)
    (hb : (FLOATING_POINT_TOLERANCE < (tr b).currentPositionSize ∧
        (tr b).status = PositionStatus.OPEN ∧ 1 ≤ cvB b) ∨
      (0 ≤ (tr b).currentPositionSize ∧
        (tr b).currentPositionSize ≤ FLOATING_POINT_TOLERANCE ∧
        (tr b).status = PositionStatus.CLOSED)) :
    (∀ t ∈ (if (tr b).status == PositionStatus.CLOSED then
        (closed ++ [tr b], alErase opens key) else (closed, alSet opens key b)).1,
      0 ≤ t.currentPositionSize ∧
        t.currentPositionSize ≤ FLOATING_POINT_TOLERANCE ∧ t.status = PositionStatus.CLOSED) ∧
      (∀ p ∈ (if (tr b).status == PositionStatus.CLOSED then
          (closed ++ [tr b], alErase opens key) else (closed, alSet opens key b)).2,
        FLOATING_POINT_TOLERANCE < (tr p.2).currentPositionSize ∧
          (tr p.2).status = PositionStatus.OPEN ∧ 1 ≤ cvB p.2) := by
  rcases hb with ⟨hpos, hst, hcv⟩ | ⟨h0, hle, hst⟩
  · rw [if_neg (by rw [hst]; decide)]
    refine ⟨h1, ?_⟩
    intro p hp
    rcases mem_alSet hp with hv | hm
    · rw [hv]
      exact ⟨hpos, hst, hcv⟩
    · exact h2 p hm
  · rw [if_pos (by rw [hst]; decide)]
    constructor
    · intro t ht
      rcases List.mem_append.1 ht with hl | hr
      · exact h1 t hl
      · rw [List.mem_singleton.1 hr]
        exact ⟨h0, hle, hst⟩
    · intro p hp
      exact h2 p (mem_alErase hp)

theorem okxStep_pos_inv (instruments : List (String × InstrumentDetail))
    (st : List StandardizedTrade × List (String × OkxTradeBuilder)) (fill : Fill)
    (hf : FLOATING_POINT_TOLERANCE < fill.fillSz)
    (hinst : ∀ q ∈ instruments, 1 ≤ (q.2 : InstrumentDetail).ctVal)
    (h1 : ∀ t ∈ st.1, 0 ≤ t.currentPositionSize ∧
      t.currentPositionSize ≤ FLOATING_POINT_TOLERANCE ∧ t.status = PositionStatus.CLOSED)
    (h2 : ∀ p ∈ st.2,
      FLOATING_POINT_TOLERANCE < (p.2 : OkxTradeBuilder).trade.currentPositionSize ∧
        (p.2 : OkxTradeBuilder).trade.status = PositionStatus.OPEN ∧
        1 ≤ (p.2 : OkxTradeBuilder).contractValue) :
    (∀ t ∈ (okxStep instruments st fill).1, 0 ≤ t.currentPositionSize ∧
      t.currentPositionSize ≤ FLOATING_POINT_TOLERANCE ∧ t.status = PositionStatus.CLOSED) ∧
      (∀ p ∈ (okxStep instruments st fill).2,
        FLOATING_POINT_TOLERANCE < (p.2 : OkxTradeBuilder).trade.currentPositionSize ∧
          (p.2 : OkxTradeBuilder).trade.status = PositionStatus.OPEN ∧
          1 ≤ (p.2 : OkxTradeBuilder).contractValue) := by
  obtain ⟨closed, opens⟩ := st
  simp only at h1 h2
  have htol : (0 : ℚ) < FLOATING_POINT_TOLERANCE := by norm_num [FLOATING_POINT_TOLERANCE]
  have hfpos : (0 : ℚ) < fill.fillSz := lt_trans htol hf
  rcases hg : alGet opens (fill.instId ++ "-" ++ jsToLower fill.posSide) with _ | b0
  · by_cases hro : okxIsReduceOnly fill = true
    · simp only [okxStep, hg, hro, if_true]
      exact ⟨h1, h2⟩
    · have hro2 : okxIsReduceOnly fill = false := by
        cases h : okxIsReduceOnly fill
        · rfl
        · exact absurd h hro
      rcases hgi : alGet instruments fill.instId with _ | inst
      · simp only [okxStep, hg, hro2, Bool.false_eq_true, if_false, hgi]
        obtain ⟨hcveq, hdisj⟩ := okxNewBuilder_spec fill 1
          (strIncludes fill.instId "-USD-" && !(strIncludes fill.instId "-USDT-"))
          (by nlinarith)
        apply stepInsert_inv (fun b => b.trade) (fun b => b.contractValue) closed opens _ _ h1 h2
        rcases hdisj with ⟨hp, hs⟩ | ⟨hp, hs⟩
        · exact Or.inl ⟨by rw [hp]; nlinarith, hs, by rw [hcveq]⟩
        · exact Or.inr ⟨by rw [hp], by rw [hp]; exact le_of_lt htol, hs⟩
      · have hcv : 1 ≤ inst.ctVal := by
          rcases alGet_mem hgi with ⟨q, hq, hv⟩
          rw [← hv]
          exact hinst q hq
        simp only [okxStep, hg, hro2, Bool.false_eq_true, if_false, hgi]
        obtain ⟨hcveq, hdisj⟩ := okxNewBuilder_spec fill inst.ctVal
          (strIncludes fill.instId "-USD-" && !(strIncludes fill.instId "-USDT-"))
          (by nlinarith)
        apply stepInsert_inv (fun b => b.trade) (fun b => b.contractValue) closed opens _ _ h1 h2
        rcases hdisj with ⟨hp, hs⟩ | ⟨hp, hs⟩
        · refine Or.inl ⟨?_, hs, by rw [hcveq]; exact hcv⟩
          rw [hp]
          nlinarith [mul_nonneg (le_of_lt hfpos) (sub_nonneg.2 hcv)]
        · exact Or.inr ⟨by rw [hp], by rw [hp]; exact le_of_lt htol, hs⟩
  · have hb0 : FLOATING_POINT_TOLERANCE < b0.trade.currentPositionSize ∧
        b0.trade.status = PositionStatus.OPEN ∧ 1 ≤ b0.contractValue := by
      rcases alGet_mem hg with ⟨p, hp, hv⟩
      rw [← hv]
      exact h2 p hp
    obtain ⟨ht0, hs0, hcv0⟩ := hb0
    have hprod : 0 ≤ fill.fillSz * b0.contractValue :=
      mul_nonneg (le_of_lt hfpos) (by linarith)
    simp only [okxStep, hg]
    apply stepInsert_inv (fun b => b.trade) (fun b => b.contractValue) closed opens _ _ h1 h2
    rcases okxAddFill_spec b0 fill with ⟨hp, hs⟩ | ⟨hle, hp, hs⟩ | ⟨hgt, hp, hs⟩
    · refine Or.inl ⟨?_, by rw [hs]; exact hs0, by rw [okxAddFill_ctVal]; exact hcv0⟩
      rw [hp]
      linarith
    · exact Or.inr ⟨by rw [hp], by rw [hp]; exact le_of_lt htol, hs⟩
    · exact Or.inl ⟨by rw [hp]; exact hgt, by rw [hs]; exact hs0,
        by rw [okxAddFill_ctVal]; exact hcv0⟩

theorem umStep_pos_inv (instruments : List (String × InstrumentDetail))
    (st : List StandardizedTrade × List (String × BinanceTradeBuilder)) (fill : Fill)
    (hf : FLOATING_POINT_TOLERANCE < fill.fillSz)
    (hinst : ∀ q ∈ instruments, 1 ≤ (q.2 : InstrumentDetail).ctVal)
    (h1 : ∀ t ∈ st.1, 0 ≤ t.currentPositionSize ∧
      t.currentPositionSize ≤ FLOATING_POINT_TOLERANCE ∧ t.status = PositionStatus.CLOSED)
    (h2 : ∀ p ∈ st.2,
      FLOATING_POINT_TOLERANCE < (p.2 : BinanceTradeBuilder).trade.currentPositionSize ∧
        (p.2 : BinanceTradeBuilder).trade.status = PositionStatus.OPEN ∧
        1 ≤ (p.2 : BinanceTradeBuilder).contractValue) :
    (∀ t ∈ (umStep instruments st fill).1, 0 ≤ t.currentPositionSize ∧
      t.currentPositionSize ≤ FLOATING_POINT_TOLERANCE ∧ t.status = PositionStatus.CLOSED) ∧
      (∀ p ∈ (umStep instruments st fill).2,
        FLOATING_POINT_TOLERANCE < (p.2 : BinanceTradeBuilder).trade.currentPositionSize ∧
          (p.2 : BinanceTradeBuilder).trade.status = PositionStatus.OPEN ∧
          1 ≤ (p.2 : BinanceTradeBuilder).contractValue) := by
  obtain ⟨closed, opens⟩ := st
  simp only at h1 h2
  have htol : (0 : ℚ) < FLOATING_POINT_TOLERANCE := by norm_num [FLOATING_POINT_TOLERANCE]
  have hfpos : (0 : ℚ) < fill.fillSz := lt_trans htol hf
  rcases hg : alGet opens (fill.instId ++ "-" ++ fill.posSide) with _ | b0
  · by_cases hop : ((jsToLower fill.posSide == "long") && (jsToLower fill.side == "buy") ||
        (jsToLower fill.posSide == "short") && (jsToLower fill.side == "sell")) = true
    · rcases hgi : alGet instruments fill.instId with _ | inst
      · simp only [umStep, hg, hop, Bool.not_true, Bool.false_eq_true, if_false, hgi]
        obtain ⟨hcveq, hp, hs⟩ := umNewBuilder_spec fill 1
        apply stepInsert_inv (fun b => b.trade) (fun b => b.contractValue) closed opens _ _ h1 h2
        exact Or.inl ⟨by rw [hp]; nlinarith, hs, by rw [hcveq]⟩
      · have hcv : 1 ≤ inst.ctVal := by
          rcases alGet_mem hgi with ⟨q, hq, hv⟩
          rw [← hv]
          exact hinst q hq
        simp only [umStep, hg, hop, Bool.not_true, Bool.false_eq_true, if_false, hgi]
        obtain ⟨hcveq, hp, hs⟩ := umNewBuilder_spec fill inst.ctVal
        apply stepInsert_inv (fun b => b.trade) (fun b => b.contractValue) closed opens _ _ h1 h2
        refine Or.inl ⟨?_, hs, by rw [hcveq]; exact hcv⟩
        rw [hp]
        nlinarith [mul_nonneg (le_of_lt hfpos) (sub_nonneg.2 hcv)]
    · have hop2 : ((jsToLower fill.posSide == "long") && (jsToLower fill.side == "buy") ||
          (jsToLower fill.posSide == "short") && (jsToLower fill.side == "sell")) = false := by
        cases h : ((jsToLower fill.posSide == "long") && (jsToLower fill.side == "buy") ||
            (jsToLower fill.posSide == "short") && (jsToLower fill.side == "sell"))
        · rfl
        · exact absurd h hop
      simp only [umStep, hg, hop2, Bool.not_false, if_true]
      exact ⟨h1, h2⟩
  · have hb0 : FLOATING_POINT_TOLERANCE < b0.trade.currentPositionSize ∧
        b0.trade.status = PositionStatus.OPEN ∧ 1 ≤ b0.contractValue := by
      rcases alGet_mem hg with ⟨p, hp, hv⟩
      rw [← hv]
      exact h2 p hp
    obtain ⟨ht0, hs0, hcv0⟩ := hb0
    have hprod : 0 ≤ fill.fillSz * b0.contractValue :=
      mul_nonneg (le_of_lt hfpos) (by linarith)
    simp only [umStep, hg]
    apply stepInsert_inv (fun b => b.trade) (fun b => b.contractValue) closed opens _ _ h1 h2
    rcases umAddFill_spec b0 fill with ⟨hp, hs⟩ | ⟨hp, ⟨hle, hs⟩ | ⟨hgt, hs⟩⟩
    · refine Or.inl ⟨?_, by rw [hs]; exact hs0, by rw [umAddFill_ctVal]; exact hcv0⟩
      rw [hp]
      linarith
    · refine Or.inr ⟨?_, by rw [hp]; exact hle, hs⟩
      rw [hp]
      exact sub_nonneg.2 (min_le_right _ _)
    · exact Or.inl ⟨by rw [hp]; exact hgt, by rw [hs]; exact hs0,
        by rw [umAddFill_ctVal]; exact hcv0⟩


theorem consistent_of_closed {t : StandardizedTrade}
    (h0 : t.currentPositionSize = 0) (hs : t.status = PositionStatus.CLOSED) :
    sizeStatusConsistent t := by
  simp only [sizeStatusConsistent]
  rw [h0, hs]
  exact ⟨le_refl 0, iff_of_true (by norm_num [FLOATING_POINT_TOLERANCE]) rfl⟩

theorem consistent_of_closed3 {t : StandardizedTrade} (h0 : 0 ≤ t.currentPositionSize)
    (hle : t.currentPositionSize ≤ FLOATING_POINT_TOLERANCE)
    (hs : t.status = PositionStatus.CLOSED) : sizeStatusConsistent t :=
  ⟨h0, iff_of_true hle hs⟩

theorem consistent_of_open {t : StandardizedTrade}
    (hgt : FLOATING_POINT_TOLERANCE < t.currentPositionSize)
    (hs : t.status = PositionStatus.OPEN) : sizeStatusConsistent t := by
  have htol : (0 : ℚ) < FLOATING_POINT_TOLERANCE := by norm_num [FLOATING_POINT_TOLERANCE]
  exact ⟨le_of_lt (lt_trans htol hgt),
    iff_of_false (not_le_of_lt hgt) (fun hc => absurd (hs.symm.trans hc) (by decide))⟩

theorem consistent_congr {t q : StandardizedTrade}
    (hp : q.currentPositionSize = t.currentPositionSize) (hs : q.status = t.status)
    (h : sizeStatusConsistent t) : sizeStatusConsistent q := by
  simp only [sizeStatusConsistent] at h ⊢
  rw [hp, hs]
  exact h

theorem spotFinalize_pos (t : StandardizedTrade) :
    (spotFinalizeTrade t).currentPositionSize = t.currentPositionSize ∧
      (spotFinalizeTrade t).status = t.status := by
  simp only [spotFinalizeTrade]
  split_ifs <;> exact ⟨rfl, rfl⟩

theorem cmFinalize_pos (t : StandardizedTrade) :
    (cmFinalizeTrade t).currentPositionSize = t.currentPositionSize ∧
      (cmFinalizeTrade t).status = t.status := by
  simp only [cmFinalizeTrade]
  split_ifs <;> exact ⟨rfl, rfl⟩

theorem okxFinalize_pos (t : StandardizedTrade) :
    (okxFinalizeTrade t).currentPositionSize = t.currentPositionSize ∧
      (okxFinalizeTrade t).status = t.status := by
  simp only [okxFinalizeTrade]
  split_ifs <;> exact ⟨rfl, rfl⟩

theorem umFinalize_pos (t : StandardizedTrade) :
    (umFinalizeTrade t).currentPositionSize = t.currentPositionSize ∧
      (umFinalizeTrade t).status = t.status := by
  simp only [umFinalizeTrade]
  split_ifs <;> exact ⟨rfl, rfl⟩

theorem applyFundingBillFirstMatch_preserve {P : StandardizedTrade → Prop}
    (hP : ∀ t a, P t → P (addFundingToTrade t a)) (i : String) (ts : ℤ) (a : ℚ) :
    ∀ l : List StandardizedTrade, (∀ t ∈ l, P t) →
      ∀ t ∈ applyFundingBillFirstMatch i ts a l, P t := by
  intro l
  induction l with
  | nil =>
    intro _ t ht
    exact absurd ht (List.not_mem_nil t)
  | cons t0 l ih =>
    intro hl t ht
    simp only [applyFundingBillFirstMatch] at ht
    by_cases hc : (t0.symbol == i && fundingQualifies t0 ts) = true
    · rw [if_pos hc] at ht
      rcases List.mem_cons.1 ht with h | h
      · rw [h]
        exact hP t0 a (hl t0 (List.mem_cons_self _ _))
      · exact hl t (List.mem_cons_of_mem _ h)
    · rw [if_neg hc] at ht
      rcases List.mem_cons.1 ht with h | h
      · rw [h]
        exact hl t0 (List.mem_cons_self _ _)
      · exact ih (fun x hx => hl x (List.mem_cons_of_mem _ hx)) t h

theorem binanceApplyFundingBills_preserve {P : StandardizedTrade → Prop}
    (hP : ∀ t a, P t → P (addFundingToTrade t a)) (trades : List StandardizedTrade)
    (bills : List Bill) (h : ∀ t ∈ trades, P t) :
    ∀ t ∈ binanceApplyFundingBills trades bills, P t := by
  refine foldl_preserve (P := fun l => ∀ t ∈ l, P t) ?_ bills trades h
  intro l b hl
  dsimp only
  split
  · exact applyFundingBillFirstMatch_preserve hP _ _ _ l hl
  · exact hl

theorem okxAddFundingForTrade_preserve {P : StandardizedTrade → Prop}
    (hP : ∀ t a, P t → P (addFundingToTrade t a)) (bills : List Bill)
    (t : StandardizedTrade) (h : P t) : P (okxAddFundingForTrade bills t) := by
  refine foldl_preserve ?_ _ t h
  intro s b hs
  dsimp only
  split
  · exact hP s b.balChg hs
  · exact hs

theorem cmApplyRisks_preserve {P : StandardizedTrade → Prop}
    (hP : ∀ t v, P t → P { t with currentNotionalValue := v })
    (opens : List (String × StandardizedTrade)) (risks : List PositionRisk)
    (h : ∀ p ∈ opens, P p.2) : ∀ p ∈ cmApplyRisks opens risks, P p.2 := by
  refine foldl_preserve (P := fun m => ∀ p ∈ m, P p.2) ?_ risks opens h
  intro m r hm p hp
  rcases mem_alUpdate hp with h1 | ⟨q, hq, hpq⟩
  · exact hm p h1
  · rw [hpq]
    exact hP q.2 _ (hm q hq)

theorem okxApplyRisks_preserve {P : OkxTradeBuilder → Prop}
    (hP : ∀ b v, P b → P { b with trade := { b.trade with currentNotionalValue := v } })
    (opens : List (String × OkxTradeBuilder)) (risks : List PositionRisk)
    (h : ∀ p ∈ opens, P p.2) : ∀ p ∈ okxApplyRisks opens risks, P p.2 := by
  refine foldl_preserve (P := fun m => ∀ p ∈ m, P p.2) ?_ risks opens h
  intro m r hm p hp
  rcases mem_alUpdate hp with h1 | ⟨q, hq, hpq⟩
  · exact hm p h1
  · rw [hpq]
    exact hP q.2 _ (hm q hq)

theorem buildInstrumentsIndex_mem (l : List InstrumentDetail) :
    ∀ q ∈ buildInstrumentsIndex l, (q.2 : InstrumentDetail) ∈ l := by
  refine foldl_preserve_mem
    (P := fun m : List (String × InstrumentDetail) => ∀ q ∈ m, q.2 ∈ l)
    (Q := fun i => i ∈ l) ?_ l (fun b hb => hb) [] (by simp)
  intro m inst hq hm q hqm
  rcases mem_alSet hqm with hv | hmm
  · rw [hv]
    exact hq
  · exact hm q hmm

theorem spot_pos_status (rawFills : List Fill) (rawBills : List Bill)
    (instrumentDetails : List InstrumentDetail) (rawPositionRisks : List PositionRisk)
    (hf : ∀ f ∈ rawFills, FLOATING_POINT_TOLERANCE < f.fillSz) :
    ∀ t ∈ spotProcessAllData rawFills rawBills instrumentDetails rawPositionRisks,
      sizeStatusConsistent t := by
  have hsf : ∀ f ∈ List.insertionSort fillTsLE rawFills,
      FLOATING_POINT_TOLERANCE < f.fillSz := fun f hfm =>
    hf f ((List.perm_insertionSort fillTsLE rawFills).mem_iff.1 hfm)
  have key := foldl_preserve_mem
    (P := fun st : List StandardizedTrade × List (String × StandardizedTrade) =>
      (∀ t ∈ st.1, t.currentPositionSize = 0 ∧ t.status = PositionStatus.CLOSED) ∧
        (∀ p ∈ st.2,
          FLOATING_POINT_TOLERANCE < (p.2 : StandardizedTrade).currentPositionSize ∧
            (p.2 : StandardizedTrade).status = PositionStatus.OPEN))
    (Q := fun f => FLOATING_POINT_TOLERANCE < f.fillSz)
    (g := spotStep (buildInstrumentsIndex instrumentDetails))
    (fun s b hq hs => spotStep_pos_inv _ s b hq hs.1 hs.2)
    (List.insertionSort fillTsLE rawFills) hsf ([], []) ⟨by simp, by simp⟩
  intro t ht
  simp only [spotProcessAllData, alValues] at ht
  rcases List.mem_map.1 ht with ⟨t0, ht0, rfl⟩
  apply consistent_congr (spotFinalize_pos t0).1 (spotFinalize_pos t0).2
  rcases List.mem_append.1 ht0 with h | h
  · exact consistent_of_closed (key.1 t0 h).1 (key.1 t0 h).2
  · rcases List.mem_map.1 h with ⟨p, hp, rfl⟩
    exact consistent_of_open (key.2 p hp).1 (key.2 p hp).2

theorem cm_pos_status (rawFills : List Fill) (rawBills : List Bill)
    (instrumentDetails : List InstrumentDetail) (rawPositionRisks : List PositionRisk)
    (hf : ∀ f ∈ rawFills, FLOATING_POINT_TOLERANCE < f.fillSz) :
    ∀ t ∈ cmProcessAllData rawFills rawBills instrumentDetails rawPositionRisks,
      sizeStatusConsistent t := by
  have hsf : ∀ f ∈ List.insertionSort fillTsLE rawFills,
      FLOATING_POINT_TOLERANCE < f.fillSz := fun f hfm =>
    hf f ((List.perm_insertionSort fillTsLE rawFills).mem_iff.1 hfm)
  have key := foldl_preserve_mem
    (P := fun st : List StandardizedTrade × List (String × StandardizedTrade) =>
      (∀ t ∈ st.1, t.currentPositionSize = 0 ∧ t.status = PositionStatus.CLOSED) ∧
        (∀ p ∈ st.2,
          FLOATING_POINT_TOLERANCE < (p.2 : StandardizedTrade).currentPositionSize ∧
            (p.2 : StandardizedTrade).status = PositionStatus.OPEN))
    (Q := fun f => FLOATING_POINT_TOLERANCE < f.fillSz)
    (g := cmStep (buildInstrumentsIndex instrumentDetails))
    (fun s b hq hs => cmStep_pos_inv _ s b hq hs.1 hs.2)
    (List.insertionSort fillTsLE rawFills) hsf ([], []) ⟨by simp, by simp⟩
  have hbase : ∀ x ∈ ((List.insertionSort fillTsLE rawFills).foldl
        (cmStep (buildInstrumentsIndex instrumentDetails)) ([], [])).1 ++
      (((List.insertionSort fillTsLE rawFills).foldl
        (cmStep (buildInstrumentsIndex instrumentDetails)) ([], [])).2).map
        (fun p => p.2), sizeStatusConsistent x := by
    intro x hx
    rcases List.mem_append.1 hx with h | h
    · exact consistent_of_closed (key.1 x h).1 (key.1 x h).2
    · rcases List.mem_map.1 h with ⟨p, hp, rfl⟩
      exact consistent_of_open (key.2 p hp).1 (key.2 p hp).2
  have hA2 := binanceApplyFundingBills_preserve
    (P := sizeStatusConsistent) (fun _ _ hh => hh) _ rawBills hbase
  intro t ht
  simp only [cmProcessAllData, cmApplyBillsAndRisks, alValues] at ht
  rcases List.mem_map.1 ht with ⟨t0, ht0, rfl⟩
  apply consistent_congr (cmFinalize_pos t0).1 (cmFinalize_pos t0).2
  rcases List.mem_append.1 ht0 with h | h
  · exact hA2 t0 (List.take_subset _ _ h)
  · rcases List.mem_map.1 h with ⟨p, hp, rfl⟩
    refine cmApplyRisks_preserve (P := sizeStatusConsistent) (fun _ _ hh => hh)
      _ rawPositionRisks ?_ p hp
    intro q hq
    obtain ⟨k, v⟩ := q
    exact hA2 v (List.drop_subset _ _ (List.of_mem_zip hq).2)

theorem okx_pos_status (rawFills : List Fill) (rawBills : List Bill)
    (instrumentDetails : List InstrumentDetail) (rawPositionRisks : List PositionRisk)
    (hf : ∀ f ∈ rawFills, FLOATING_POINT_TOLERANCE < f.fillSz)
    (hi : ∀ inst ∈ instrumentDetails, 1 ≤ inst.ctVal) :
    ∀ t ∈ okxProcessAllData rawFills rawBills instrumentDetails rawPositionRisks,
      sizeStatusConsistent t := by
  have hsf : ∀ f ∈ List.insertionSort okxFillLE rawFills,
      FLOATING_POINT_TOLERANCE < f.fillSz := fun f hfm =>
    hf f ((List.perm_insertionSort okxFillLE rawFills).mem_iff.1 hfm)
  have hidx : ∀ q ∈ buildInstrumentsIndex instrumentDetails,
      1 ≤ (q.2 : InstrumentDetail).ctVal :=
    fun (q : String × InstrumentDetail) hq =>
      hi q.2 (buildInstrumentsIndex_mem instrumentDetails q hq)
  have key := foldl_preserve_mem
    (P := fun st : List StandardizedTrade × List (String × OkxTradeBuilder) =>
      (∀ t ∈ st.1, 0 ≤ t.currentPositionSize ∧
        t.currentPositionSize ≤ FLOATING_POINT_TOLERANCE ∧
        t.status = PositionStatus.CLOSED) ∧
        (∀ p ∈ st.2,
          FLOATING_POINT_TOLERANCE < (p.2 : OkxTradeBuilder).trade.currentPositionSize ∧
            (p.2 : OkxTradeBuilder).trade.status = PositionStatus.OPEN ∧
            1 ≤ (p.2 : OkxTradeBuilder).contractValue))
    (Q := fun f => FLOATING_POINT_TOLERANCE < f.fillSz)
    (g := okxStep (buildInstrumentsIndex instrumentDetails))
    (fun s b hq hs => okxStep_pos_inv _ s b hq hidx hs.1 hs.2)
    (List.insertionSort okxFillLE rawFills) hsf ([], []) ⟨by simp, by simp⟩
  intro t ht
  simp only [okxProcessAllData] at ht
  rcases List.mem_map.1 ht with ⟨t0, ht0, rfl⟩
  apply consistent_congr (okxFinalize_pos t0).1 (okxFinalize_pos t0).2
  rcases List.mem_append.1 ht0 with h | h
  · rcases List.mem_map.1 h with ⟨t1, ht1, rfl⟩
    exact okxAddFundingForTrade_preserve (P := sizeStatusConsistent) (fun _ _ hh => hh)
      rawBills t1
      (consistent_of_closed3 (key.1 t1 ht1).1 (key.1 t1 ht1).2.1 (key.1 t1 ht1).2.2)
  · rcases List.mem_map.1 h with ⟨p, hp, rfl⟩
    refine okxApplyRisks_preserve (P := fun b => sizeStatusConsistent b.trade)
      (fun _ _ hh => hh) _ rawPositionRisks ?_ p hp
    intro q hq
    rcases List.mem_map.1 hq with ⟨p1, hp1, rfl⟩
    show sizeStatusConsistent (okxAddFundingForTrade rawBills p1.2.trade)
    exact okxAddFundingForTrade_preserve (P := sizeStatusConsistent) (fun _ _ hh => hh)
      rawBills p1.2.trade
      (consistent_of_open (key.2 p1 hp1).1 (key.2 p1 hp1).2.1)

theorem um_pos_status (rawFills : List Fill) (rawBills : List Bill)
    (instrumentDetails : List InstrumentDetail) (rawPositionRisks : List PositionRisk)
    (hf : ∀ f ∈ rawFills, FLOATING_POINT_TOLERANCE < f.fillSz)
    (hi : ∀ inst ∈ instrumentDetails, 1 ≤ inst.ctVal) :
    ∀ t ∈ umProcessAllData rawFills rawBills instrumentDetails rawPositionRisks,
      sizeStatusConsistent t := by
  have hsf : ∀ f ∈ List.insertionSort fillTsLE rawFills,
      FLOATING_POINT_TOLERANCE < f.fillSz := fun f hfm =>
    hf f ((List.perm_insertionSort fillTsLE rawFills).mem_iff.1 hfm)
  have hidx : ∀ q ∈ buildInstrumentsIndex instrumentDetails,
      1 ≤ (q.2 : InstrumentDetail).ctVal :=
    fun (q : String × InstrumentDetail) hq =>
      hi q.2 (buildInstrumentsIndex_mem instrumentDetails q hq)
  have key := foldl_preserve_mem
    (P := fun st : List StandardizedTrade × List (String × BinanceTradeBuilder) =>
      (∀ t ∈ st.1, 0 ≤ t.currentPositionSize ∧
        t.currentPositionSize ≤ FLOATING_POINT_TOLERANCE ∧
        t.status = PositionStatus.CLOSED) ∧
        (∀ p ∈ st.2,
          FLOATING_POINT_TOLERANCE <
            (p.2 : BinanceTradeBuilder).trade.currentPositionSize ∧
            (p.2 : BinanceTradeBuilder).trade.status = PositionStatus.OPEN ∧
            1 ≤ (p.2 : BinanceTradeBuilder).contractValue))
    (Q := fun f => FLOATING_POINT_TOLERANCE < f.fillSz)
    (g := umStep (buildInstrumentsIndex instrumentDetails))
    (fun s b hq hs => umStep_pos_inv _ s b hq hidx hs.1 hs.2)
    (List.insertionSort fillTsLE rawFills) hsf ([], []) ⟨by simp, by simp⟩
  have hbase : ∀ x ∈ ((List.insertionSort fillTsLE rawFills).foldl
        (umStep (buildInstrumentsIndex instrumentDetails)) ([], [])).1 ++
      (((List.insertionSort fillTsLE rawFills).foldl
        (umStep (buildInstrumentsIndex instrumentDetails)) ([], [])).2).map
        (fun p => p.2.trade), sizeStatusConsistent x := by
    intro x hx
    rcases List.mem_append.1 hx with h | h
    · exact consistent_of_closed3 (key.1 x h).1 (key.1 x h).2.1 (key.1 x h).2.2
    · rcases List.mem_map.1 h with ⟨p, hp, rfl⟩
      exact consistent_of_open (key.2 p hp).1 (key.2 p hp).2.1
  have hA2 := binanceApplyFundingBills_preserve
    (P := sizeStatusConsistent) (fun _ _ hh => hh) _ rawBills hbase
  intro t ht
  simp only [umProcessAllData, umApplyBillsAndRisks, umApplyRisks] at ht
  rcases List.mem_map.1 ht with ⟨t0, ht0, rfl⟩
  apply consistent_congr (umFinalize_pos t0).1 (umFinalize_pos t0).2
  rcases List.mem_append.1 ht0 with h | h
  · exact hA2 t0 (List.take_subset _ _ h)
  · rcases List.mem_map.1 h with ⟨q, hq, rfl⟩
    rcases List.mem_map.1 hq with ⟨pq, hpq, rfl⟩
    obtain ⟨p1, t1⟩ := pq
    show sizeStatusConsistent t1
    exact hA2 t1 (List.drop_subset _ _ (List.of_mem_zip hpq).2)

/-- C6 (amended): with every fill size above the floating tolerance and
every contract value at least one, each of the spot, coin-margined,
OKX and Binance USD-margined futures variants keeps every output trade
with a non-negative running position size that is within tolerance of
zero exactly when the trade status is closed. -/
theorem c6_size_status_invariant (rawFills : List Fill) (rawBills : List Bill)
    (instrumentDetails : List InstrumentDetail) (rawPositionRisks : List PositionRisk)
    (hf : ∀ f ∈ rawFills, FLOATING_POINT_TOLERANCE < f.fillSz)
    (hi : ∀ inst ∈ instrumentDetails, 1 ≤ inst.ctVal) :
    (∀ t ∈ spotProcessAllData rawFills rawBills instrumentDetails rawPositionRisks,
      sizeStatusConsistent t) ∧
      (∀ t ∈ cmProcessAllData rawFills rawBills instrumentDetails rawPositionRisks,
        sizeStatusConsistent t) ∧
      (∀ t ∈ okxProcessAllData rawFills rawBills instrumentDetails rawPositionRisks,
        sizeStatusConsistent t) ∧
      (∀ t ∈ umProcessAllData rawFills rawBills instrumentDetails rawPositionRisks,
        sizeStatusConsistent t) :=
  ⟨spot_pos_status rawFills rawBills instrumentDetails rawPositionRisks hf,
    cm_pos_status rawFills rawBills instrumentDetails rawPositionRisks hf,
    okx_pos_status rawFills rawBills instrumentDetails rawPositionRisks hf hi,
    um_pos_status rawFills rawBills instrumentDetails rawPositionRisks hf hi⟩

/-- C6 counterexample: a single zero-size buy fill leaves the spot
processor with one trade whose running position size is zero, well within
the floating tolerance, while its status stays open, so the unconditional
claim that size reaches zero exactly at the closed transition fails. -/
theorem c6_counterexample :
    (spotProcessAllData [zeroSizeFill] [] [] []).map
        (fun t => (t.currentPositionSize, t.status)) = [(0, PositionStatus.OPEN)] ∧
      ¬ ∀ t ∈ spotProcessAllData [zeroSizeFill] [] [] [], sizeStatusConsistent t := by
  have hmap : (spotProcessAllData [zeroSizeFill] [] [] []).map
      (fun t => (t.currentPositionSize, t.status)) = [(0, PositionStatus.OPEN)] := by
    norm_num +decide [spotProcessAllData, spotStep, spotUpdateTradeWithFill,
      spotCreateNewTrade, spotFinalizeTrade, binanceCloseTrade, lastActionClosing,
      bnAggregateTimeline, bnCanMerge, bnMergeEvents, groupRuns, buildInstrumentsIndex,
      alGet, alSet, alErase, alValues, List.insertionSort, List.orderedInsert, fillTsLE,
      jsToLower, charToLowerAscii, FLOATING_POINT_TOLERANCE, zeroSizeFill]
  refine ⟨hmap, fun H => ?_⟩
  rcases hE : spotProcessAllData [zeroSizeFill] [] [] [] with _ | ⟨t0, rest⟩
  · rw [hE] at hmap
    simp at hmap
  · rw [hE] at hmap H
    simp only [List.map_cons, List.cons.injEq, Prod.mk.injEq] at hmap
    obtain ⟨⟨hp0, hs0⟩, _⟩ := hmap
    have hc := H t0 (List.mem_cons_self _ _)
    simp only [sizeStatusConsistent] at hc
    have hcl : t0.status = PositionStatus.CLOSED :=
      hc.2.1 (by rw [hp0]; norm_num [FLOATING_POINT_TOLERANCE])
    rw [hs0] at hcl
    exact absurd hcl (by decide)

/-- Witness for C6: on a single unit-size buy fill with no instrument
metadata, the hypotheses hold and the spot conjunct applies. -/
theorem c6_size_status_invariant_witness :
    (∀ f ∈ [c9Buy], FLOATING_POINT_TOLERANCE < f.fillSz) ∧
      (∀ inst ∈ ([] : List InstrumentDetail), 1 ≤ inst.ctVal) ∧
      (∀ t ∈ spotProcessAllData [c9Buy] [] [] [], sizeStatusConsistent t) := by
  have hf : ∀ f ∈ [c9Buy], FLOATING_POINT_TOLERANCE < f.fillSz := by
    intro f hfm
    rw [List.mem_singleton.1 hfm]
    norm_num [c9Buy, c9Sell0, FLOATING_POINT_TOLERANCE]
  have hi : ∀ inst ∈ ([] : List InstrumentDetail), 1 ≤ inst.ctVal := by
    intro inst hm
    exact absurd hm (List.not_mem_nil inst)
  exact ⟨hf, hi, (c6_size_status_invariant [c9Buy] [] [] [] hf hi).1⟩

theorem lexLe_total : ∀ a b : List Char, lexLe a b = true ∨ lexLe b a = true
  | [], _ => Or.inl rfl
  | _ :: _, [] => Or.inr rfl
  | a :: as, b :: bs => by
    simp only [lexLe]
    split_ifs
    all_goals first
      | exact Or.inl rfl
      | exact Or.inr rfl
      | exact lexLe_total as bs

theorem lexLe_trans : ∀ a b c : List Char,
    lexLe a b = true → lexLe b c = true → lexLe a c = true
  | [], _, _, _, _ => rfl
  | _ :: _, [], _, h1, _ => absurd h1 (by simp [lexLe])
  | _ :: _, _ :: _, [], _, h2 => absurd h2 (by simp [lexLe])
  | a :: as, b :: bs, c :: cs, h1, h2 => by
    simp only [lexLe] at h1 h2 ⊢
    split_ifs at h1 h2 ⊢ <;>
      first
        | rfl
        | exact absurd h1 Bool.false_ne_true
        | exact absurd h2 Bool.false_ne_true
        | (exfalso; omega)
        | exact lexLe_trans as bs cs h1 h2

theorem strLe_total (a b : String) : strLe a b = true ∨ strLe b a = true :=
  lexLe_total a.data b.data

theorem strLe_trans {a b c : String} (h1 : strLe a b = true) (h2 : strLe b c = true) :
    strLe a c = true :=
  lexLe_trans a.data b.data c.data h1 h2

theorem tlEventLE_total (a b : TimelineEvent) : tlEventLE a b ∨ tlEventLE b a := by
  rcases lt_trichotomy a.timestamp b.timestamp with h | h | h
  · exact Or.inl (Or.inl h)
  · rcases strLe_total a.tradeId b.tradeId with hl | hl
    · exact Or.inl (Or.inr ⟨h, hl⟩)
    · exact Or.inr (Or.inr ⟨h.symm, hl⟩)
  · exact Or.inr (Or.inl h)

theorem tlEventLE_trans {a b c : TimelineEvent} (h1 : tlEventLE a b) (h2 : tlEventLE b c) :
    tlEventLE a c := by
  rcases h1 with h1 | ⟨e1, l1⟩ <;> rcases h2 with h2 | ⟨e2, l2⟩
  · exact Or.inl (lt_trans h1 h2)
  · exact Or.inl (by omega)
  · exact Or.inl (by omega)
  · exact Or.inr ⟨e1.trans e2, strLe_trans l1 l2⟩

theorem tlCanMerge_eq (W : ℤ) (p c : TimelineEvent) :
    tlCanMerge W p c =
      (decide (c.timestamp - p.timestamp < W) &&
        (clsAction c.action == clsAction p.action)) := by
  simp only [tlCanMerge]
  generalize c.action = ca
  generalize p.action = pa
  cases pa <;> cases ca <;> rfl

theorem tlCanMerge_true_iff (W : ℤ) (x y : TimelineEvent) :
    tlCanMerge W x y = true ↔
      (y.timestamp - x.timestamp < W ∧ clsAction y.action = clsAction x.action) := by
  rw [tlCanMerge_eq]
  simp [Bool.and_eq_true, decide_eq_true_eq, beq_iff_eq]

theorem tlCanMerge_false_of (W : ℤ) {x y x2 y2 : TimelineEvent}
    (h : tlCanMerge W x y = false)
    (hts : x2.timestamp ≤ x.timestamp) (hts2 : y2.timestamp = y.timestamp)
    (hcls : clsAction x2.action = clsAction x.action)
    (hcls2 : clsAction y2.action = clsAction y.action) :
    tlCanMerge W x2 y2 = false := by
  rw [Bool.eq_false_iff] at h ⊢
  intro h2
  obtain ⟨hw, hc⟩ := (tlCanMerge_true_iff W x2 y2).1 h2
  exact h ((tlCanMerge_true_iff W x y).2 ⟨by omega, by rw [← hcls2, hc, hcls]⟩)

theorem tlMergeGroup_timestamp : ∀ (g : List TimelineEvent) (a : TimelineEvent),
    (tlMergeGroup (a :: g)).timestamp = a.timestamp
  | [], _ => rfl
  | _ :: _, _ => rfl

theorem tlMergeGroup_cls (a : TimelineEvent) (g : List TimelineEvent)
    (h : ∀ x ∈ g, clsAction x.action = clsAction a.action) :
    clsAction (tlMergeGroup (a :: g)).action = clsAction a.action := by
  cases g with
  | nil => rfl
  | cons b rest =>
    show clsAction
        (if (a :: b :: rest).any (fun e => e.action == TradeAction.OPEN) then TradeAction.OPEN
          else if (a :: b :: rest).any (fun e => e.action == TradeAction.CLOSE) then
            TradeAction.CLOSE
          else a.action) = clsAction a.action
    have hmem : ∀ x ∈ a :: b :: rest, clsAction x.action = clsAction a.action := by
      intro x hx
      rcases List.mem_cons.1 hx with h0 | h0
      · rw [h0]
      · exact h x h0
    split_ifs with ho hc
    · rcases List.any_eq_true.1 ho with ⟨x, hx, hxa⟩
      have hxo : x.action = TradeAction.OPEN := by simpa using hxa
      have := hmem x hx
      rw [hxo] at this
      exact this
    · rcases List.any_eq_true.1 hc with ⟨x, hx, hxa⟩
      have hxc : x.action = TradeAction.CLOSE := by simpa using hxa
      have := hmem x hx
      rw [hxc] at this
      exact this
    · rfl

theorem groupRuns_of_chain_false {α : Type} (R : α → α → Bool) :
    ∀ l : List α, List.Chain' (fun a b => R a b = false) l →
      groupRuns R l = l.map (fun a => [a])
  | [], _ => rfl
  | [_], _ => rfl
  | a :: b :: l, h => by
    have hab : R a b = false := (List.chain'_cons.1 h).1
    have ih := groupRuns_of_chain_false R (b :: l) (List.chain'_cons.1 h).2
    simp only [groupRuns, ih, List.map_cons]
    rw [hab]
    simp

theorem agg_props (W : ℤ) :
    ∀ (s' : List TimelineEvent) (a : TimelineEvent),
      List.Chain' (fun x y => x.timestamp < y.timestamp) (a :: s') →
      ∃ g gs, groupRuns (tlCanMerge W) (a :: s') = (a :: g) :: gs ∧
        (∀ x ∈ a :: g, clsAction x.action = clsAction a.action) ∧
        (∀ k ∈ gs, ∃ b g', k = b :: g' ∧
          ∀ x ∈ k, clsAction x.action = clsAction b.action) ∧
        List.Chain' (fun x y => x.timestamp < y.timestamp)
          ((groupRuns (tlCanMerge W) (a :: s')).map tlMergeGroup) ∧
        List.Chain' (fun x y => tlCanMerge W x y = false)
          ((groupRuns (tlCanMerge W) (a :: s')).map tlMergeGroup)
  | [], a, _ => by
    refine ⟨[], [], rfl, ?_, ?_, ?_, ?_⟩
    · intro x hx
      rw [List.mem_singleton.1 hx]
    · intro k hk
      exact absurd hk (List.not_mem_nil k)
    · exact List.chain'_singleton _
    · exact List.chain'_singleton _
  | b :: l, a, h => by
    have hab : a.timestamp < b.timestamp := (List.chain'_cons.1 h).1
    obtain ⟨g0, gs0, hgr, hclsHead, hclsRest, hch1, hch2⟩ :=
      agg_props W l b (List.chain'_cons.1 h).2
    rw [hgr, List.map_cons] at hch1 hch2
    have hstep : groupRuns (tlCanMerge W) (a :: b :: l) =
        if tlCanMerge W a b then ((a :: b :: g0) :: gs0) else ([a] :: (b :: g0) :: gs0) := by
      simp only [groupRuns, hgr]
    cases hC : tlCanMerge W a b with
    | true =>
      have hba : clsAction b.action = clsAction a.action :=
        ((tlCanMerge_true_iff W a b).1 hC).2
      have hclsNew : ∀ x ∈ a :: b :: g0, clsAction x.action = clsAction a.action := by
        intro x hx
        rcases List.mem_cons.1 hx with h0 | h0
        · rw [h0]
        · rw [hclsHead x h0, hba]
      refine ⟨b :: g0, gs0, by rw [hstep, if_pos hC], hclsNew, hclsRest, ?_, ?_⟩
      · rw [hstep, if_pos hC, List.map_cons]
        refine List.chain'_cons'.2 ⟨?_, (List.chain'_cons'.1 hch1).2⟩
        intro y hy
        have hold := (List.chain'_cons'.1 hch1).1 y hy
        rw [tlMergeGroup_timestamp] at hold ⊢
        exact lt_trans hab hold
      · rw [hstep, if_pos hC, List.map_cons]
        refine List.chain'_cons'.2 ⟨?_, (List.chain'_cons'.1 hch2).2⟩
        intro y hy
        have hold := (List.chain'_cons'.1 hch2).1 y hy
        refine tlCanMerge_false_of W hold ?_ rfl ?_ rfl
        · rw [tlMergeGroup_timestamp, tlMergeGroup_timestamp]
          exact le_of_lt hab
        · rw [tlMergeGroup_cls a (b :: g0)
              (fun x hx => hclsNew x (List.mem_cons_of_mem a hx)),
            tlMergeGroup_cls b g0
              (fun x hx => hclsHead x (List.mem_cons_of_mem b hx))]
          exact hba.symm
    | false =>
      have hneg : ¬(tlCanMerge W a b = true) := by rw [hC]; exact Bool.false_ne_true
      refine ⟨[], (b :: g0) :: gs0, by rw [hstep, if_neg hneg], ?_, ?_, ?_, ?_⟩
      · intro x hx
        rw [List.mem_singleton.1 hx]
      · intro k hk
        rcases List.mem_cons.1 hk with h0 | h0
        · exact ⟨b, g0, h0, by rw [h0]; exact hclsHead⟩
        · exact hclsRest k h0
      · rw [hstep, if_neg hneg, List.map_cons, List.map_cons]
        refine List.chain'_cons'.2 ⟨?_, hch1⟩
        intro y hy
        simp only [List.head?_cons, Option.mem_some_iff] at hy
        rw [← hy, tlMergeGroup_timestamp, tlMergeGroup_timestamp]
        exact hab
      · rw [hstep, if_neg hneg, List.map_cons, List.map_cons]
        refine List.chain'_cons'.2 ⟨?_, hch2⟩
        intro y hy
        simp only [List.head?_cons, Option.mem_some_iff] at hy
        rw [← hy]
        refine tlCanMerge_false_of W hC ?_ ?_ ?_ ?_
        · rw [tlMergeGroup_timestamp]
        · rw [tlMergeGroup_timestamp]
        · rw [tlMergeGroup_cls a [] (by intro x hx; exact absurd hx (List.not_mem_nil x))]
        · exact tlMergeGroup_cls b g0
            (fun x hx => hclsHead x (List.mem_cons_of_mem b hx))

theorem aggregate_idem_general (W : ℤ) (l : List TimelineEvent)
    (hd : l.Pairwise fun x y => x.timestamp ≠ y.timestamp) :
    aggregateEvents (aggregateEvents l W) W = aggregateEvents l W := by
  by_cases hlen : l.length < 2
  · have h1 : aggregateEvents l W = l := by simp only [aggregateEvents, if_pos hlen]
    rw [h1]
    exact h1
  · have hs : List.Sorted tlEventLE (List.insertionSort tlEventLE l) :=
      @List.sorted_insertionSort TimelineEvent tlEventLE _ ⟨tlEventLE_total⟩
        ⟨fun a b c => tlEventLE_trans⟩ l
    have hdist : (List.insertionSort tlEventLE l).Pairwise
        (fun x y => x.timestamp ≠ y.timestamp) :=
      (List.Perm.pairwise_iff (fun hxy => hxy.symm)
        (List.perm_insertionSort tlEventLE l)).2 hd
    have hlt : (List.insertionSort tlEventLE l).Pairwise
        (fun x y => x.timestamp < y.timestamp) := by
      refine List.Pairwise.imp ?_ (hs.and hdist)
      intro x y hxy
      rcases hxy.1 with h | ⟨heq, _⟩
      · exact h
      · exact absurd heq hxy.2
    have hchain : List.Chain' (fun x y => x.timestamp < y.timestamp)
        (List.insertionSort tlEventLE l) := hlt.chain'
    rcases hE : List.insertionSort tlEventLE l with _ | ⟨a, s'⟩
    · exfalso
      have := List.length_insertionSort tlEventLE l
      rw [hE] at this
      simp at this
      omega
    · rw [hE] at hchain
      obtain ⟨g, gs, _, _, _, hch1, hch2⟩ := agg_props W s' a hchain
      have hAl : aggregateEvents l W =
          (groupRuns (tlCanMerge W) (a :: s')).map tlMergeGroup := by
        simp only [aggregateEvents, if_neg hlen, hE]
      rw [hAl]
      by_cases hlen2 : ((groupRuns (tlCanMerge W) (a :: s')).map tlMergeGroup).length < 2
      · simp only [aggregateEvents, if_pos hlen2]
      · have hp : ((groupRuns (tlCanMerge W) (a :: s')).map tlMergeGroup).Pairwise
            (fun x y => x.timestamp < y.timestamp) :=
          (@List.chain'_iff_pairwise TimelineEvent (fun x y => x.timestamp < y.timestamp)
            ⟨fun x y z hxy hyz => lt_trans hxy hyz⟩ _).1 hch1
        have hsorted2 : List.Sorted tlEventLE
            ((groupRuns (tlCanMerge W) (a :: s')).map tlMergeGroup) :=
          hp.imp (fun hxy => Or.inl hxy)
        have heq2 := hsorted2.insertionSort_eq
        have hgr2 := groupRuns_of_chain_false (tlCanMerge W) _ hch2
        simp only [aggregateEvents, if_neg hlen2, heq2, hgr2, List.map_map]
        rw [show (tlMergeGroup ∘ (fun a => [a]) ∘ tlMergeGroup) = tlMergeGroup from
          funext fun e => rfl]

/-- C7 counterexample: two identical ADD events and one REDUCE event at the
same timestamp and tradeId aggregate into a merged ADD whose joined
tradeId sorts after the lone REDUCE on re-aggregation, so aggregating the
aggregated list changes it and idempotence fails unconditionally. -/
theorem c7_counterexample :
    aggregateEvents (aggregateEvents [evAdd1, evAdd2, evReduce]) ≠
      aggregateEvents [evAdd1, evAdd2, evReduce] := by
  norm_num +decide [aggregateEvents, groupRuns, tlCanMerge, tlMergeGroup, tlEventLE,
    List.insertionSort, List.orderedInsert, strLe, lexLe, evAdd1, evAdd2, evReduce]

/-- C7 (amended): timeline aggregation with the default sixty-second merge
window is idempotent on every event list whose timestamps are pairwise
distinct: aggregating the aggregate reproduces the aggregate. -/
theorem c7_aggregate_idempotent (l : List TimelineEvent)
    (hd : l.Pairwise fun x y => x.timestamp ≠ y.timestamp) :
    aggregateEvents (aggregateEvents l) = aggregateEvents l :=
  aggregate_idem_general 60000 l hd

/-- Witness for C7: two events at distinct timestamps satisfy the
hypothesis and the aggregation of their aggregate is their aggregate. -/
theorem c7_aggregate_idempotent_witness :
    [evW1, evW2].Pairwise (fun x y => x.timestamp ≠ y.timestamp) ∧
      aggregateEvents (aggregateEvents [evW1, evW2]) = aggregateEvents [evW1, evW2] := by
  have hd : [evW1, evW2].Pairwise (fun x y => x.timestamp ≠ y.timestamp) := by
    norm_num [evW1, evW2]
  exact ⟨hd, c7_aggregate_idempotent [evW1, evW2] hd⟩

theorem lexLe_antisymm : ∀ a b : List Char, lexLe a b = true → lexLe b a = true → a = b
  | [], [], _, _ => rfl
  | [], _ :: _, _, h2 => absurd h2 (by simp [lexLe])
  | _ :: _, [], h1, _ => absurd h1 (by simp [lexLe])
  | a :: as, b :: bs, h1, h2 => by
    simp only [lexLe] at h1 h2
    split_ifs at h1 h2 with ha hb <;>
      first
        | exact absurd h1 Bool.false_ne_true
        | exact absurd h2 Bool.false_ne_true
        | (exfalso; omega)
        | (have hchar : a = b := Char.ext (UInt32.ext (by omega))
           rw [hchar, lexLe_antisymm as bs h1 h2])

theorem strLe_antisymm {a b : String} (h1 : strLe a b = true) (h2 : strLe b a = true) :
    a = b := by
  have hd : a.data = b.data := lexLe_antisymm a.data b.data h1 h2
  cases a
  cases b
  simp only at hd
  rw [hd]

theorem eq_of_perm_of_sorted_anti {α : Type} {r : α → α → Prop} :
    ∀ (l₁ l₂ : List α), l₁.Perm l₂ → List.Sorted r l₁ → List.Sorted r l₂ →
      (∀ a ∈ l₁, ∀ b ∈ l₁, r a b → r b a → a = b) → l₁ = l₂
  | [], l₂, hp, _, _, _ => (hp.symm.eq_nil).symm
  | a :: t₁, l₂, hp, hs₁, hs₂, hanti => by
    rcases l₂ with _ | ⟨b, t₂⟩
    · exact absurd hp.eq_nil (by simp)
    · have hab : a = b := by
        by_contra hne
        have ha2 : a ∈ b :: t₂ := hp.mem_iff.1 (List.mem_cons_self a t₁)
        have hb1 : b ∈ a :: t₁ := hp.mem_iff.2 (List.mem_cons_self b t₂)
        have hat2 : a ∈ t₂ := by
          rcases List.mem_cons.1 ha2 with h0 | h0
          · exact absurd h0 hne
          · exact h0
        have hbt1 : b ∈ t₁ := by
          rcases List.mem_cons.1 hb1 with h0 | h0
          · exact absurd h0.symm hne
          · exact h0
        have hrab : r a b := (List.sorted_cons.1 hs₁).1 b hbt1
        have hrba : r b a := (List.sorted_cons.1 hs₂).1 a hat2
        exact hne (hanti a (List.mem_cons_self a t₁) b (List.mem_cons_of_mem a hbt1) hrab hrba)
      subst hab
      have hpt : t₁.Perm t₂ := hp.cons_inv
      have htail := eq_of_perm_of_sorted_anti t₁ t₂ hpt (List.sorted_cons.1 hs₁).2
        (List.sorted_cons.1 hs₂).2
        (fun x hx y hy hr1 hr2 =>
          hanti x (List.mem_cons_of_mem a hx) y (List.mem_cons_of_mem a hy) hr1 hr2)
      rw [htail]

theorem insertionSort_perm_eq {α : Type} (r : α → α → Prop) [DecidableRel r]
    (htot : ∀ a b : α, r a b ∨ r b a) (htr : ∀ {a b c : α}, r a b → r b c → r a c)
    {l₁ l₂ : List α} (hp : l₁.Perm l₂)
    (hanti : ∀ a ∈ l₁, ∀ b ∈ l₁, r a b → r b a → a = b) :
    List.insertionSort r l₁ = List.insertionSort r l₂ := by
  have hs₁ := @List.sorted_insertionSort α r _ ⟨htot⟩ ⟨fun a b c hab hbc => htr hab hbc⟩ l₁
  have hs₂ := @List.sorted_insertionSort α r _ ⟨htot⟩ ⟨fun a b c hab hbc => htr hab hbc⟩ l₂
  have hp2 : (List.insertionSort r l₁).Perm (List.insertionSort r l₂) :=
    ((List.perm_insertionSort r l₁).trans hp).trans (List.perm_insertionSort r l₂).symm
  refine eq_of_perm_of_sorted_anti _ _ hp2 hs₁ hs₂ ?_
  intro a ha b hb
  exact hanti a ((List.perm_insertionSort r l₁).mem_iff.1 ha)
    b ((List.perm_insertionSort r l₁).mem_iff.1 hb)

theorem okxFillLE_total (a b : Fill) : okxFillLE a b ∨ okxFillLE b a := by
  rcases lt_trichotomy a.ts b.ts with h | h | h
  · exact Or.inl (Or.inl h)
  · rcases strLe_total a.tradeId b.tradeId with hl | hl
    · exact Or.inl (Or.inr ⟨h, hl⟩)
    · exact Or.inr (Or.inr ⟨h.symm, hl⟩)
  · exact Or.inr (Or.inl h)

theorem okxFillLE_trans {a b c : Fill} (h1 : okxFillLE a b) (h2 : okxFillLE b c) :
    okxFillLE a c := by
  rcases h1 with h1 | ⟨e1, l1⟩ <;> rcases h2 with h2 | ⟨e2, l2⟩
  · exact Or.inl (lt_trans h1 h2)
  · exact Or.inl (by omega)
  · exact Or.inl (by omega)
  · exact Or.inr ⟨e1.trans e2, strLe_trans l1 l2⟩

theorem fillTsLE_total (a b : Fill) : fillTsLE a b ∨ fillTsLE b a := le_total a.ts b.ts

theorem fillTsLE_trans {a b c : Fill} (h1 : fillTsLE a b) (h2 : fillTsLE b c) :
    fillTsLE a c := le_trans h1 h2

/-- C1 (amended): the OKX processor is order-independent on fill batches
whose (timestamp, tradeId) sort keys identify the fill, and the four
Binance processors, which sort by timestamp alone, are order-independent
on fill batches whose timestamps identify the fill. -/
theorem c1_order_independence :
    (∀ (l₁ l₂ : List Fill) (rawBills : List Bill)
        (instrumentDetails : List InstrumentDetail) (rawPositionRisks : List PositionRisk),
      l₁.Perm l₂ →
      (∀ a ∈ l₁, ∀ b ∈ l₁, a.ts = b.ts → a.tradeId = b.tradeId → a = b) →
      okxProcessAllData l₁ rawBills instrumentDetails rawPositionRisks =
        okxProcessAllData l₂ rawBills instrumentDetails rawPositionRisks) ∧
    (∀ (l₁ l₂ : List Fill) (rawBills : List Bill)
        (instrumentDetails : List InstrumentDetail) (rawPositionRisks : List PositionRisk),
      l₁.Perm l₂ →
      (∀ a ∈ l₁, ∀ b ∈ l₁, a.ts = b.ts → a = b) →
      cmProcessAllData l₁ rawBills instrumentDetails rawPositionRisks =
          cmProcessAllData l₂ rawBills instrumentDetails rawPositionRisks ∧
        spotProcessAllData l₁ rawBills instrumentDetails rawPositionRisks =
          spotProcessAllData l₂ rawBills instrumentDetails rawPositionRisks ∧
        marginProcessAllData l₁ rawBills instrumentDetails rawPositionRisks =
          marginProcessAllData l₂ rawBills instrumentDetails rawPositionRisks ∧
        umProcessAllData l₁ rawBills instrumentDetails rawPositionRisks =
          umProcessAllData l₂ rawBills instrumentDetails rawPositionRisks) := by
  constructor
  · intro l₁ l₂ rawBills instrumentDetails rawPositionRisks hp hkeys
    have hsort : List.insertionSort okxFillLE l₁ = List.insertionSort okxFillLE l₂ := by
      refine insertionSort_perm_eq okxFillLE okxFillLE_total
        (fun h1 h2 => okxFillLE_trans h1 h2) hp ?_
      intro a ha b hb hab hba
      rcases hab with h1 | ⟨e1, s1⟩
      · rcases hba with h2 | ⟨e2, _⟩
        · exact absurd h2 (not_lt_of_lt h1)
        · exact absurd e2 (by omega)
      · rcases hba with h2 | ⟨_, s2⟩
        · exact absurd e1 (by omega)
        · exact hkeys a ha b hb e1 (strLe_antisymm s1 s2)
    simp only [okxProcessAllData, hsort]
  · intro l₁ l₂ rawBills instrumentDetails rawPositionRisks hp hts
    have hsort : List.insertionSort fillTsLE l₁ = List.insertionSort fillTsLE l₂ := by
      refine insertionSort_perm_eq fillTsLE fillTsLE_total
        (fun h1 h2 => fillTsLE_trans h1 h2) hp ?_
      intro a ha b hb hab hba
      exact hts a ha b hb (le_antisymm hab hba)
    refine ⟨?_, ?_, ?_, ?_⟩
    · simp only [cmProcessAllData, hsort]
    · simp only [spotProcessAllData, hsort]
    · simp only [marginProcessAllData, hsort]
    · simp only [umProcessAllData, hsort]

/-- C1 counterexample: the margin processor sorts by timestamp alone, so
swapping a buy and a sell that share a timestamp flips which fill opens
the cycle: the ordered batch yields one long trade and the swapped batch
one short trade, refuting order-independence for arbitrary permutations. -/
theorem c1_counterexample :
    ([cxFill1, cxFill2] : List Fill).Perm [cxFill2, cxFill1] ∧
      (marginProcessAllData [cxFill1, cxFill2] [] [] []).map (fun t => t.direction) =
        [TradeDirection.LONG] ∧
      (marginProcessAllData [cxFill2, cxFill1] [] [] []).map (fun t => t.direction) =
        [TradeDirection.SHORT] ∧
      marginProcessAllData [cxFill1, cxFill2] [] [] [] ≠
        marginProcessAllData [cxFill2, cxFill1] [] [] [] := by
  have h1 : (marginProcessAllData [cxFill1, cxFill2] [] [] []).map (fun t => t.direction) =
      [TradeDirection.LONG] := by
    norm_num +decide [marginProcessAllData, marginStep, marginCreateNewTrade,
      marginUpdateTradeWithFill, binanceCloseTrade, lastActionClosing, marginFinalizeTrade,
      bnAggregateTimeline, bnCanMerge, bnMergeEvents, groupRuns, buildInstrumentsIndex,
      alGet, alSet, alErase, alValues, List.insertionSort, List.orderedInsert, fillTsLE,
      jsToLower, charToLowerAscii, FLOATING_POINT_TOLERANCE, cxFill1, cxFill2]
  have h2 : (marginProcessAllData [cxFill2, cxFill1] [] [] []).map (fun t => t.direction) =
      [TradeDirection.SHORT] := by
    norm_num +decide [marginProcessAllData, marginStep, marginCreateNewTrade,
      marginUpdateTradeWithFill, binanceCloseTrade, lastActionClosing, marginFinalizeTrade,
      bnAggregateTimeline, bnCanMerge, bnMergeEvents, groupRuns, buildInstrumentsIndex,
      alGet, alSet, alErase, alValues, List.insertionSort, List.orderedInsert, fillTsLE,
      jsToLower, charToLowerAscii, FLOATING_POINT_TOLERANCE, cxFill1, cxFill2]
  refine ⟨List.Perm.swap cxFill2 cxFill1 [], h1, h2, ?_⟩
  intro heq
  rw [heq, h2] at h1
  exact absurd h1 (by decide)

/-- Witness for C1: two fills at distinct timestamps satisfy both key
hypotheses, and swapping them leaves the OKX and coin-margined outputs
unchanged. -/
theorem c1_order_independence_witness :
    okxProcessAllData [wFillA, wFillB] [] [] [] =
        okxProcessAllData [wFillB, wFillA] [] [] [] ∧
      cmProcessAllData [wFillA, wFillB] [] [] [] =
        cmProcessAllData [wFillB, wFillA] [] [] [] := by
  have hp : ([wFillA, wFillB] : List Fill).Perm [wFillB, wFillA] :=
    List.Perm.swap wFillB wFillA []
  have hts : ∀ a ∈ ([wFillA, wFillB] : List Fill), ∀ b ∈ ([wFillA, wFillB] : List Fill),
      a.ts = b.ts → a = b := by
    intro a ha b hb hab
    fin_cases ha <;> fin_cases hb <;>
      first
        | rfl
        | (exfalso; norm_num [wFillA, wFillB] at hab)
  exact ⟨c1_order_independence.1 [wFillA, wFillB] [wFillB, wFillA] [] [] [] hp
      (fun a ha b hb hts2 _ => hts a ha b hb hts2),
    (c1_order_independence.2 [wFillA, wFillB] [wFillB, wFillA] [] [] [] hp hts).1⟩

/-- C8 counterexample: a coin-margined fill with the uppercase position
side that the Binance API delivers opens a trade whose key keeps the raw
side, while the risk loop lowercases the snapshot side, so the matching
snapshot never annotates the open trade and its notional stays none. -/
theorem c8_counterexample :
    c8Fill.instId = c8Risk.symbol ∧
      jsToLower c8Fill.posSide = jsToLower c8Risk.positionSide ∧
      (cmProcessAllData [c8Fill] [] [] [c8Risk]).map
          (fun t => (t.status, t.currentNotionalValue)) =
        [(PositionStatus.OPEN, none)] := by
  refine ⟨rfl, rfl, ?_⟩
  norm_num +decide [cmProcessAllData, cmStep, cmCreateNewTrade, cmUpdateTradeWithFill,
    binanceCloseTrade, lastActionClosing, cmApplyBillsAndRisks, binanceApplyFundingBills,
    applyFundingBillFirstMatch, cmApplyRisks, alUpdate, cmFinalizeTrade, bnAggregateTimeline,
    bnCanMerge, bnMergeEvents, groupRuns, buildInstrumentsIndex, alGet, alSet, alErase,
    alValues, List.insertionSort, List.orderedInsert, fillTsLE, jsToLower, charToLowerAscii,
    FLOATING_POINT_TOLERANCE, c8Fill, c8Risk]

/-- C8 (amended): the actual risk-annotation behavior per futures variant.
The OKX and coin-margined risk loops set the notional of every open entry
whose stored key equals the snapshot symbol joined with the lowercased
snapshot side; this matches the OKX fill-fold key, which also lowercases,
but not the coin-margined fill-fold key, which keeps the raw side.  The
Binance USD-margined risk loop is a no-op: its output is independent of
the risk snapshots. -/
theorem c8_risk_annotation :
    (∀ (m : List (String × OkxTradeBuilder)) (r : PositionRisk),
      ∀ p ∈ okxApplyRisks m [r],
        p.1 = r.symbol ++ "-" ++ jsToLower r.positionSide →
        (p.2 : OkxTradeBuilder).trade.currentNotionalValue = some r.notionalUsd) ∧
      (∀ (m : List (String × StandardizedTrade)) (r : PositionRisk),
        ∀ p ∈ cmApplyRisks m [r],
          p.1 = r.symbol ++ "-" ++ jsToLower r.positionSide →
          (p.2 : StandardizedTrade).currentNotionalValue = some r.notionalUsd) ∧
      (∀ (rawFills : List Fill) (rawBills : List Bill)
          (instrumentDetails : List InstrumentDetail) (rawPositionRisks : List PositionRisk),
        umProcessAllData rawFills rawBills instrumentDetails rawPositionRisks =
          umProcessAllData rawFills rawBills instrumentDetails []) := by
  refine ⟨?_, ?_, ?_⟩
  · intro m r p hp hkey
    simp only [okxApplyRisks, List.foldl_cons, List.foldl_nil, alUpdate] at hp
    rcases List.mem_map.1 hp with ⟨q, hq, hpq⟩
    by_cases hk : (q.1 == r.symbol ++ "-" ++ jsToLower r.positionSide) = true
    · rw [if_pos hk] at hpq
      rw [← hpq]
    · rw [if_neg (by simp [hk])] at hpq
      rw [← hpq] at hkey
      exact absurd (beq_iff_eq.2 hkey) (by simp [hk])
  · intro m r p hp hkey
    simp only [cmApplyRisks, List.foldl_cons, List.foldl_nil, alUpdate] at hp
    rcases List.mem_map.1 hp with ⟨q, hq, hpq⟩
    by_cases hk : (q.1 == r.symbol ++ "-" ++ jsToLower r.positionSide) = true
    · rw [if_pos hk] at hpq
      rw [← hpq]
    · rw [if_neg (by simp [hk])] at hpq
      rw [← hpq] at hkey
      exact absurd (beq_iff_eq.2 hkey) (by simp [hk])
  · intro rawFills rawBills instrumentDetails rawPositionRisks
    rfl

/-- Witness for C8: a singleton open map whose key is the lowercased risk
key of the lowercase snapshot is annotated with the snapshot notional. -/
theorem c8_risk_annotation_witness :
    (c8RiskLower.symbol ++ "-" ++ jsToLower c8RiskLower.positionSide,
        ({ cmCreateNewTrade [] c8FillLower with
            currentNotionalValue := some c8RiskLower.notionalUsd } : StandardizedTrade)) ∈
      cmApplyRisks [(c8RiskLower.symbol ++ "-" ++ jsToLower c8RiskLower.positionSide,
        cmCreateNewTrade [] c8FillLower)] [c8RiskLower] ∧
    ({ cmCreateNewTrade [] c8FillLower with
        currentNotionalValue := some c8RiskLower.notionalUsd } :
      StandardizedTrade).currentNotionalValue = some c8RiskLower.notionalUsd := by
  have hmem : (c8RiskLower.symbol ++ "-" ++ jsToLower c8RiskLower.positionSide,
      ({ cmCreateNewTrade [] c8FillLower with
          currentNotionalValue := some c8RiskLower.notionalUsd } : StandardizedTrade)) ∈
      cmApplyRisks [(c8RiskLower.symbol ++ "-" ++ jsToLower c8RiskLower.positionSide,
        cmCreateNewTrade [] c8FillLower)] [c8RiskLower] := by
    simp only [cmApplyRisks, List.foldl_cons, List.foldl_nil, alUpdate, List.map_cons,
      List.map_nil, beq_self_eq_true, if_true]
    exact List.mem_singleton.2 rfl
  exact ⟨hmem, c8_risk_annotation.2.1 _ c8RiskLower _ hmem rfl⟩
